import Mathlib

/-!
# OBSEKeywords: the keyword index, its save-game codec and their invariants

A shallow embedding of `KeywordManager` (src/Keywords.cpp, src/Keywords.h), of
`INILoader::Trim` (src/INIParser.cpp) and of `KeywordMessageHandler` (src/main.cpp, with the
payload structs of src/KeywordAPI.h).

Modelling conventions
* `std::string` is a list of bytes (`Nat` values below 256); `UInt32` values are `Nat`.
* `std::set<T>` and `std::map<K,V>` are lists in iteration order (ascending keys); the
  container operations used by the source (`find`, `operator[]`, `insert`, `erase`,
  `size`, `empty`, range-for) are the functions of the first section.
* The host serialization interface is a list of records; `ResolveRefID` is a function
  returning `Option Nat` (`none` is the `false` return).
-/

namespace OBSEKeywords

/-! ## Containers -/

/-- A `std::string`: its bytes, in order. -/
abbrev StdString := List Nat

/-- The `operator<` of `std::string`: byte-wise lexicographic comparison. -/
def strLt : StdString → StdString → Bool
  | [], [] => false
  | [], _ :: _ => true
  | _ :: _, [] => false
  | a :: as, b :: bs => if a < b then true else if b < a then false else strLt as bs

/-- The `operator<` of `UInt32`. -/
def u32Lt (a b : Nat) : Bool := decide (a < b)

/-- Position-preserving insertion of a new element into a list kept ascending for `lt`. -/
def orderedIns {α : Type} (lt : α → α → Bool) (x : α) : List α → List α
  | [] => [x]
  | y :: ys => if lt x y then x :: y :: ys else y :: orderedIns lt x ys

/-- The `std::set::insert(x)`: no effect when `x` is already an element. -/
def setInsert {α : Type} [DecidableEq α] (lt : α → α → Bool) (x : α) (s : List α) : List α :=
  if x ∈ s then s else orderedIns lt x s

/-- The `std::set::erase(x)` by key. -/
def setErase {α : Type} [DecidableEq α] (x : α) (s : List α) : List α :=
  s.filter (fun y => decide (y ≠ x))

/-- The `std::map::find(k)`: the mapped value, `none` for `end()`. -/
def mapFind {κ ν : Type} [DecidableEq κ] (k : κ) : List (κ × ν) → Option ν
  | [] => none
  | (k', v) :: rest => if k' = k then some v else mapFind k rest

/-- Assignment through a reference to the value mapped at `k` (the entry `find` returns). -/
def mapModify {κ ν : Type} [DecidableEq κ] (k : κ) (f : ν → ν) : List (κ × ν) → List (κ × ν)
  | [] => []
  | (k', v) :: rest => if k' = k then (k', f v) :: rest else (k', v) :: mapModify k f rest

/-- Insertion of a new entry at its ordered position. -/
def mapInsertNew {κ ν : Type} (lt : κ → κ → Bool) (k : κ) (v : ν) :
    List (κ × ν) → List (κ × ν)
  | [] => [(k, v)]
  | (k', v') :: rest =>
    if lt k k' then (k, v) :: (k', v') :: rest else (k', v') :: mapInsertNew lt k v rest

/-- The `std::map::operator[](k)`: a value-initialised entry is created when `k` is absent. -/
def mapIndex {κ ν : Type} [DecidableEq κ] (lt : κ → κ → Bool) (k : κ) (dflt : ν)
    (m : List (κ × ν)) : List (κ × ν) :=
  match mapFind k m with
  | some _ => m
  | none => mapInsertNew lt k dflt m

/-- The `std::map::erase(it)` for the iterator returned by `find(k)`. -/
def mapErase {κ ν : Type} [DecidableEq κ] (k : κ) (m : List (κ × ν)) : List (κ × ν) :=
  m.filter (fun e => decide (e.1 ≠ k))

/-! ## Strings -/

/-- The `::tolower` of the "C" locale on one byte: `A` to `Z` are mapped to `a` to `z`,
every other byte is returned as it is. -/
def tolower (c : Nat) : Nat := if 65 ≤ c ∧ c ≤ 90 then c + 32 else c

/-- The `std::transform(s.begin(), s.end(), s.begin(), ::tolower)`. -/
def toLowerStr (s : StdString) : StdString := s.map tolower

/-- The `std::isspace` of the "C" locale: space, `\t`, `\n`, `\v`, `\f`, `\r`. -/
def isspace (c : Nat) : Bool := c == 32 || (9 ≤ c && c ≤ 13)

/-- Helper `INILoader::Trim`: erase the leading, then the trailing, whitespace run. -/
def Trim (s : StdString) : StdString :=
  ((s.dropWhile isspace).reverse.dropWhile isspace).reverse

/-- The `std::string(const char*)` constructor: the bytes before the first NUL. -/
def cstr (buffer : List Nat) : StdString := buffer.takeWhile (fun c => c != 0)

/-! ## KeywordManager -/

/-- The two private maps of `class KeywordManager`. -/
structure KeywordManager where
  /-- Map of form ID to the set of keyword strings. -/
  formKeywords : List (Nat × List StdString)
  /-- Map of keyword to the set of form IDs (reverse index). -/
  keywordForms : List (StdString × List Nat)
  deriving DecidableEq

/-- The state of a freshly constructed `KeywordManager`. -/
def KeywordManager.empty : KeywordManager := ⟨[], []⟩

/-- Method `KeywordManager::AddKeyword`: the returned flag and the manager afterwards. -/
def AddKeyword (mgr : KeywordManager) (formID : Nat) (keyword : StdString) :
    Bool × KeywordManager :=
  if keyword.isEmpty then (false, mgr)
  else
    let lowerKeyword := toLowerStr keyword
    (true,
      { formKeywords :=
          mapModify formID (setInsert strLt lowerKeyword)
            (mapIndex u32Lt formID [] mgr.formKeywords)
        keywordForms :=
          mapModify lowerKeyword (setInsert u32Lt formID)
            (mapIndex strLt lowerKeyword [] mgr.keywordForms) })

/-- The `find` / `erase(x)` / `if (empty()) erase(it)` block shared by the removers. -/
def eraseAndPrune {κ ν : Type} [DecidableEq κ] [DecidableEq ν] (k : κ) (x : ν)
    (m : List (κ × List ν)) : List (κ × List ν) :=
  match mapFind k m with
  | some s =>
    let s' := setErase x s
    if s'.isEmpty then mapErase k m else mapModify k (fun _ => s') m
  | none => m

/-- Method `KeywordManager::RemoveKeyword`. -/
def RemoveKeyword (mgr : KeywordManager) (formID : Nat) (keyword : StdString) :
    Bool × KeywordManager :=
  let lowerKeyword := toLowerStr keyword
  (true,
    { formKeywords := eraseAndPrune formID lowerKeyword mgr.formKeywords
      keywordForms := eraseAndPrune lowerKeyword formID mgr.keywordForms })

/-- Method `KeywordManager::HasKeyword`. -/
def HasKeyword (mgr : KeywordManager) (formID : Nat) (keyword : StdString) : Bool :=
  let lowerKeyword := toLowerStr keyword
  match mapFind formID mgr.formKeywords with
  | some s => decide (lowerKeyword ∈ s)
  | none => false

/-- Method `KeywordManager::GetKeywords`. -/
def GetKeywords (mgr : KeywordManager) (formID : Nat) : List StdString :=
  match mapFind formID mgr.formKeywords with
  | some s => s
  | none => []

/-- Method `KeywordManager::GetFormsWithKeyword`. -/
def GetFormsWithKeyword (mgr : KeywordManager) (keyword : StdString) : List Nat :=
  let lowerKeyword := toLowerStr keyword
  match mapFind lowerKeyword mgr.keywordForms with
  | some s => s
  | none => []

/-- Method `KeywordManager::GetKeywordCount`. -/
def GetKeywordCount (mgr : KeywordManager) (formID : Nat) : Nat :=
  match mapFind formID mgr.formKeywords with
  | some s => s.length
  | none => 0

/-- Method `KeywordManager::ClearFormKeywords`. -/
def ClearFormKeywords (mgr : KeywordManager) (formID : Nat) : KeywordManager :=
  match mapFind formID mgr.formKeywords with
  | some s =>
    { formKeywords := mapErase formID mgr.formKeywords
      keywordForms :=
        s.foldl (fun kf keyword => eraseAndPrune keyword formID kf) mgr.keywordForms }
  | none => mgr

/-- Method `KeywordManager::ClearAllKeywords`. -/
def ClearAllKeywords (_mgr : KeywordManager) : KeywordManager := ⟨[], []⟩

/-! ## Serialization

The host interface (`OBSESerializationInterface`) is not part of the plugin.  Its contract:
`WriteRecord(type, version, buf, length)` appends one record holding `length` bytes;
`GetNextRecordInfo` moves to the next record of the plugin (skipping whatever is unread
of the current one) and returns `false` when none is left; `ReadRecordData(buf, length)`
copies at most `length` bytes of the current record and leaves the rest of `buf`
untouched; `ResolveRefID(old, &new)` translates a stored identifier or returns `false`.
Bytes of a destination that a short read leaves untouched are uninitialised memory; they
are supplied by the parameter `junk` (offset to byte).  Allocation is taken to succeed.
-/

/-- One record of the save-game stream: type tag, version and payload bytes. -/
structure Record where
  /-- The 4-byte symbolic type code. -/
  type : Nat
  /-- The record version. -/
  version : Nat
  /-- The payload bytes. -/
  data : List Nat
  deriving DecidableEq

/-- The multi-character constant 'KWCT'. -/
def KWCT : Nat := 0x4B574354
/-- The multi-character constant 'KWFM'. -/
def KWFM : Nat := 0x4B57464D
/-- The multi-character constant 'KWKC'. -/
def KWKC : Nat := 0x4B574B43
/-- The multi-character constant 'KWKL'. -/
def KWKL : Nat := 0x4B574B4C
/-- The multi-character constant 'KWKD'. -/
def KWKD : Nat := 0x4B574B44

/-- The four bytes of a `UInt32` object (little-endian, x86). -/
def u32Bytes (n : Nat) : List Nat :=
  [n % 256, n / 256 % 256, n / 65536 % 256, n / 16777216 % 256]

/-- The `UInt32` value held by four bytes (little-endian, x86). -/
def u32OfBytes (b : List Nat) : Nat :=
  b.getD 0 0 + 256 * b.getD 1 0 + 65536 * b.getD 2 0 + 16777216 * b.getD 3 0

/-- The contents of a `length`-byte destination after `ReadRecordData(buf, length)` on a
record holding `data`: the first bytes come from the record, the others stay as they were. -/
def ReadRecordData (junk : Nat → Nat) (length : Nat) (data : List Nat) : List Nat :=
  (List.range length).map (fun i => data.getD i (junk i % 256))

/-- A `ReadRecordData(&x, sizeof(x))` into a `UInt32` variable `x`. -/
def readU32 (junk : Nat → Nat) (data : List Nat) : Nat :=
  u32OfBytes (ReadRecordData junk 4 data)

/-- The records `Save` writes for the keywords of one form (inner range-for). -/
def saveKeywords : List StdString → List Record
  | [] => []
  | keyword :: rest =>
    let keywordLen := keyword.length % 2 ^ 32
    ⟨KWKL, 1, u32Bytes keywordLen⟩ :: ⟨KWKD, 1, keyword.take keywordLen⟩ :: saveKeywords rest

/-- The records `Save` writes for the entries of `formKeywords` (outer range-for). -/
def saveForms : List (Nat × List StdString) → List Record
  | [] => []
  | (formID, keywords) :: rest =>
    let numKeywords := keywords.length % 2 ^ 32
    ⟨KWFM, 1, u32Bytes formID⟩ :: ⟨KWKC, 1, u32Bytes numKeywords⟩ ::
      (saveKeywords keywords ++ saveForms rest)

/-- Method `KeywordManager::Save`: the records written, in order. -/
def Save (mgr : KeywordManager) : List Record :=
  let numForms := mgr.formKeywords.length % 2 ^ 32
  ⟨KWCT, 1, u32Bytes numForms⟩ :: saveForms mgr.formKeywords

/-- The loop `for (UInt32 i = 0; i < numKeywords; i++)` of `Load`, run for the given number
of iterations: the records left unread and the manager afterwards. -/
def readKeywords (junk : Nat → Nat) (newFormID : Nat) :
    Nat → List Record → KeywordManager → List Record × KeywordManager
  | 0, recs, mgr => (recs, mgr)
  | n + 1, [], mgr => readKeywords junk newFormID n [] mgr
  | n + 1, r1 :: rest1, mgr =>
    if r1.type = KWKL then
      let keywordLen := readU32 junk r1.data
      match rest1 with
      | [] => readKeywords junk newFormID n [] mgr
      | r2 :: rest2 =>
        if r2.type = KWKD then
          let buffer := ReadRecordData junk keywordLen r2.data ++ [0]
          let keyword := cstr buffer
          readKeywords junk newFormID n rest2 (AddKeyword mgr newFormID keyword).2
        else readKeywords junk newFormID n rest2 mgr
    else readKeywords junk newFormID n rest1 mgr

/-- The loop `while (intfc->GetNextRecordInfo(...))` of `Load`; `none` when the iteration
budget `fuel` is used up before the stream is. -/
def loadLoop (resolve : Nat → Option Nat) (junk : Nat → Nat) :
    Nat → List Record → KeywordManager → Option KeywordManager
  | 0, _, _ => none
  | _ + 1, [], mgr => some mgr
  | fuel + 1, r :: rest, mgr =>
    if r.type = KWCT then
      loadLoop resolve junk fuel rest mgr
    else if r.type = KWFM then
      let oldFormID := readU32 junk r.data
      let newFormID :=
        match resolve oldFormID with
        | some resolved => resolved
        | none => oldFormID
      match rest with
      | [] => loadLoop resolve junk fuel [] mgr
      | r2 :: rest2 =>
        if r2.type = KWKC then
          let numKeywords := readU32 junk r2.data
          let out := readKeywords junk newFormID numKeywords rest2 mgr
          loadLoop resolve junk fuel out.1 out.2
        else loadLoop resolve junk fuel rest2 mgr
    else loadLoop resolve junk fuel rest mgr

/-- Method `KeywordManager::Load` on the stream `records`; the loop makes at most one
iteration per record, plus the final failing `GetNextRecordInfo`. -/
def Load (resolve : Nat → Option Nat) (junk : Nat → Nat) (records : List Record)
    (mgr : KeywordManager) : Option KeywordManager :=
  loadLoop resolve junk (records.length + 1) records (ClearAllKeywords mgr)

/-- The set stored for `k`, empty when `k` has no entry. -/
def lookupSet {κ ν : Type} [DecidableEq κ] (k : κ) (m : List (κ × List ν)) : List ν :=
  (mapFind k m).getD []

/-- Forward and reverse map agree: `formID` is a holder of `keyword` exactly when `keyword`
is in the set of `formID`. -/
def Consistent (mgr : KeywordManager) : Prop :=
  ∀ (formID : Nat) (keyword : StdString),
    formID ∈ lookupSet keyword mgr.keywordForms ↔ keyword ∈ lookupSet formID mgr.formKeywords

/-- No entry of a map holds an empty set. -/
def AllNonEmpty {κ ν : Type} (m : List (κ × List ν)) : Prop :=
  ∀ e ∈ m, e.2 ≠ []

/-- Neither map of the manager holds an empty set. -/
def NoEmptyEntry (mgr : KeywordManager) : Prop :=
  AllNonEmpty mgr.formKeywords ∧ AllNonEmpty mgr.keywordForms

/-- Every keyword stored in the forward map is its own lower-case folding and non-empty. -/
def LowerStored (mgr : KeywordManager) : Prop :=
  ∀ (formID : Nat) (keyword : StdString),
    keyword ∈ lookupSet formID mgr.formKeywords → toLowerStr keyword = keyword ∧ keyword ≠ []

/-- The calls `AddKeyword(formID, keyword)` for the listed keywords, in order. -/
def addKeywords (mgr : KeywordManager) (formID : Nat) (keywords : List StdString) :
    KeywordManager :=
  keywords.foldl (fun m keyword => (AddKeyword m formID keyword).2) mgr

/-- The calls `AddKeyword` that `Load` makes for the entries `es` of a saved forward map:
each identifier as resolved (the stored value when resolution fails), each keyword as the
C string rebuilt from its bytes. -/
def replay (resolve : Nat → Option Nat) (es : List (Nat × List StdString))
    (mgr : KeywordManager) : KeywordManager :=
  es.foldl
    (fun m e => addKeywords m ((resolve e.1).getD e.1) (e.2.map (fun k => cstr (k ++ [0]))))
    mgr

/-- The identifiers, set sizes and keyword lengths of the forward map are `UInt32` values. -/
def Fits32 (es : List (Nat × List StdString)) : Prop :=
  ∀ e ∈ es, e.1 < 2 ^ 32 ∧ e.2.length < 2 ^ 32 ∧ ∀ k ∈ e.2, k.length < 2 ^ 32

/-- No key occurs twice in the map. -/
def NodupKeys {κ ν : Type} (m : List (κ × ν)) : Prop :=
  (m.map Prod.fst).Nodup

/-- No key occurs twice in either map of the manager. -/
def KeysDistinct (mgr : KeywordManager) : Prop :=
  NodupKeys mgr.formKeywords ∧ NodupKeys mgr.keywordForms

/-- States reachable from the empty index by the mutators and by `Load`. -/
inductive Reachable : KeywordManager → Prop
  | empty : Reachable KeywordManager.empty
  | add {mgr : KeywordManager} (formID : Nat) (keyword : StdString) :
      Reachable mgr → Reachable (AddKeyword mgr formID keyword).2
  | remove {mgr : KeywordManager} (formID : Nat) (keyword : StdString) :
      Reachable mgr → Reachable (RemoveKeyword mgr formID keyword).2
  | clear {mgr : KeywordManager} (formID : Nat) :
      Reachable mgr → Reachable (ClearFormKeywords mgr formID)
  | clearAll {mgr : KeywordManager} :
      Reachable mgr → Reachable (ClearAllKeywords mgr)
  | load {mgr mgr' : KeywordManager} (resolve : Nat → Option Nat) (junk : Nat → Nat)
      (records : List Record) :
      Reachable mgr → Load resolve junk records mgr = some mgr' → Reachable mgr'

/-! ## The message handler (src/main.cpp, src/KeywordAPI.h)

A `const char*` is `none` for the null pointer and otherwise the characters before the
terminating NUL.  The payload `msg->data` is an untyped pointer that the handler casts by
message type: the handler is undefined (`none`) when the payload is not of the struct the
type tag announces, or when a null keyword is turned into a `std::string`.  The host
constant `OBSEMessagingInterface::kMessage_PostPostLoad` is a parameter.
-/

/-- The multi-character constant 'KWRD' (`KeywordAPI::kMessage_Ready`). -/
def kMessage_Ready : Nat := 0x4B575244
/-- The multi-character constant 'KWAD' (`KeywordAPI::kMessage_AddKeyword`). -/
def kMessage_AddKeyword : Nat := 0x4B574144
/-- The multi-character constant 'KWRM' (`KeywordAPI::kMessage_RemoveKeyword`). -/
def kMessage_RemoveKeyword : Nat := 0x4B57524D
/-- The multi-character constant 'KWHS' (`KeywordAPI::kMessage_HasKeyword`). -/
def kMessage_HasKeyword : Nat := 0x4B574853
/-- The multi-character constant 'KWCT' (`KeywordAPI::kMessage_GetCount`). -/
def kMessage_GetCount : Nat := 0x4B574354
/-- The multi-character constant 'KWCL' (`KeywordAPI::kMessage_Clear`). -/
def kMessage_Clear : Nat := 0x4B57434C
/-- The multi-character constant 'KWGN' (`KeywordAPI::kMessage_GetNth`). -/
def kMessage_GetNth : Nat := 0x4B57474E
/-- The multi-character constant 'KWAN' (`KeywordAPI::kMessage_HasAny`). -/
def kMessage_HasAny : Nat := 0x4B57414E
/-- The multi-character constant 'KWAL' (`KeywordAPI::kMessage_HasAll`). -/
def kMessage_HasAll : Nat := 0x4B57414C

/-- The struct `KeywordAPI::BasicData`. -/
structure BasicData where
  /-- The identifier. -/
  formID : Nat
  /-- The keyword pointer, in. -/
  keyword : Option StdString
  /-- The flag, out. -/
  result : Bool
  /-- The count, out. -/
  count : Nat
  deriving DecidableEq

/-- The struct `KeywordAPI::GetNthData`. -/
structure GetNthData where
  /-- The identifier. -/
  formID : Nat
  /-- The position asked for, in. -/
  index : Nat
  /-- The bytes of the buffer `char keyword[256]`, out. -/
  keyword : List Nat
  deriving DecidableEq

/-- The struct `KeywordAPI::MultiKeywordData`. -/
structure MultiKeywordData where
  /-- The identifier. -/
  formID : Nat
  /-- The slots of `const char* keywords[4]`, in order. -/
  keywords : List (Option StdString)
  /-- The flag, out. -/
  result : Bool
  deriving DecidableEq

/-- What `msg->data` points to. -/
inductive Payload where
  | basic (data : BasicData)
  | nth (data : GetNthData)
  | multi (data : MultiKeywordData)
  | host
  deriving DecidableEq

/-- The struct `OBSEMessagingInterface::Message`: type tag and data pointer. -/
structure Message where
  /-- The type tag. -/
  type : Nat
  /-- The data pointer, `none` for null. -/
  data : Option Payload
  deriving DecidableEq

/-- The effect of one handler call: the manager afterwards, what `msg->data` points to
afterwards, and the messages the handler dispatched. -/
structure HandlerOutcome where
  /-- The keyword manager afterwards. -/
  mgr : KeywordManager
  /-- The payload afterwards. -/
  data : Option Payload
  /-- The messages dispatched, in order. -/
  sent : List Message
  deriving DecidableEq

/-- The call `strncpy_s(dest, sizeInBytes, src, _TRUNCATE)` on a C string `src`: as many
characters as fit are copied and a NUL is written after them; the bytes of `dest` behind
that NUL are kept. -/
def strncpy_s (dest : List Nat) (sizeInBytes : Nat) (src : StdString) : List Nat :=
  let copied := src.take (sizeInBytes - 1)
  copied ++ [0] ++ dest.drop (copied.length + 1)

/-- The loop of the `kMessage_HasAny` case, `for (int i = 0; i < 4 && data->keywords[i]; ++i)`,
from index `i` with `4 - i` iterations left: the value of `data->result` at its end. -/
def hasAnyLoop (mgr : KeywordManager) (data : MultiKeywordData) : Nat → Nat → Bool
  | 0, _ => false
  | n + 1, i =>
    match data.keywords.getD i none with
    | none => false
    | some keyword =>
      if HasKeyword mgr data.formID keyword then true
      else hasAnyLoop mgr data n (i + 1)

/-- The loop of the `kMessage_HasAll` case, from index `i` with `4 - i` iterations left:
the value of `data->result` at its end. -/
def hasAllLoop (mgr : KeywordManager) (data : MultiKeywordData) : Nat → Nat → Bool
  | 0, _ => true
  | n + 1, i =>
    match data.keywords.getD i none with
    | none => true
    | some keyword =>
      if HasKeyword mgr data.formID keyword then hasAllLoop mgr data n (i + 1)
      else false

/-- Function `KeywordMessageHandler` of src/main.cpp. -/
def KeywordMessageHandler (kMessage_PostPostLoad : Nat) (mgr : KeywordManager)
    (msg : Option Message) : Option HandlerOutcome :=
  match msg with
  | none => some ⟨mgr, none, []⟩
  | some m =>
    match m.data with
    | none => some ⟨mgr, none, []⟩
    | some payload =>
      if m.type = kMessage_PostPostLoad then
        some ⟨mgr, some payload, [⟨kMessage_Ready, none⟩]⟩
      else if m.type = kMessage_AddKeyword then
        match payload with
        | .basic data =>
          match data.keyword with
          | some keyword =>
            let r := AddKeyword mgr data.formID keyword
            some ⟨r.2, some (.basic { data with result := r.1 }), []⟩
          | none => none
        | _ => none
      else if m.type = kMessage_RemoveKeyword then
        match payload with
        | .basic data =>
          match data.keyword with
          | some keyword =>
            let r := RemoveKeyword mgr data.formID keyword
            some ⟨r.2, some (.basic { data with result := r.1 }), []⟩
          | none => none
        | _ => none
      else if m.type = kMessage_HasKeyword then
        match payload with
        | .basic data =>
          match data.keyword with
          | some keyword =>
            some ⟨mgr,
              some (.basic { data with result := HasKeyword mgr data.formID keyword }), []⟩
          | none => none
        | _ => none
      else if m.type = kMessage_GetCount then
        match payload with
        | .basic data =>
          some ⟨mgr,
            some (.basic { data with count := GetKeywordCount mgr data.formID % 2 ^ 32 }), []⟩
        | _ => none
      else if m.type = kMessage_Clear then
        match payload with
        | .basic data => some ⟨ClearFormKeywords mgr data.formID, some (.basic data), []⟩
        | _ => none
      else if m.type = kMessage_GetNth then
        match payload with
        | .nth data =>
          let cleared := data.keyword.set 0 0
          let keywords := GetKeywords mgr data.formID
          let buffer :=
            if data.index < keywords.length then
              strncpy_s cleared 256 (cstr (keywords.getD data.index [] ++ [0]))
            else cleared
          some ⟨mgr, some (.nth { data with keyword := buffer }), []⟩
        | _ => none
      else if m.type = kMessage_HasAny then
        match payload with
        | .multi data =>
          some ⟨mgr, some (.multi { data with result := hasAnyLoop mgr data 4 0 }), []⟩
        | _ => none
      else if m.type = kMessage_HasAll then
        match payload with
        | .multi data =>
          some ⟨mgr, some (.multi { data with result := hasAllLoop mgr data 4 0 }), []⟩
        | _ => none
      else some ⟨mgr, some payload, []⟩

/-- The keywords of the slots that precede the first null slot of `keywords[4]`. -/
def leadingKeywords (keywords : List (Option StdString)) : List StdString :=
  ((keywords.take 4).takeWhile (fun slot => slot.isSome)).filterMap id

/-- Two strings differ at most in letter case: same length and, position by position, the
same byte or the upper-case and the lower-case form of one letter `A` to `Z`. -/
def differOnlyInCase : StdString → StdString → Bool
  | [], [] => true
  | a :: as, b :: bs =>
    (a == b || (65 ≤ a && a ≤ 90 && b == a + 32) || (65 ≤ b && b ≤ 90 && a == b + 32))
      && differOnlyInCase as bs
  | _, _ => false

/-! ## The client side (src/KeywordAPI.h)

The client state is the latch `s_ready` and the pointer `s_msgIntfc` (only whether it is
null matters).  `Dispatch` hands the message to the listener `KeywordMessageHandler`, which
the plugin registers for every sender; the client then reads its answer from the payload.
A call is undefined (`none`) when it dereferences a null `s_msgIntfc` or when the handler is
undefined.
-/

/-- The inline variables `s_ready` and `s_msgIntfc` of `namespace KeywordAPI`. -/
structure ClientState where
  /-- The ready latch. -/
  s_ready : Bool
  /-- Whether `s_msgIntfc` is non-null. -/
  hasMsgIntfc : Bool
  deriving DecidableEq

/-- The client state at process start: `s_ready = false`, `s_msgIntfc = nullptr`. -/
def ClientState.initial : ClientState := ⟨false, false⟩

/-- What one client request yields: the value returned, the keyword manager of the plugin
afterwards and the messages the client dispatched. -/
structure ClientOutcome (ρ : Type) where
  /-- The value returned to the caller. -/
  ret : ρ
  /-- The keyword manager afterwards. -/
  mgr : KeywordManager
  /-- The messages dispatched by the call, in order. -/
  dispatched : List Message
  deriving DecidableEq

/-- Function `KeywordAPI::MessageHandler`. -/
def KeywordAPI.MessageHandler (c : ClientState) (msg : Option Message) : ClientState :=
  match msg with
  | some m => if m.type = kMessage_Ready then { c with s_ready := true } else c
  | none => c

/-- Function `KeywordAPI::Init`, with whether the interface pointer given is non-null. -/
def KeywordAPI.Init (c : ClientState) (msgIntfc : Bool) : ClientState :=
  { c with hasMsgIntfc := msgIntfc }

/-- Function `KeywordAPI::IsReady`. -/
def KeywordAPI.IsReady (c : ClientState) : Bool :=
  if !c.s_ready then false else c.s_ready && c.hasMsgIntfc

/-- The call `s_msgIntfc->Dispatch(s_pluginHandle, type, &data, sizeof(data), nullptr)`: the
manager and the payload after the listener has run. -/
def KeywordAPI.Dispatch (kMessage_PostPostLoad : Nat) (c : ClientState) (mgr : KeywordManager)
    (msg : Message) : Option (KeywordManager × Option Payload) :=
  if c.hasMsgIntfc then
    match KeywordMessageHandler kMessage_PostPostLoad mgr (some msg) with
    | some out => some (out.mgr, out.data)
    | none => none
  else none

/-- Function `KeywordAPI::AddKeyword`. -/
def KeywordAPI.AddKeyword (kMessage_PostPostLoad : Nat) (c : ClientState)
    (mgr : KeywordManager) (formID : Nat) (keyword : Option StdString) :
    Option (ClientOutcome Bool) :=
  let msg : Message := ⟨kMessage_AddKeyword, some (.basic ⟨formID, keyword, false, 0⟩)⟩
  match KeywordAPI.Dispatch kMessage_PostPostLoad c mgr msg with
  | some (mgr', some (.basic data)) => some ⟨data.result, mgr', [msg]⟩
  | _ => none

/-- Function `KeywordAPI::RemoveKeyword`. -/
def KeywordAPI.RemoveKeyword (kMessage_PostPostLoad : Nat) (c : ClientState)
    (mgr : KeywordManager) (formID : Nat) (keyword : Option StdString) :
    Option (ClientOutcome Bool) :=
  if !KeywordAPI.IsReady c || keyword.isNone then some ⟨false, mgr, []⟩
  else
    let msg : Message := ⟨kMessage_RemoveKeyword, some (.basic ⟨formID, keyword, false, 0⟩)⟩
    match KeywordAPI.Dispatch kMessage_PostPostLoad c mgr msg with
    | some (mgr', some (.basic data)) => some ⟨data.result, mgr', [msg]⟩
    | _ => none

/-- Function `KeywordAPI::HasKeyword`. -/
def KeywordAPI.HasKeyword (kMessage_PostPostLoad : Nat) (c : ClientState)
    (mgr : KeywordManager) (formID : Nat) (keyword : Option StdString) :
    Option (ClientOutcome Bool) :=
  if !KeywordAPI.IsReady c || keyword.isNone then some ⟨false, mgr, []⟩
  else
    let msg : Message := ⟨kMessage_HasKeyword, some (.basic ⟨formID, keyword, false, 0⟩)⟩
    match KeywordAPI.Dispatch kMessage_PostPostLoad c mgr msg with
    | some (mgr', some (.basic data)) => some ⟨data.result, mgr', [msg]⟩
    | _ => none

/-- Function `KeywordAPI::GetKeywordCount`. -/
def KeywordAPI.GetKeywordCount (kMessage_PostPostLoad : Nat) (c : ClientState)
    (mgr : KeywordManager) (formID : Nat) : Option (ClientOutcome Nat) :=
  if !KeywordAPI.IsReady c then some ⟨0, mgr, []⟩
  else
    let msg : Message := ⟨kMessage_GetCount, some (.basic ⟨formID, none, false, 0⟩)⟩
    match KeywordAPI.Dispatch kMessage_PostPostLoad c mgr msg with
    | some (mgr', some (.basic data)) => some ⟨data.count, mgr', [msg]⟩
    | _ => none

/-- Function `KeywordAPI::ClearKeywords`. -/
def KeywordAPI.ClearKeywords (kMessage_PostPostLoad : Nat) (c : ClientState)
    (mgr : KeywordManager) (formID : Nat) : Option (ClientOutcome Unit) :=
  if !KeywordAPI.IsReady c then some ⟨(), mgr, []⟩
  else
    let msg : Message := ⟨kMessage_Clear, some (.basic ⟨formID, none, false, 0⟩)⟩
    match KeywordAPI.Dispatch kMessage_PostPostLoad c mgr msg with
    | some (mgr', _) => some ⟨(), mgr', [msg]⟩
    | none => none

/-- Function `KeywordAPI::GetNthKeyword`; `GetNthData data = {}` zeroes the buffer. -/
def KeywordAPI.GetNthKeyword (kMessage_PostPostLoad : Nat) (c : ClientState)
    (mgr : KeywordManager) (formID index : Nat) : Option (ClientOutcome StdString) :=
  if !KeywordAPI.IsReady c then some ⟨[], mgr, []⟩
  else
    let msg : Message := ⟨kMessage_GetNth, some (.nth ⟨formID, index, List.replicate 256 0⟩)⟩
    match KeywordAPI.Dispatch kMessage_PostPostLoad c mgr msg with
    | some (mgr', some (.nth data)) => some ⟨cstr data.keyword, mgr', [msg]⟩
    | _ => none

/-- Function `KeywordAPI::HasAnyKeyword`. -/
def KeywordAPI.HasAnyKeyword (kMessage_PostPostLoad : Nat) (c : ClientState)
    (mgr : KeywordManager) (formID : Nat) (kw1 kw2 kw3 kw4 : Option StdString) :
    Option (ClientOutcome Bool) :=
  if !KeywordAPI.IsReady c then some ⟨false, mgr, []⟩
  else
    let msg : Message :=
      ⟨kMessage_HasAny, some (.multi ⟨formID, [kw1, kw2, kw3, kw4], false⟩)⟩
    match KeywordAPI.Dispatch kMessage_PostPostLoad c mgr msg with
    | some (mgr', some (.multi data)) => some ⟨data.result, mgr', [msg]⟩
    | _ => none

/-- Function `KeywordAPI::HasAllKeywords`. -/
def KeywordAPI.HasAllKeywords (kMessage_PostPostLoad : Nat) (c : ClientState)
    (mgr : KeywordManager) (formID : Nat) (kw1 kw2 kw3 kw4 : Option StdString) :
    Option (ClientOutcome Bool) :=
  if !KeywordAPI.IsReady c then some ⟨false, mgr, []⟩
  else
    let msg : Message :=
      ⟨kMessage_HasAll, some (.multi ⟨formID, [kw1, kw2, kw3, kw4], false⟩)⟩
    match KeywordAPI.Dispatch kMessage_PostPostLoad c mgr msg with
    | some (mgr', some (.multi data)) => some ⟨data.result, mgr', [msg]⟩
    | _ => none

/-! ## The INI loader (src/INIParser.cpp, src/INIParser.h)

A file is the list of lines `std::getline(file, line)` yields, `none` when it cannot be
opened; the file system is a function from paths.  `INILoader::ResolveForm` asks the host
and the editor-ID mapper and is a parameter (0 is "not found").  The directory scan of
`LoadAll` is the list of found names with their directory flag, empty when
`FindFirstFileA` fails.
-/

/-- Function `StripComment`: everything from the first `;` or `#` on is erased. -/
def StripComment (s : StdString) : StdString :=
  s.takeWhile (fun c => c != 59 && c != 35)

/-- The strings that `while (std::getline(ss, kw, delim))` extracts from the rest of the
stream, the characters of the piece under way being held in `cur` (last one first). -/
def getlinePieces (delim : Nat) : StdString → StdString → List StdString
  | [], cur => if cur.isEmpty then [] else [cur.reverse]
  | c :: rest, cur =>
    if c = delim then cur.reverse :: getlinePieces delim rest []
    else getlinePieces delim rest (c :: cur)

/-- Method `INILoader::ParseLine`: the value returned, `outToken` and `outKeywords`. -/
def ParseLine (rawLine : StdString) : Bool × StdString × List StdString :=
  let line := Trim (StripComment rawLine)
  if line.isEmpty then (false, [], [])
  else if line.head? = some 91 then (false, [], [])
  else if 61 ∉ line then (false, [], [])
  else
    let outToken := Trim (line.takeWhile (fun c => c != 61))
    if outToken.isEmpty then (false, outToken, [])
    else
      let keywordPart := (line.dropWhile (fun c => c != 61)).drop 1
      let outKeywords :=
        ((getlinePieces 44 keywordPart []).map Trim).filter (fun kw => !kw.isEmpty)
      if outKeywords.isEmpty then (false, outToken, outKeywords)
      else (true, outToken, outKeywords)

/-- The struct `INILoadResult`. -/
structure INILoadResult where
  /-- The path given to `LoadFile`. -/
  filePath : StdString
  /-- The number of lines whose form was resolved. -/
  formsProcessed : Int
  /-- The number of `AddKeyword` calls that returned true. -/
  keywordsAdded : Int
  /-- The number of lines counted as errors. -/
  errorLines : Int
  deriving DecidableEq

/-- The loop `for (const auto& kw : keywords)` of `LoadFile`. -/
def addParsedKeywords (formID : Nat) (keywords : List StdString)
    (st : INILoadResult × KeywordManager) : INILoadResult × KeywordManager :=
  keywords.foldl
    (fun s kw =>
      let r := AddKeyword s.2 formID kw
      if r.1 then ({ s.1 with keywordsAdded := s.1.keywordsAdded + 1 }, r.2) else (s.1, r.2))
    st

/-- One iteration of the loop `while (std::getline(file, line))` of `LoadFile`. -/
def loadLine (ResolveForm : StdString → Nat) (st : INILoadResult × KeywordManager)
    (line : StdString) : INILoadResult × KeywordManager :=
  let parsed := ParseLine line
  if !parsed.1 then
    let trimmed := Trim (StripComment (Trim line))
    if !trimmed.isEmpty && trimmed.head? != some 91 then
      ({ st.1 with errorLines := st.1.errorLines + 1 }, st.2)
    else st
  else
    let formID := ResolveForm parsed.2.1
    if formID = 0 then ({ st.1 with errorLines := st.1.errorLines + 1 }, st.2)
    else
      let st' := addParsedKeywords formID parsed.2.2 st
      ({ st'.1 with formsProcessed := st'.1.formsProcessed + 1 }, st'.2)

/-- Method `INILoader::LoadFile`: the result struct and the manager afterwards. -/
def LoadFile (ResolveForm : StdString → Nat) (fs : StdString → Option (List StdString))
    (path : StdString) (mgr : KeywordManager) : INILoadResult × KeywordManager :=
  match fs path with
  | none => (⟨path, 0, 0, 0⟩, mgr)
  | some lines => lines.foldl (loadLine ResolveForm) (⟨path, 0, 0, 0⟩, mgr)

/-- Command `Cmd_LoadKeywordsFromINI_Execute`: the value left in `*result` and the manager
afterwards; `args` is the path `ExtractArgs` delivers, `none` when it fails. -/
def Cmd_LoadKeywordsFromINI_Execute (ResolveForm : StdString → Nat)
    (fs : StdString → Option (List StdString)) (args : Option StdString)
    (mgr : KeywordManager) : Int × KeywordManager :=
  match args with
  | none => (-1, mgr)
  | some path =>
    if path.isEmpty then (-1, mgr)
    else
      let r := LoadFile ResolveForm fs path mgr
      (if r.1.formsProcessed > 0 || r.1.keywordsAdded > 0 then r.1.keywordsAdded else -1, r.2)

/-- The comparison `lt` is a strict total order. -/
structure StrictTotal {α : Type} (lt : α → α → Bool) : Prop where
  /-- Nothing is below itself. -/
  irrefl : ∀ a, lt a a = false
  /-- Transitivity. -/
  trans : ∀ a b c, lt a b = true → lt b c = true → lt a c = true
  /-- Two different values are comparable. -/
  total : ∀ a b, a ≠ b → lt a b = true ∨ lt b a = true

/-- The list is strictly ascending for `lt`. -/
def SortedBy {α : Type} (lt : α → α → Bool) (l : List α) : Prop :=
  l.Pairwise (fun a b => lt a b = true)

/-- Both maps of the manager are in the iteration order of `std::map` and `std::set`: keys
strictly ascending, and every stored set strictly ascending. -/
def WellOrdered (mgr : KeywordManager) : Prop :=
  SortedBy u32Lt (mgr.formKeywords.map Prod.fst) ∧
    (∀ e ∈ mgr.formKeywords, SortedBy strLt e.2) ∧
    SortedBy strLt (mgr.keywordForms.map Prod.fst) ∧
    (∀ e ∈ mgr.keywordForms, SortedBy u32Lt e.2)

/-! ## Trimmed strings -/

/-- The string neither starts nor ends with a whitespace character. -/
def IsTrimmed (s : StdString) : Prop :=
  (∀ c, s.head? = some c → isspace c = false) ∧
    (∀ c, s.getLast? = some c → isspace c = false)

/-! ## Container lemmas -/

section Containers

variable {α κ ν : Type} [DecidableEq α] [DecidableEq κ]

theorem mem_orderedIns (lt : α → α → Bool) (x y : α) (s : List α) :
    y ∈ orderedIns lt x s ↔ y = x ∨ y ∈ s := by
  induction s with
  | nil => simp [orderedIns]
  | cons z zs ih =>
    unfold orderedIns
    split
    · simp
    · simp only [List.mem_cons, ih]
      tauto

theorem mem_setInsert (lt : α → α → Bool) (x y : α) (s : List α) :
    y ∈ setInsert lt x s ↔ y = x ∨ y ∈ s := by
  unfold setInsert
  split
  · constructor
    · intro h
      exact Or.inr h
    · rintro (h | h)
      · subst h
        assumption
      · exact h
  · exact mem_orderedIns lt x y s

theorem setInsert_ne_nil (lt : α → α → Bool) (x : α) (s : List α) :
    setInsert lt x s ≠ [] := by
  intro h
  have hx : x ∈ setInsert lt x s := (mem_setInsert lt x x s).2 (Or.inl rfl)
  rw [h] at hx
  exact absurd hx (List.not_mem_nil x)

theorem mem_setErase (x y : α) (s : List α) :
    y ∈ setErase x s ↔ y ∈ s ∧ y ≠ x := by
  simp [setErase]

theorem mapFind_mapModify (k k' : κ) (f : ν → ν) (m : List (κ × ν)) :
    mapFind k' (mapModify k f m) = if k' = k then (mapFind k m).map f else mapFind k' m := by
  induction m with
  | nil => simp [mapFind, mapModify]
  | cons e rest ih =>
    obtain ⟨a, v⟩ := e
    by_cases hak : a = k
    · subst hak
      by_cases hk : k' = a
      · subst hk
        simp [mapFind, mapModify]
      · have hk2 : ¬ a = k' := fun h => hk h.symm
        simp [mapFind, mapModify, hk, hk2]
    · by_cases hk : k' = k
      · subst hk
        simp [mapFind, mapModify, hak, ih]
      · by_cases hak2 : a = k'
        · simp [mapFind, mapModify, hak, hk, hak2]
        · simp [mapFind, mapModify, hak, hk, hak2, ih]

theorem mapFind_mapInsertNew_ne (lt : κ → κ → Bool) (k k' : κ) (v : ν) (m : List (κ × ν))
    (h : k' ≠ k) : mapFind k' (mapInsertNew lt k v m) = mapFind k' m := by
  have h2 : ¬ k = k' := fun e => h e.symm
  induction m with
  | nil => simp [mapFind, mapInsertNew, h2]
  | cons e rest ih =>
    obtain ⟨a, w⟩ := e
    unfold mapInsertNew
    split
    · simp [mapFind, h2]
    · simp [mapFind, ih]

theorem mapFind_mapInsertNew_self (lt : κ → κ → Bool) (k : κ) (v : ν) (m : List (κ × ν))
    (h : mapFind k m = none) : mapFind k (mapInsertNew lt k v m) = some v := by
  induction m with
  | nil => simp [mapFind, mapInsertNew]
  | cons e rest ih =>
    obtain ⟨a, w⟩ := e
    have hak : ¬ a = k := by
      intro hak
      simp [mapFind, hak] at h
    have hr : mapFind k rest = none := by
      simpa [mapFind, hak] using h
    unfold mapInsertNew
    split
    · simp [mapFind]
    · simp [mapFind, hak, ih hr]

theorem mapFind_mapErase (k k' : κ) (m : List (κ × ν)) :
    mapFind k' (mapErase k m) = if k' = k then none else mapFind k' m := by
  induction m with
  | nil => simp [mapFind, mapErase]
  | cons e rest ih =>
    obtain ⟨a, w⟩ := e
    have ih2 : mapFind k' (List.filter (fun e => decide (e.1 ≠ k)) rest)
        = if k' = k then none else mapFind k' rest := ih
    by_cases hak : a = k
    · subst hak
      by_cases hk : k' = a
      · subst hk
        simpa [mapFind, mapErase] using ih2
      · have hk2 : ¬ a = k' := fun h => hk h.symm
        simpa [mapFind, mapErase, hk, hk2] using ih2
    · by_cases hk : k' = k
      · subst hk
        simpa [mapFind, mapErase, hak] using ih2
      · by_cases hak2 : a = k'
        · simp [mapFind, mapErase, hak, hk, hak2]
        · simpa [mapFind, mapErase, hak, hk, hak2] using ih2

theorem mapModify_mapInsertNew (lt : κ → κ → Bool) (k : κ) (v : ν) (f : ν → ν)
    (m : List (κ × ν)) (h : mapFind k m = none) :
    mapModify k f (mapInsertNew lt k v m) = mapInsertNew lt k (f v) m := by
  induction m with
  | nil => simp [mapModify, mapInsertNew]
  | cons e rest ih =>
    obtain ⟨a, w⟩ := e
    have hak : ¬ a = k := by
      intro hak
      simp [mapFind, hak] at h
    have hr : mapFind k rest = none := by
      simpa [mapFind, hak] using h
    unfold mapInsertNew
    split
    · simp [mapModify]
    · simp [mapModify, hak, ih hr]

theorem mem_mapInsertNew (lt : κ → κ → Bool) (k : κ) (v : ν) (m : List (κ × ν))
    (e : κ × ν) : e ∈ mapInsertNew lt k v m ↔ e = (k, v) ∨ e ∈ m := by
  induction m with
  | nil => simp [mapInsertNew]
  | cons e' rest ih =>
    obtain ⟨a, w⟩ := e'
    unfold mapInsertNew
    split
    · simp
    · simp only [List.mem_cons, ih]
      tauto

theorem mem_mapModify (k : κ) (f : ν → ν) (m : List (κ × ν)) (e : κ × ν)
    (h : e ∈ mapModify k f m) : e ∈ m ∨ ∃ v, (k, v) ∈ m ∧ e = (k, f v) := by
  induction m with
  | nil => simp [mapModify] at h
  | cons e' rest ih =>
    obtain ⟨a, w⟩ := e'
    unfold mapModify at h
    split at h
    · rename_i hak
      subst hak
      rcases List.mem_cons.1 h with h1 | h1
      · exact Or.inr ⟨w, List.mem_cons_self _ _, h1⟩
      · exact Or.inl (List.mem_cons_of_mem _ h1)
    · rcases List.mem_cons.1 h with h1 | h1
      · exact Or.inl (h1 ▸ List.mem_cons_self _ _)
      · rcases ih h1 with h2 | ⟨v, hv, he⟩
        · exact Or.inl (List.mem_cons_of_mem _ h2)
        · exact Or.inr ⟨v, List.mem_cons_of_mem _ hv, he⟩

theorem mem_mapErase (k : κ) (m : List (κ × ν)) (e : κ × ν) (h : e ∈ mapErase k m) :
    e ∈ m := by
  unfold mapErase at h
  exact (List.mem_filter.1 h).1

end Containers

/-! ## Invariant lemmas -/

section Invariants

variable {κ ν : Type} [DecidableEq κ] [DecidableEq ν]

theorem mem_lookupSet_insert (lt : κ → κ → Bool) (lt' : ν → ν → Bool) (k k' : κ) (x y : ν)
    (m : List (κ × List ν)) :
    y ∈ lookupSet k' (mapModify k (setInsert lt' x) (mapIndex lt k [] m))
      ↔ (k' = k ∧ y = x) ∨ y ∈ lookupSet k' m := by
  unfold lookupSet
  rw [mapFind_mapModify]
  by_cases hk : k' = k
  · subst hk
    unfold mapIndex
    cases hf : mapFind k' m with
    | none =>
      simp [mapFind_mapInsertNew_self lt k' [] m hf, mem_setInsert]
    | some s =>
      simp [hf, mem_setInsert]
  · unfold mapIndex
    cases hf : mapFind k m with
    | none =>
      simp [hk, mapFind_mapInsertNew_ne lt k k' [] m hk]
    | some s =>
      simp [hk]

theorem mem_lookupSet_eraseAndPrune (k k' : κ) (x y : ν) (m : List (κ × List ν)) :
    y ∈ lookupSet k' (eraseAndPrune k x m) ↔ y ∈ lookupSet k' m ∧ ¬ (k' = k ∧ y = x) := by
  unfold lookupSet eraseAndPrune
  cases hf : mapFind k m with
  | none =>
    by_cases hk : k' = k
    · subst hk
      simp [hf]
    · simp [hk]
  | some s =>
    by_cases hk : k' = k
    · subst hk
      by_cases he : (setErase x s).isEmpty = true
      · have hnil : setErase x s = [] := List.isEmpty_iff.1 he
        have hall : ∀ z, z ∈ s → z = x := by
          intro z hz
          by_contra hzx
          have : z ∈ setErase x s := (mem_setErase x z s).2 ⟨hz, hzx⟩
          rw [hnil] at this
          exact absurd this (List.not_mem_nil z)
        simp only [he, if_true, mapFind_mapErase, hf, Option.getD_none, Option.getD_some,
          List.not_mem_nil, false_iff, not_and, not_not, true_and]
        intro hy
        exact hall y hy
      · simp [he, mapFind_mapModify, hf, mem_setErase]
    · by_cases he : (setErase x s).isEmpty = true
      · simp [he, mapFind_mapErase, hk]
      · simp [he, mapFind_mapModify, hk]

theorem allNonEmpty_insert (lt : κ → κ → Bool) (lt' : ν → ν → Bool) (k : κ) (x : ν)
    (m : List (κ × List ν)) (h : AllNonEmpty m) :
    AllNonEmpty (mapModify k (setInsert lt' x) (mapIndex lt k [] m)) := by
  unfold mapIndex
  cases hf : mapFind k m with
  | none =>
    simp only
    rw [mapModify_mapInsertNew lt k [] _ m hf]
    intro e he
    rcases (mem_mapInsertNew lt k _ m e).1 he with h1 | h1
    · rw [h1]
      exact setInsert_ne_nil lt' x []
    · exact h e h1
  | some s =>
    simp only
    intro e he
    rcases mem_mapModify k _ m e he with h1 | ⟨v, _, h1⟩
    · exact h e h1
    · rw [h1]
      exact setInsert_ne_nil lt' x v

theorem allNonEmpty_eraseAndPrune (k : κ) (x : ν) (m : List (κ × List ν))
    (h : AllNonEmpty m) : AllNonEmpty (eraseAndPrune k x m) := by
  unfold eraseAndPrune
  cases hf : mapFind k m with
  | none => exact h
  | some s =>
    simp only
    split
    · intro e he
      exact h e (mem_mapErase k m e he)
    · rename_i hne
      intro e he
      rcases mem_mapModify k _ m e he with h1 | ⟨v, _, h1⟩
      · exact h e h1
      · rw [h1]
        intro hnil
        apply hne
        simp only at hnil
        simp [hnil]

end Invariants

theorem mem_lookupSet_mapErase {κ ν : Type} [DecidableEq κ] (k k' : κ) (y : ν)
    (m : List (κ × List ν)) :
    y ∈ lookupSet k' (mapErase k m) ↔ y ∈ lookupSet k' m ∧ k' ≠ k := by
  unfold lookupSet
  rw [mapFind_mapErase]
  by_cases hk : k' = k
  · simp [hk]
  · simp [hk]

theorem mem_lookupSet_foldl_eraseAndPrune (formID y : Nat) (k' : StdString)
    (s : List StdString) (m : List (StdString × List Nat)) :
    y ∈ lookupSet k' (s.foldl (fun kf keyword => eraseAndPrune keyword formID kf) m)
      ↔ y ∈ lookupSet k' m ∧ ¬ (k' ∈ s ∧ y = formID) := by
  induction s generalizing m with
  | nil => simp
  | cons a rest ih =>
    rw [List.foldl_cons, ih, mem_lookupSet_eraseAndPrune]
    simp only [List.mem_cons]
    tauto

theorem allNonEmpty_foldl_eraseAndPrune (formID : Nat) (s : List StdString)
    (m : List (StdString × List Nat)) (h : AllNonEmpty m) :
    AllNonEmpty (s.foldl (fun kf keyword => eraseAndPrune keyword formID kf) m) := by
  induction s generalizing m with
  | nil => exact h
  | cons a rest ih =>
    rw [List.foldl_cons]
    exact ih _ (allNonEmpty_eraseAndPrune a formID m h)

/-! ## Every mutator keeps the invariants -/

theorem consistent_empty : Consistent KeywordManager.empty := by
  intro i k
  simp [KeywordManager.empty, lookupSet, mapFind]

theorem consistent_clearAll (mgr : KeywordManager) : Consistent (ClearAllKeywords mgr) :=
  consistent_empty

theorem consistent_add (mgr : KeywordManager) (formID : Nat) (keyword : StdString)
    (h : Consistent mgr) : Consistent (AddKeyword mgr formID keyword).2 := by
  unfold AddKeyword
  split
  · exact h
  · intro i k
    simp only
    rw [mem_lookupSet_insert, mem_lookupSet_insert, h i k]
    tauto

theorem consistent_remove (mgr : KeywordManager) (formID : Nat) (keyword : StdString)
    (h : Consistent mgr) : Consistent (RemoveKeyword mgr formID keyword).2 := by
  intro i k
  simp only [RemoveKeyword]
  rw [mem_lookupSet_eraseAndPrune, mem_lookupSet_eraseAndPrune, h i k]
  tauto

theorem consistent_clear (mgr : KeywordManager) (formID : Nat) (h : Consistent mgr) :
    Consistent (ClearFormKeywords mgr formID) := by
  unfold ClearFormKeywords
  cases hf : mapFind formID mgr.formKeywords with
  | none => exact h
  | some s =>
    intro i k
    simp only
    rw [mem_lookupSet_foldl_eraseAndPrune, mem_lookupSet_mapErase, h i k]
    constructor
    · rintro ⟨h1, h2⟩
      refine ⟨h1, ?_⟩
      intro hi
      subst hi
      apply h2
      refine ⟨?_, rfl⟩
      have : k ∈ lookupSet i mgr.formKeywords := h1
      simpa [lookupSet, hf] using this
    · rintro ⟨h1, h2⟩
      exact ⟨h1, fun h3 => h2 h3.2⟩

theorem noEmpty_empty : NoEmptyEntry KeywordManager.empty := by
  constructor <;> intro e he <;> simp [KeywordManager.empty] at he

theorem noEmpty_clearAll (mgr : KeywordManager) : NoEmptyEntry (ClearAllKeywords mgr) :=
  noEmpty_empty

theorem noEmpty_add (mgr : KeywordManager) (formID : Nat) (keyword : StdString)
    (h : NoEmptyEntry mgr) : NoEmptyEntry (AddKeyword mgr formID keyword).2 := by
  unfold AddKeyword
  split
  · exact h
  · exact ⟨allNonEmpty_insert _ _ _ _ _ h.1, allNonEmpty_insert _ _ _ _ _ h.2⟩

theorem noEmpty_remove (mgr : KeywordManager) (formID : Nat) (keyword : StdString)
    (h : NoEmptyEntry mgr) : NoEmptyEntry (RemoveKeyword mgr formID keyword).2 :=
  ⟨allNonEmpty_eraseAndPrune _ _ _ h.1, allNonEmpty_eraseAndPrune _ _ _ h.2⟩

theorem noEmpty_clear (mgr : KeywordManager) (formID : Nat) (h : NoEmptyEntry mgr) :
    NoEmptyEntry (ClearFormKeywords mgr formID) := by
  unfold ClearFormKeywords
  cases hf : mapFind formID mgr.formKeywords with
  | none => exact h
  | some s =>
    refine ⟨?_, allNonEmpty_foldl_eraseAndPrune formID s _ h.2⟩
    intro e he
    exact h.1 e (mem_mapErase _ _ e he)

/-! ## The load loops -/

theorem readKeywords_nil (junk : Nat → Nat) (newFormID n : Nat) (mgr : KeywordManager) :
    readKeywords junk newFormID n [] mgr = ([], mgr) := by
  induction n with
  | zero => rfl
  | succ n ih => simpa [readKeywords] using ih

theorem readKeywords_length_le (junk : Nat → Nat) (newFormID n : Nat) (recs : List Record)
    (mgr : KeywordManager) :
    (readKeywords junk newFormID n recs mgr).1.length ≤ recs.length := by
  induction n generalizing recs mgr with
  | zero => simp [readKeywords]
  | succ n ih =>
    match recs with
    | [] => simp [readKeywords_nil]
    | r1 :: rest1 =>
      unfold readKeywords
      split
      · match rest1 with
        | [] => simp [readKeywords_nil]
        | r2 :: rest2 =>
          simp only
          split
          · exact le_trans (ih _ _) (by simp only [List.length_cons]; omega)
          · exact le_trans (ih _ _) (by simp only [List.length_cons]; omega)
      · exact le_trans (ih _ _) (by simp only [List.length_cons]; omega)

/-- Any property that `AddKeyword` keeps is kept by the keyword loop. -/
theorem readKeywords_preserves (P : KeywordManager → Prop)
    (hadd : ∀ m i k, P m → P (AddKeyword m i k).2)
    (junk : Nat → Nat) (newFormID n : Nat) (recs : List Record) (mgr : KeywordManager)
    (h : P mgr) : P (readKeywords junk newFormID n recs mgr).2 := by
  induction n generalizing recs mgr with
  | zero => simpa [readKeywords] using h
  | succ n ih =>
    match recs with
    | [] => simpa [readKeywords_nil] using h
    | r1 :: rest1 =>
      unfold readKeywords
      split
      · match rest1 with
        | [] => simpa [readKeywords_nil] using h
        | r2 :: rest2 =>
          simp only
          split
          · exact ih _ _ (hadd _ _ _ h)
          · exact ih _ _ h
      · exact ih _ _ h

/-- Any property that `AddKeyword` keeps is kept by the record loop. -/
theorem loadLoop_preserves (P : KeywordManager → Prop)
    (hadd : ∀ m i k, P m → P (AddKeyword m i k).2)
    (resolve : Nat → Option Nat) (junk : Nat → Nat) (fuel : Nat) (recs : List Record)
    (mgr mgr' : KeywordManager) (h : P mgr)
    (hl : loadLoop resolve junk fuel recs mgr = some mgr') : P mgr' := by
  induction fuel generalizing recs mgr with
  | zero => simp [loadLoop] at hl
  | succ fuel ih =>
    match recs with
    | [] =>
      simp only [loadLoop, Option.some.injEq] at hl
      exact hl ▸ h
    | r :: rest =>
      unfold loadLoop at hl
      split at hl
      · exact ih _ _ h hl
      · split at hl
        · match rest with
          | [] => exact ih _ _ h hl
          | r2 :: rest2 =>
            simp only at hl
            split at hl
            · exact ih _ _ (readKeywords_preserves P hadd _ _ _ _ _ h) hl
            · exact ih _ _ h hl
        · exact ih _ _ h hl

/-- The record loop ends by exhausting the stream whenever the budget exceeds its length. -/
theorem loadLoop_isSome (resolve : Nat → Option Nat) (junk : Nat → Nat) (fuel : Nat)
    (recs : List Record) (mgr : KeywordManager) (hfuel : recs.length < fuel) :
    ∃ mgr', loadLoop resolve junk fuel recs mgr = some mgr' := by
  induction fuel generalizing recs mgr with
  | zero => omega
  | succ fuel ih =>
    match recs with
    | [] => exact ⟨mgr, by simp [loadLoop]⟩
    | r :: rest =>
      have hrest : rest.length < fuel := by
        simp only [List.length_cons] at hfuel
        omega
      unfold loadLoop
      split
      · exact ih _ _ hrest
      · split
        · match rest with
          | [] => exact ih _ _ hrest
          | r2 :: rest2 =>
            have hrest2 : rest2.length < fuel := by
              simp only [List.length_cons] at hrest
              omega
            simp only
            split
            · apply ih
              exact lt_of_le_of_lt (readKeywords_length_le _ _ _ _ _) hrest2
            · exact ih _ _ hrest2
        · exact ih _ _ hrest

/-- The method `Load` always returns. -/
theorem Load_isSome (resolve : Nat → Option Nat) (junk : Nat → Nat) (records : List Record)
    (mgr : KeywordManager) : ∃ mgr', Load resolve junk records mgr = some mgr' :=
  loadLoop_isSome resolve junk _ records _ (Nat.lt_succ_self _)

theorem Load_preserves (P : KeywordManager → Prop)
    (hadd : ∀ m i k, P m → P (AddKeyword m i k).2) (hempty : P KeywordManager.empty)
    (resolve : Nat → Option Nat) (junk : Nat → Nat) (records : List Record)
    (mgr mgr' : KeywordManager) (hl : Load resolve junk records mgr = some mgr') : P mgr' :=
  loadLoop_preserves P hadd resolve junk _ records _ mgr' hempty hl

theorem reachable_consistent {mgr : KeywordManager} (h : Reachable mgr) : Consistent mgr := by
  induction h with
  | empty => exact consistent_empty
  | add formID keyword _ ih => exact consistent_add _ formID keyword ih
  | remove formID keyword _ ih => exact consistent_remove _ formID keyword ih
  | clear formID _ ih => exact consistent_clear _ formID ih
  | clearAll _ _ => exact consistent_clearAll _
  | load resolve junk records _ hl _ =>
    exact Load_preserves Consistent consistent_add consistent_empty _ _ _ _ _ hl

theorem reachable_noEmpty {mgr : KeywordManager} (h : Reachable mgr) : NoEmptyEntry mgr := by
  induction h with
  | empty => exact noEmpty_empty
  | add formID keyword _ ih => exact noEmpty_add _ formID keyword ih
  | remove formID keyword _ ih => exact noEmpty_remove _ formID keyword ih
  | clear formID _ ih => exact noEmpty_clear _ formID ih
  | clearAll _ _ => exact noEmpty_clearAll _
  | load resolve junk records _ hl _ =>
    exact Load_preserves NoEmptyEntry noEmpty_add noEmpty_empty _ _ _ _ _ hl

/-! ## Queries in terms of the stored sets -/

theorem GetKeywords_eq (mgr : KeywordManager) (formID : Nat) :
    GetKeywords mgr formID = lookupSet formID mgr.formKeywords := by
  unfold GetKeywords lookupSet
  cases mapFind formID mgr.formKeywords <;> rfl

theorem GetFormsWithKeyword_eq (mgr : KeywordManager) (keyword : StdString) :
    GetFormsWithKeyword mgr keyword = lookupSet (toLowerStr keyword) mgr.keywordForms := by
  simp only [GetFormsWithKeyword, lookupSet]
  cases mapFind (toLowerStr keyword) mgr.keywordForms <;> rfl

theorem HasKeyword_iff (mgr : KeywordManager) (formID : Nat) (keyword : StdString) :
    HasKeyword mgr formID keyword = true
      ↔ toLowerStr keyword ∈ lookupSet formID mgr.formKeywords := by
  simp only [HasKeyword, lookupSet]
  cases mapFind formID mgr.formKeywords <;> simp

theorem GetKeywordCount_eq (mgr : KeywordManager) (formID : Nat) :
    GetKeywordCount mgr formID = (lookupSet formID mgr.formKeywords).length := by
  unfold GetKeywordCount lookupSet
  cases mapFind formID mgr.formKeywords <;> rfl

/-! ## Stored keywords are lower-case and non-empty -/

theorem tolower_tolower (c : Nat) : tolower (tolower c) = tolower c := by
  unfold tolower
  by_cases h : 65 ≤ c ∧ c ≤ 90
  · have h2 : ¬ (65 ≤ c + 32 ∧ c + 32 ≤ 90) := by omega
    rw [if_pos h, if_neg h2]
  · rw [if_neg h, if_neg h]

theorem toLowerStr_toLowerStr (s : StdString) : toLowerStr (toLowerStr s) = toLowerStr s := by
  simp [toLowerStr, Function.comp_def, tolower_tolower]

theorem toLowerStr_ne_nil (s : StdString) (h : s ≠ []) : toLowerStr s ≠ [] := by
  simpa [toLowerStr] using h

theorem not_upper_of_toLowerStr_eq (s : StdString) (h : toLowerStr s = s) :
    ∀ c ∈ s, ¬ (65 ≤ c ∧ c ≤ 90) := by
  induction s with
  | nil => simp
  | cons a rest ih =>
    simp only [toLowerStr, List.map_cons, List.cons.injEq] at h
    intro c hc
    rcases List.mem_cons.1 hc with h1 | h1
    · subst h1
      have h2 := h.1
      unfold tolower at h2
      split at h2
      · omega
      · assumption
    · exact ih h.2 c h1

theorem lowerStored_empty : LowerStored KeywordManager.empty := by
  intro i k h
  simp [KeywordManager.empty, lookupSet, mapFind] at h

theorem lowerStored_add (mgr : KeywordManager) (formID : Nat) (keyword : StdString)
    (h : LowerStored mgr) : LowerStored (AddKeyword mgr formID keyword).2 := by
  unfold AddKeyword
  split
  · exact h
  · rename_i hne
    intro i k hk
    simp only at hk
    rw [mem_lookupSet_insert] at hk
    rcases hk with ⟨_, hk⟩ | hk
    · subst hk
      refine ⟨toLowerStr_toLowerStr keyword, toLowerStr_ne_nil keyword ?_⟩
      intro hnil
      exact hne (by simp [hnil])
    · exact h i k hk

theorem lowerStored_remove (mgr : KeywordManager) (formID : Nat) (keyword : StdString)
    (h : LowerStored mgr) : LowerStored (RemoveKeyword mgr formID keyword).2 := by
  intro i k hk
  simp only [RemoveKeyword] at hk
  rw [mem_lookupSet_eraseAndPrune] at hk
  exact h i k hk.1

theorem lowerStored_clear (mgr : KeywordManager) (formID : Nat) (h : LowerStored mgr) :
    LowerStored (ClearFormKeywords mgr formID) := by
  unfold ClearFormKeywords
  cases hf : mapFind formID mgr.formKeywords with
  | none => exact h
  | some s =>
    intro i k hk
    simp only at hk
    rw [mem_lookupSet_mapErase] at hk
    exact h i k hk.1

theorem reachable_lowerStored {mgr : KeywordManager} (h : Reachable mgr) :
    LowerStored mgr := by
  induction h with
  | empty => exact lowerStored_empty
  | add formID keyword _ ih => exact lowerStored_add _ formID keyword ih
  | remove formID keyword _ ih => exact lowerStored_remove _ formID keyword ih
  | clear formID _ ih => exact lowerStored_clear _ formID ih
  | clearAll _ _ => exact lowerStored_empty
  | load resolve junk records _ hl _ =>
    exact Load_preserves LowerStored lowerStored_add lowerStored_empty _ _ _ _ _ hl

/-- The record loop uses the resolver only through the identifier it finally files under. -/
theorem loadLoop_congr (resolve1 resolve2 : Nat → Option Nat)
    (h : ∀ x, (resolve1 x).getD x = (resolve2 x).getD x) (junk : Nat → Nat) (fuel : Nat)
    (recs : List Record) (mgr : KeywordManager) :
    loadLoop resolve1 junk fuel recs mgr = loadLoop resolve2 junk fuel recs mgr := by
  have hm : ∀ x, (match resolve1 x with | some r => r | none => x)
      = (match resolve2 x with | some r => r | none => x) := by
    intro x
    have hx := h x
    cases h1 : resolve1 x <;> cases h2 : resolve2 x <;> simp [h1, h2] at hx <;> simp [hx]
  induction fuel generalizing recs mgr with
  | zero => rfl
  | succ fuel ih =>
    match recs with
    | [] => rfl
    | r :: rest =>
      unfold loadLoop
      split
      · exact ih _ _
      · split
        · match rest with
          | [] => exact ih _ _
          | r2 :: rest2 =>
            simp only
            split
            · rw [hm]
              exact ih _ _
            · exact ih _ _
        · exact ih _ _

/-! ## What Load reads back from a stream written by Save -/

theorem readU32_u32Bytes (junk : Nat → Nat) (n : Nat) (h : n < 2 ^ 32) :
    readU32 junk (u32Bytes n) = n := by
  have h1 : readU32 junk (u32Bytes n)
      = n % 256 + 256 * (n / 256 % 256) + 65536 * (n / 65536 % 256)
        + 16777216 * (n / 16777216 % 256) := rfl
  rw [h1]
  omega

theorem ReadRecordData_all (junk : Nat → Nat) (data : List Nat) :
    ReadRecordData junk data.length data = data := by
  unfold ReadRecordData
  apply List.ext_getElem
  · simp
  · intro i h1 h2
    simp [List.getElem?_eq_getElem h2]

theorem cstr_append_nul (s : StdString) (h : 0 ∉ s) : cstr (s ++ [0]) = s := by
  induction s with
  | nil => simp [cstr]
  | cons a rest ih =>
    have ha : (a != 0) = true := by
      simp only [bne_iff_ne, ne_eq]
      exact fun e => h (e ▸ List.mem_cons_self _ _)
    have hr : 0 ∉ rest := fun e => h (List.mem_cons_of_mem _ e)
    have ih2 := ih hr
    unfold cstr at ih2 ⊢
    rw [List.cons_append, List.takeWhile_cons, ha]
    simp only [if_true]
    rw [ih2]

theorem readKeywords_saveKeywords (junk : Nat → Nat) (newFormID : Nat)
    (ks : List StdString) (rest : List Record) (mgr : KeywordManager)
    (hlen : ∀ k ∈ ks, k.length < 2 ^ 32) :
    readKeywords junk newFormID ks.length (saveKeywords ks ++ rest) mgr
      = (rest, addKeywords mgr newFormID (ks.map (fun k => cstr (k ++ [0])))) := by
  induction ks generalizing mgr with
  | nil => simp [readKeywords, saveKeywords, addKeywords]
  | cons k ks ih =>
    have hk : k.length < 2 ^ 32 := hlen k (List.mem_cons_self _ _)
    have hks : ∀ k' ∈ ks, k'.length < 2 ^ 32 := fun k' h => hlen k' (List.mem_cons_of_mem _ h)
    have hmod : k.length % 2 ^ 32 = k.length := Nat.mod_eq_of_lt hk
    have hstream : saveKeywords (k :: ks) ++ rest
        = ⟨KWKL, 1, u32Bytes k.length⟩ :: ⟨KWKD, 1, k⟩ :: (saveKeywords ks ++ rest) := by
      simp only [saveKeywords, hmod, List.take_length, List.cons_append]
    rw [hstream, List.length_cons, readKeywords]
    simp only [if_true, readU32_u32Bytes junk k.length hk, ReadRecordData_all]
    rw [ih _ hks]
    simp [addKeywords]

theorem loadLoop_saveForms (resolve : Nat → Option Nat) (junk : Nat → Nat)
    (es : List (Nat × List StdString)) (hfit : Fits32 es) (fuel : Nat) (mgr : KeywordManager)
    (hfuel : (saveForms es).length < fuel) :
    loadLoop resolve junk fuel (saveForms es) mgr = some (replay resolve es mgr) := by
  induction es generalizing fuel mgr with
  | nil =>
    cases fuel with
    | zero => simp at hfuel
    | succ fuel => simp [saveForms, loadLoop, replay]
  | cons e es ih =>
    obtain ⟨formID, ks⟩ := e
    have he := hfit (formID, ks) (List.mem_cons_self _ _)
    have hes : Fits32 es := fun e' h => hfit e' (List.mem_cons_of_mem _ h)
    cases fuel with
    | zero => simp at hfuel
    | succ fuel =>
      have hne : ¬ KWFM = KWCT := by decide
      have hmod : ks.length % 2 ^ 32 = ks.length := Nat.mod_eq_of_lt he.2.1
      have hget : (match resolve formID with
          | some resolved => resolved
          | none => formID) = (resolve formID).getD formID := by
        cases resolve formID <;> rfl
      have hfuel2 : (saveForms es).length < fuel := by
        simp only [saveForms, List.length_cons, List.length_append] at hfuel
        omega
      have hstream : saveForms ((formID, ks) :: es)
          = ⟨KWFM, 1, u32Bytes formID⟩ :: ⟨KWKC, 1, u32Bytes ks.length⟩ ::
              (saveKeywords ks ++ saveForms es) := by
        simp only [saveForms, hmod]
      rw [hstream, loadLoop]
      simp only [hne, if_false, if_true, readU32_u32Bytes junk formID he.1,
        readU32_u32Bytes junk ks.length he.2.1, hget,
        readKeywords_saveKeywords junk _ ks (saveForms es) mgr he.2.2]
      rw [ih hes fuel _ hfuel2]
      simp [replay]

/-- The index Load builds from a stream written by Save is the replay of the saved forward
map into the empty index. -/
theorem Load_Save (resolve : Nat → Option Nat) (junk : Nat → Nat)
    (mgr mgr0 : KeywordManager) (hfit : Fits32 mgr.formKeywords) :
    Load resolve junk (Save mgr) mgr0
      = some (replay resolve mgr.formKeywords KeywordManager.empty) := by
  have hne : ¬ KWCT = KWFM := by decide
  have h := loadLoop_saveForms resolve junk mgr.formKeywords hfit
    ((saveForms mgr.formKeywords).length + 1) KeywordManager.empty (Nat.lt_succ_self _)
  simp only [Load, Save, List.length_cons, loadLoop, if_true]
  exact h

theorem mem_lookupSet_AddKeyword (mgr : KeywordManager) (formID i : Nat)
    (keyword k : StdString) :
    k ∈ lookupSet i (AddKeyword mgr formID keyword).2.formKeywords
      ↔ k ∈ lookupSet i mgr.formKeywords
        ∨ (i = formID ∧ keyword ≠ [] ∧ toLowerStr keyword = k) := by
  unfold AddKeyword
  split
  · rename_i he
    have : keyword = [] := List.isEmpty_iff.1 he
    simp [this]
  · rename_i he
    have hne : keyword ≠ [] := fun h => he (by simp [h])
    simp only
    rw [mem_lookupSet_insert]
    constructor
    · rintro (⟨h1, h2⟩ | h)
      · exact Or.inr ⟨h1, hne, h2.symm⟩
      · exact Or.inl h
    · rintro (h | ⟨h1, _, h2⟩)
      · exact Or.inr h
      · exact Or.inl ⟨h1, h2.symm⟩

theorem mem_lookupSet_addKeywords (mgr : KeywordManager) (formID i : Nat)
    (keywords : List StdString) (k : StdString) :
    k ∈ lookupSet i (addKeywords mgr formID keywords).formKeywords
      ↔ k ∈ lookupSet i mgr.formKeywords
        ∨ (i = formID ∧ ∃ k0 ∈ keywords, k0 ≠ [] ∧ toLowerStr k0 = k) := by
  induction keywords generalizing mgr with
  | nil => simp [addKeywords]
  | cons a rest ih =>
    have hstep : addKeywords mgr formID (a :: rest)
        = addKeywords (AddKeyword mgr formID a).2 formID rest := rfl
    rw [hstep, ih, mem_lookupSet_AddKeyword]
    simp only [List.mem_cons, exists_eq_or_imp]
    tauto

theorem mem_lookupSet_replay (resolve : Nat → Option Nat) (es : List (Nat × List StdString))
    (mgr : KeywordManager) (i : Nat) (k : StdString) :
    k ∈ lookupSet i (replay resolve es mgr).formKeywords
      ↔ k ∈ lookupSet i mgr.formKeywords
        ∨ ∃ e ∈ es, (resolve e.1).getD e.1 = i
            ∧ ∃ k0 ∈ e.2, cstr (k0 ++ [0]) ≠ [] ∧ toLowerStr (cstr (k0 ++ [0])) = k := by
  induction es generalizing mgr with
  | nil => simp [replay]
  | cons e rest ih =>
    have hstep : replay resolve (e :: rest) mgr
        = replay resolve rest
            (addKeywords mgr ((resolve e.1).getD e.1) (e.2.map (fun k => cstr (k ++ [0])))) :=
      rfl
    rw [hstep, ih, mem_lookupSet_addKeywords]
    simp only [List.mem_cons, exists_eq_or_imp, List.mem_map, exists_exists_and_eq_and]
    constructor
    · rintro ((h | ⟨h1, h2⟩) | h)
      · exact Or.inl h
      · exact Or.inr (Or.inl ⟨h1.symm, h2⟩)
      · exact Or.inr (Or.inr h)
    · rintro (h | ⟨h1, h2⟩ | h)
      · exact Or.inl (Or.inl h)
      · exact Or.inl (Or.inr ⟨h1.symm, h2⟩)
      · exact Or.inr h

/-! ## Keys are distinct -/

theorem perm_mapInsertNew {κ ν : Type} (lt : κ → κ → Bool) (k : κ) (v : ν) (m : List (κ × ν)) :
    List.Perm (mapInsertNew lt k v m) ((k, v) :: m) := by
  induction m with
  | nil => simp [mapInsertNew]
  | cons e rest ih =>
    obtain ⟨a, w⟩ := e
    unfold mapInsertNew
    split
    · exact List.Perm.refl _
    · exact (List.Perm.cons _ ih).trans (List.Perm.swap _ _ _)

section Keys

variable {κ ν : Type} [DecidableEq κ]

theorem keys_mapModify (k : κ) (f : ν → ν) (m : List (κ × ν)) :
    (mapModify k f m).map Prod.fst = m.map Prod.fst := by
  induction m with
  | nil => rfl
  | cons e rest ih =>
    obtain ⟨a, v⟩ := e
    unfold mapModify
    split
    · simp
    · simp [ih]

theorem mapFind_eq_none_iff (k : κ) (m : List (κ × ν)) :
    mapFind k m = none ↔ k ∉ m.map Prod.fst := by
  induction m with
  | nil => simp [mapFind]
  | cons e rest ih =>
    obtain ⟨a, v⟩ := e
    by_cases hak : a = k
    · simp [mapFind, hak]
    · have hka : ¬ k = a := fun h => hak h.symm
      simp only [mapFind, hak, if_false, ih, List.map_cons, List.mem_cons, hka, false_or]

theorem nodupKeys_mapInsertNew (lt : κ → κ → Bool) (k : κ) (v : ν) (m : List (κ × ν))
    (h : NodupKeys m) (hf : mapFind k m = none) : NodupKeys (mapInsertNew lt k v m) := by
  unfold NodupKeys at h ⊢
  have hp := (perm_mapInsertNew lt k v m).map Prod.fst
  rw [hp.nodup_iff, List.map_cons, List.nodup_cons]
  exact ⟨(mapFind_eq_none_iff k m).1 hf, h⟩

theorem nodupKeys_mapErase (k : κ) (m : List (κ × ν)) (h : NodupKeys m) :
    NodupKeys (mapErase k m) := by
  unfold NodupKeys mapErase at *
  exact h.sublist ((List.filter_sublist m).map Prod.fst)

theorem nodupKeys_insert [DecidableEq ν] (lt : κ → κ → Bool) (lt' : ν → ν → Bool) (k : κ)
    (x : ν) (m : List (κ × List ν)) (h : NodupKeys m) :
    NodupKeys (mapModify k (setInsert lt' x) (mapIndex lt k [] m)) := by
  unfold NodupKeys
  rw [keys_mapModify]
  unfold mapIndex
  cases hf : mapFind k m with
  | none => exact nodupKeys_mapInsertNew lt k [] m h hf
  | some s => exact h

theorem nodupKeys_eraseAndPrune [DecidableEq ν] (k : κ) (x : ν) (m : List (κ × List ν))
    (h : NodupKeys m) : NodupKeys (eraseAndPrune k x m) := by
  unfold eraseAndPrune
  cases hf : mapFind k m with
  | none => exact h
  | some s =>
    simp only
    split
    · exact nodupKeys_mapErase k m h
    · unfold NodupKeys
      rw [keys_mapModify]
      exact h

theorem mem_iff_mapFind (m : List (κ × ν)) (h : NodupKeys m) (k : κ) (v : ν) :
    (k, v) ∈ m ↔ mapFind k m = some v := by
  induction m with
  | nil => simp [mapFind]
  | cons e rest ih =>
    obtain ⟨a, w⟩ := e
    have hn : a ∉ rest.map Prod.fst ∧ (rest.map Prod.fst).Nodup := by
      simpa [NodupKeys] using h
    by_cases hak : a = k
    · subst hak
      simp only [List.mem_cons, Prod.mk.injEq, true_and, mapFind, if_true, Option.some.injEq]
      constructor
      · rintro (h1 | h1)
        · exact h1.symm
        · exact absurd (List.mem_map_of_mem Prod.fst h1) hn.1
      · intro h1
        exact Or.inl h1.symm
    · have hka : ¬ k = a := fun e => hak e.symm
      simp only [List.mem_cons, Prod.mk.injEq, hka, false_and, false_or, mapFind, hak,
        if_false]
      exact ih hn.2

end Keys

theorem nodupKeys_foldl_eraseAndPrune (formID : Nat) (s : List StdString)
    (m : List (StdString × List Nat)) (h : NodupKeys m) :
    NodupKeys (s.foldl (fun kf keyword => eraseAndPrune keyword formID kf) m) := by
  induction s generalizing m with
  | nil => exact h
  | cons a rest ih =>
    rw [List.foldl_cons]
    exact ih _ (nodupKeys_eraseAndPrune a formID m h)

theorem keysDistinct_empty : KeysDistinct KeywordManager.empty := by
  constructor <;> simp [KeywordManager.empty, NodupKeys]

theorem keysDistinct_add (mgr : KeywordManager) (formID : Nat) (keyword : StdString)
    (h : KeysDistinct mgr) : KeysDistinct (AddKeyword mgr formID keyword).2 := by
  unfold AddKeyword
  split
  · exact h
  · exact ⟨nodupKeys_insert _ _ _ _ _ h.1, nodupKeys_insert _ _ _ _ _ h.2⟩

theorem keysDistinct_remove (mgr : KeywordManager) (formID : Nat) (keyword : StdString)
    (h : KeysDistinct mgr) : KeysDistinct (RemoveKeyword mgr formID keyword).2 :=
  ⟨nodupKeys_eraseAndPrune _ _ _ h.1, nodupKeys_eraseAndPrune _ _ _ h.2⟩

theorem keysDistinct_clear (mgr : KeywordManager) (formID : Nat) (h : KeysDistinct mgr) :
    KeysDistinct (ClearFormKeywords mgr formID) := by
  unfold ClearFormKeywords
  cases hf : mapFind formID mgr.formKeywords with
  | none => exact h
  | some s =>
    exact ⟨nodupKeys_mapErase _ _ h.1, nodupKeys_foldl_eraseAndPrune formID s _ h.2⟩

theorem reachable_keysDistinct {mgr : KeywordManager} (h : Reachable mgr) :
    KeysDistinct mgr := by
  induction h with
  | empty => exact keysDistinct_empty
  | add formID keyword _ ih => exact keysDistinct_add _ formID keyword ih
  | remove formID keyword _ ih => exact keysDistinct_remove _ formID keyword ih
  | clear formID _ ih => exact keysDistinct_clear _ formID ih
  | clearAll _ _ => exact keysDistinct_empty
  | load resolve junk records _ hl _ =>
    exact Load_preserves KeysDistinct keysDistinct_add keysDistinct_empty _ _ _ _ _ hl

/-! ## Save then Load on keywords without a NUL byte -/

/-- For a reachable index whose stored keywords hold no NUL byte, Load after Save files
under every identifier `b` exactly the keywords the saved index holds for the stored
identifiers that resolve to `b` (the stored value itself when resolution fails). -/
theorem Load_Save_union (mgr mgr0 : KeywordManager) (hreach : Reachable mgr)
    (hfit : Fits32 mgr.formKeywords)
    (hnul : ∀ (i : Nat) (k : StdString), k ∈ GetKeywords mgr i → 0 ∉ k)
    (resolve : Nat → Option Nat) (junk : Nat → Nat) :
    ∃ mgr', Load resolve junk (Save mgr) mgr0 = some mgr' ∧
      ∀ (b : Nat) (k : StdString),
        k ∈ GetKeywords mgr' b
          ↔ ∃ a, (resolve a).getD a = b ∧ k ∈ GetKeywords mgr a := by
  refine ⟨_, Load_Save resolve junk mgr mgr0 hfit, ?_⟩
  intro b k
  have hnd := (reachable_keysDistinct hreach).1
  have hlow := reachable_lowerStored hreach
  rw [GetKeywords_eq, mem_lookupSet_replay]
  have hempty : ¬ k ∈ lookupSet b KeywordManager.empty.formKeywords := by
    simp [KeywordManager.empty, lookupSet, mapFind]
  constructor
  · rintro (h | ⟨e, he, hr, k0, hk0, _, hk⟩)
    · exact absurd h hempty
    · obtain ⟨a, s⟩ := e
      have hfind : mapFind a mgr.formKeywords = some s := (mem_iff_mapFind _ hnd a s).1 he
      have hmem : k0 ∈ lookupSet a mgr.formKeywords := by
        simpa [lookupSet, hfind] using hk0
      have hz : 0 ∉ k0 := hnul a k0 (by rw [GetKeywords_eq]; exact hmem)
      rw [cstr_append_nul k0 hz, (hlow a k0 hmem).1] at hk
      refine ⟨a, hr, ?_⟩
      rw [GetKeywords_eq, ← hk]
      exact hmem
  · rintro ⟨a, hr, hk⟩
    rw [GetKeywords_eq] at hk
    have hz : 0 ∉ k := hnul a k (by rw [GetKeywords_eq]; exact hk)
    cases hfind : mapFind a mgr.formKeywords with
    | none => simp [lookupSet, hfind] at hk
    | some s =>
      have he : (a, s) ∈ mgr.formKeywords := (mem_iff_mapFind _ hnd a s).2 hfind
      have hks : k ∈ s := by simpa [lookupSet, hfind] using hk
      refine Or.inr ⟨(a, s), he, hr, k, hks, ?_, ?_⟩
      · rw [cstr_append_nul k hz]
        exact (hlow a k hk).2
      · rw [cstr_append_nul k hz]
        exact (hlow a k hk).1

/-- Round trip on keywords without a NUL byte: with a resolver that returns every identifier
unchanged, Load after Save gives every identifier the keyword set it had. -/
theorem Load_Save_roundtrip (mgr mgr0 : KeywordManager) (hreach : Reachable mgr)
    (hfit : Fits32 mgr.formKeywords)
    (hnul : ∀ (i : Nat) (k : StdString), k ∈ GetKeywords mgr i → 0 ∉ k)
    (junk : Nat → Nat) :
    ∃ mgr', Load some junk (Save mgr) mgr0 = some mgr' ∧
      ∀ (i : Nat) (k : StdString), k ∈ GetKeywords mgr' i ↔ k ∈ GetKeywords mgr i := by
  obtain ⟨mgr', hl, h⟩ := Load_Save_union mgr mgr0 hreach hfit hnul some junk
  refine ⟨mgr', hl, ?_⟩
  intro i k
  rw [h i k]
  constructor
  · rintro ⟨a, ha, hk⟩
    simp only [Option.getD_some] at ha
    exact ha ▸ hk
  · intro hk
    exact ⟨i, rfl, hk⟩

/-! ## Case folding -/

theorem tolower_eq_of_case (a b : Nat)
    (h : (a == b || (decide (65 ≤ a) && decide (a ≤ 90) && b == a + 32)
      || (decide (65 ≤ b) && decide (b ≤ 90) && a == b + 32)) = true) :
    tolower a = tolower b := by
  simp only [Bool.or_eq_true, Bool.and_eq_true, beq_iff_eq, decide_eq_true_eq] at h
  unfold tolower
  rcases h with (h | ⟨⟨h1, h2⟩, h3⟩) | ⟨⟨h1, h2⟩, h3⟩
  · rw [h]
  · have hb : ¬ (65 ≤ b ∧ b ≤ 90) := by omega
    rw [if_pos (⟨h1, h2⟩ : 65 ≤ a ∧ a ≤ 90), if_neg hb, h3]
  · have ha : ¬ (65 ≤ a ∧ a ≤ 90) := by omega
    rw [if_neg ha, if_pos (⟨h1, h2⟩ : 65 ≤ b ∧ b ≤ 90), h3]

theorem toLowerStr_eq_of_differOnlyInCase (k k' : StdString)
    (h : differOnlyInCase k k' = true) : toLowerStr k = toLowerStr k' := by
  induction k generalizing k' with
  | nil =>
    cases k' with
    | nil => rfl
    | cons b bs => simp [differOnlyInCase] at h
  | cons a as ih =>
    cases k' with
    | nil => simp [differOnlyInCase] at h
    | cons b bs =>
      unfold differOnlyInCase at h
      rw [Bool.and_eq_true] at h
      have h1 := tolower_eq_of_case a b h.1
      have h2 := ih bs h.2
      unfold toLowerStr at h2 ⊢
      rw [List.map_cons, List.map_cons, h1, h2]

theorem isspace_tolower (c : Nat) : isspace (tolower c) = isspace c := by
  unfold tolower
  split
  · rename_i h
    have h1 : isspace c = false := by
      unfold isspace
      simp only [Bool.or_eq_false_iff, beq_eq_false_iff_ne, ne_eq, Bool.and_eq_false_iff,
        decide_eq_false_iff_not]
      omega
    have h2 : isspace (c + 32) = false := by
      unfold isspace
      simp only [Bool.or_eq_false_iff, beq_eq_false_iff_ne, ne_eq, Bool.and_eq_false_iff,
        decide_eq_false_iff_not]
      omega
    rw [h1, h2]
  · rfl

theorem dropWhile_isspace_toLowerStr (s : StdString) :
    (toLowerStr s).dropWhile isspace = toLowerStr (s.dropWhile isspace) := by
  induction s with
  | nil => rfl
  | cons a rest ih =>
    unfold toLowerStr at ih ⊢
    rw [List.map_cons, List.dropWhile_cons, List.dropWhile_cons, isspace_tolower]
    cases isspace a
    · simp
    · simpa using ih

/-- Trimming and case folding commute. -/
theorem Trim_toLowerStr (s : StdString) : Trim (toLowerStr s) = toLowerStr (Trim s) := by
  unfold Trim
  rw [dropWhile_isspace_toLowerStr]
  have hrev : ∀ t : StdString, (toLowerStr t).reverse = toLowerStr t.reverse := by
    intro t
    simp [toLowerStr, List.map_reverse]
  rw [hrev, dropWhile_isspace_toLowerStr, hrev]

/-! ## Repeated insertion, removal of an absent element -/

section Idempotence

variable {α κ ν : Type} [DecidableEq α] [DecidableEq κ]

theorem setInsert_of_mem (lt : α → α → Bool) (x : α) (s : List α) (h : x ∈ s) :
    setInsert lt x s = s := by
  unfold setInsert
  rw [if_pos h]

theorem setInsert_setInsert (lt : α → α → Bool) (x : α) (s : List α) :
    setInsert lt x (setInsert lt x s) = setInsert lt x s :=
  setInsert_of_mem lt x _ ((mem_setInsert lt x x s).2 (Or.inl rfl))

theorem setErase_eq_self (x : α) (s : List α) (h : x ∉ s) : setErase x s = s := by
  unfold setErase
  rw [List.filter_eq_self]
  intro y hy
  simp only [ne_eq, decide_eq_true_eq]
  intro hyx
  exact h (hyx ▸ hy)

theorem setErase_setErase (x : α) (s : List α) : setErase x (setErase x s) = setErase x s := by
  apply setErase_eq_self
  intro h
  exact ((mem_setErase x x s).1 h).2 rfl

theorem setErase_orderedIns (lt : α → α → Bool) (x : α) (s : List α) :
    setErase x (orderedIns lt x s) = setErase x s := by
  induction s with
  | nil => simp [orderedIns, setErase]
  | cons y ys ih =>
    unfold orderedIns
    split
    · simp [setErase]
    · unfold setErase at ih ⊢
      rw [List.filter_cons, List.filter_cons, ih]

theorem setErase_setInsert (lt : α → α → Bool) (x : α) (s : List α) :
    setErase x (setInsert lt x s) = setErase x s := by
  unfold setInsert
  split
  · rfl
  · exact setErase_orderedIns lt x s

theorem mapModify_mapModify (k : κ) (f g : ν → ν) (m : List (κ × ν)) :
    mapModify k f (mapModify k g m) = mapModify k (fun v => f (g v)) m := by
  induction m with
  | nil => rfl
  | cons e rest ih =>
    obtain ⟨a, v⟩ := e
    by_cases hak : a = k
    · simp [mapModify, hak]
    · simp [mapModify, hak, ih]

theorem mapModify_const_self (k : κ) (v : ν) (m : List (κ × ν)) (h : mapFind k m = some v) :
    mapModify k (fun _ => v) m = m := by
  induction m with
  | nil => rfl
  | cons e rest ih =>
    obtain ⟨a, w⟩ := e
    by_cases hak : a = k
    · have hw : w = v := by simpa [mapFind, hak] using h
      simp [mapModify, hak, hw]
    · have hr : mapFind k rest = some v := by simpa [mapFind, hak] using h
      simp [mapModify, hak, ih hr]

theorem mapFind_some_mem (k : κ) (v : ν) (m : List (κ × ν)) (h : mapFind k m = some v) :
    (k, v) ∈ m := by
  induction m with
  | nil => simp [mapFind] at h
  | cons e rest ih =>
    obtain ⟨a, w⟩ := e
    by_cases hak : a = k
    · have hw : w = v := by simpa [mapFind, hak] using h
      simp [hak, hw]
    · have hr : mapFind k rest = some v := by simpa [mapFind, hak] using h
      exact List.mem_cons_of_mem _ (ih hr)

theorem mapIndex_of_isSome (lt : κ → κ → Bool) (k : κ) (d v : ν) (m : List (κ × ν))
    (h : mapFind k m = some v) : mapIndex lt k d m = m := by
  unfold mapIndex
  rw [h]

theorem mapFind_mapIndex_self (lt : κ → κ → Bool) (k : κ) (d : ν) (m : List (κ × ν)) :
    mapFind k (mapIndex lt k d m) = some ((mapFind k m).getD d) := by
  unfold mapIndex
  cases hf : mapFind k m with
  | none => simpa using mapFind_mapInsertNew_self lt k d m hf
  | some v => simpa using hf

/-- The statement pair `m[k].insert(x)` done twice leaves what it leaves done once. -/
theorem insert_insert (lt : κ → κ → Bool) (lt' : α → α → Bool) (k : κ) (x : α)
    (m : List (κ × List α)) :
    mapModify k (setInsert lt' x)
        (mapIndex lt k [] (mapModify k (setInsert lt' x) (mapIndex lt k [] m)))
      = mapModify k (setInsert lt' x) (mapIndex lt k [] m) := by
  have hfind : mapFind k (mapModify k (setInsert lt' x) (mapIndex lt k [] m))
      = some (setInsert lt' x ((mapFind k m).getD [])) := by
    rw [mapFind_mapModify, if_pos rfl, mapFind_mapIndex_self]
    rfl
  rw [mapIndex_of_isSome lt k [] _ _ hfind, mapModify_mapModify]
  congr 1
  funext v
  exact setInsert_setInsert lt' x v

theorem lookupSet_insert_self (lt : κ → κ → Bool) (lt' : α → α → Bool) (k : κ) (x : α)
    (m : List (κ × List α)) :
    lookupSet k (mapModify k (setInsert lt' x) (mapIndex lt k [] m))
      = setInsert lt' x (lookupSet k m) := by
  unfold lookupSet
  rw [mapFind_mapModify, if_pos rfl, mapFind_mapIndex_self]
  rfl

theorem lookupSet_eraseAndPrune (k k' : κ) (x : α) (m : List (κ × List α)) :
    lookupSet k' (eraseAndPrune k x m)
      = if k' = k then setErase x (lookupSet k m) else lookupSet k' m := by
  unfold lookupSet eraseAndPrune
  cases hf : mapFind k m with
  | none =>
    by_cases hk : k' = k
    · subst hk
      simp [hf, setErase]
    · simp [hk]
  | some s =>
    by_cases he : (setErase x s).isEmpty = true
    · have hnil : setErase x s = [] := List.isEmpty_iff.1 he
      by_cases hk : k' = k
      · subst hk
        simp [he, mapFind_mapErase, hnil]
      · simp [he, mapFind_mapErase, hk]
    · by_cases hk : k' = k
      · subst hk
        simp [he, mapFind_mapModify, hf]
      · simp [he, mapFind_mapModify, hk]

theorem eraseAndPrune_eq_self (k : κ) (x : α) (m : List (κ × List α))
    (hne : AllNonEmpty m) (hx : x ∉ lookupSet k m) : eraseAndPrune k x m = m := by
  unfold eraseAndPrune
  cases hf : mapFind k m with
  | none => rfl
  | some s =>
    have hxs : x ∉ s := by simpa [lookupSet, hf] using hx
    have hs : s ≠ [] := hne (k, s) (mapFind_some_mem k s m hf)
    have he : ¬ s.isEmpty = true := by simpa using hs
    simp only [setErase_eq_self x s hxs]
    rw [if_neg he]
    exact mapModify_const_self k s m hf

end Idempotence

/-! ## Clearing one identifier -/

theorem lookupSet_foldl_eraseAndPrune (formID : Nat) (k : StdString) (s : List StdString)
    (m : List (StdString × List Nat)) :
    lookupSet k (s.foldl (fun kf keyword => eraseAndPrune keyword formID kf) m)
      = if k ∈ s then setErase formID (lookupSet k m) else lookupSet k m := by
  induction s generalizing m with
  | nil => simp
  | cons a rest ih =>
    rw [List.foldl_cons, ih, lookupSet_eraseAndPrune]
    by_cases hka : k = a
    · subst hka
      by_cases hkr : k ∈ rest
      · simp [hkr, setErase_setErase]
      · simp [hkr]
    · by_cases hkr : k ∈ rest
      · simp [hka, hkr]
      · simp [hka, hkr]

theorem lookupSet_ClearFormKeywords_self (mgr : KeywordManager) (formID : Nat) :
    lookupSet formID (ClearFormKeywords mgr formID).formKeywords = [] := by
  unfold ClearFormKeywords
  cases hf : mapFind formID mgr.formKeywords with
  | none => simp [lookupSet, hf]
  | some s => simp [lookupSet, mapFind_mapErase]

theorem lookupSet_ClearFormKeywords_ne (mgr : KeywordManager) (formID j : Nat)
    (h : j ≠ formID) :
    lookupSet j (ClearFormKeywords mgr formID).formKeywords = lookupSet j mgr.formKeywords := by
  unfold ClearFormKeywords
  cases hf : mapFind formID mgr.formKeywords with
  | none => rfl
  | some s => simp [lookupSet, mapFind_mapErase, h]

theorem lookupSet_ClearFormKeywords_reverse (mgr : KeywordManager) (hc : Consistent mgr)
    (formID : Nat) (k : StdString) :
    lookupSet k (ClearFormKeywords mgr formID).keywordForms
      = setErase formID (lookupSet k mgr.keywordForms) := by
  unfold ClearFormKeywords
  cases hf : mapFind formID mgr.formKeywords with
  | none =>
    simp only
    rw [setErase_eq_self]
    intro h
    have := (hc formID k).1 h
    simp [lookupSet, hf] at this
  | some s =>
    simp only
    rw [lookupSet_foldl_eraseAndPrune]
    split
    · rfl
    · rename_i hks
      rw [setErase_eq_self]
      intro h
      have := (hc formID k).1 h
      simp only [lookupSet, hf, Option.getD_some] at this
      exact hks this

/-! ## The message handler -/

theorem getD_of_drop_nil {γ : Type} (l : List γ) (i : Nat) (d : γ) (h : l.drop i = []) :
    l.getD i d = d := by
  induction l generalizing i with
  | nil => rfl
  | cons a t ih =>
    cases i with
    | zero => simp at h
    | succ i => simpa using ih i (by simpa using h)

theorem getD_of_drop_cons {γ : Type} (l : List γ) (i : Nat) (d a : γ) (t : List γ)
    (h : l.drop i = a :: t) : l.getD i d = a ∧ l.drop (i + 1) = t := by
  induction l generalizing i with
  | nil => simp at h
  | cons b u ih =>
    cases i with
    | zero =>
      simp only [List.drop_zero, List.cons.injEq] at h
      simp [h.1, h.2]
    | succ i =>
      have := ih i (by simpa using h)
      simpa using this

/-- The has-any loop from index `i` with `n` iterations left looks at the keywords of the
slots `i`, ..., `i + n - 1` that precede the first null slot among them. -/
theorem hasAnyLoop_iff (mgr : KeywordManager) (data : MultiKeywordData) (n i : Nat) :
    hasAnyLoop mgr data n i = true
      ↔ ∃ kw ∈ (((data.keywords.drop i).take n).takeWhile (fun slot => slot.isSome)).filterMap
            id, HasKeyword mgr data.formID kw = true := by
  induction n generalizing i with
  | zero => simp [hasAnyLoop]
  | succ n ih =>
    unfold hasAnyLoop
    cases hd : data.keywords.drop i with
    | nil =>
      rw [getD_of_drop_nil _ _ _ hd]
      simp
    | cons a t =>
      obtain ⟨h1, h2⟩ := getD_of_drop_cons _ _ none _ _ hd
      rw [h1]
      cases a with
      | none => simp
      | some kw =>
        simp only [List.take_succ_cons, List.takeWhile_cons, Option.isSome_some, if_true,
          List.filterMap_cons, id_eq, List.mem_cons, exists_eq_or_imp]
        rw [← h2, ← ih (i + 1)]
        by_cases hk : HasKeyword mgr data.formID kw = true
        · simp [hk]
        · simp [hk]

/-- The has-all loop from index `i` with `n` iterations left looks at the keywords of the
slots `i`, ..., `i + n - 1` that precede the first null slot among them. -/
theorem hasAllLoop_iff (mgr : KeywordManager) (data : MultiKeywordData) (n i : Nat) :
    hasAllLoop mgr data n i = true
      ↔ ∀ kw ∈ (((data.keywords.drop i).take n).takeWhile (fun slot => slot.isSome)).filterMap
            id, HasKeyword mgr data.formID kw = true := by
  induction n generalizing i with
  | zero => simp [hasAllLoop]
  | succ n ih =>
    unfold hasAllLoop
    cases hd : data.keywords.drop i with
    | nil =>
      rw [getD_of_drop_nil _ _ _ hd]
      simp
    | cons a t =>
      obtain ⟨h1, h2⟩ := getD_of_drop_cons _ _ none _ _ hd
      rw [h1]
      cases a with
      | none => simp
      | some kw =>
        simp only [List.take_succ_cons, List.takeWhile_cons, Option.isSome_some, if_true,
          List.filterMap_cons, id_eq, List.mem_cons, forall_eq_or_imp]
        rw [← h2, ← ih (i + 1)]
        by_cases hk : HasKeyword mgr data.formID kw = true
        · simp [hk]
        · simp [hk]

theorem KeywordMessageHandler_hasAny (ppl : Nat) (mgr : KeywordManager)
    (data : MultiKeywordData) (hppl : ppl ≠ kMessage_HasAny) :
    KeywordMessageHandler ppl mgr (some ⟨kMessage_HasAny, some (.multi data)⟩)
      = some ⟨mgr, some (.multi { data with result := hasAnyLoop mgr data 4 0 }), []⟩ := by
  have h0 : ¬ kMessage_HasAny = ppl := fun h => hppl h.symm
  have h1 : ¬ kMessage_HasAny = kMessage_AddKeyword := by decide
  have h2 : ¬ kMessage_HasAny = kMessage_RemoveKeyword := by decide
  have h3 : ¬ kMessage_HasAny = kMessage_HasKeyword := by decide
  have h4 : ¬ kMessage_HasAny = kMessage_GetCount := by decide
  have h5 : ¬ kMessage_HasAny = kMessage_Clear := by decide
  have h6 : ¬ kMessage_HasAny = kMessage_GetNth := by decide
  simp only [KeywordMessageHandler, h0, h1, h2, h3, h4, h5, h6, if_false, if_true]

theorem KeywordMessageHandler_hasAll (ppl : Nat) (mgr : KeywordManager)
    (data : MultiKeywordData) (hppl : ppl ≠ kMessage_HasAll) :
    KeywordMessageHandler ppl mgr (some ⟨kMessage_HasAll, some (.multi data)⟩)
      = some ⟨mgr, some (.multi { data with result := hasAllLoop mgr data 4 0 }), []⟩ := by
  have h0 : ¬ kMessage_HasAll = ppl := fun h => hppl h.symm
  have h1 : ¬ kMessage_HasAll = kMessage_AddKeyword := by decide
  have h2 : ¬ kMessage_HasAll = kMessage_RemoveKeyword := by decide
  have h3 : ¬ kMessage_HasAll = kMessage_HasKeyword := by decide
  have h4 : ¬ kMessage_HasAll = kMessage_GetCount := by decide
  have h5 : ¬ kMessage_HasAll = kMessage_Clear := by decide
  have h6 : ¬ kMessage_HasAll = kMessage_GetNth := by decide
  have h7 : ¬ kMessage_HasAll = kMessage_HasAny := by decide
  simp only [KeywordMessageHandler, h0, h1, h2, h3, h4, h5, h6, h7, if_false, if_true]

theorem KeywordMessageHandler_getNth (ppl : Nat) (mgr : KeywordManager)
    (data : GetNthData) (hppl : ppl ≠ kMessage_GetNth) :
    KeywordMessageHandler ppl mgr (some ⟨kMessage_GetNth, some (.nth data)⟩)
      = some ⟨mgr,
          some (.nth { data with
            keyword :=
              if data.index < (GetKeywords mgr data.formID).length then
                strncpy_s (data.keyword.set 0 0) 256
                  (cstr ((GetKeywords mgr data.formID).getD data.index [] ++ [0]))
              else data.keyword.set 0 0 }), []⟩ := by
  have h0 : ¬ kMessage_GetNth = ppl := fun h => hppl h.symm
  have h1 : ¬ kMessage_GetNth = kMessage_AddKeyword := by decide
  have h2 : ¬ kMessage_GetNth = kMessage_RemoveKeyword := by decide
  have h3 : ¬ kMessage_GetNth = kMessage_HasKeyword := by decide
  have h4 : ¬ kMessage_GetNth = kMessage_GetCount := by decide
  have h5 : ¬ kMessage_GetNth = kMessage_Clear := by decide
  simp only [KeywordMessageHandler, h0, h1, h2, h3, h4, h5, if_false, if_true]

theorem cstr_set_zero (buffer : List Nat) : cstr (buffer.set 0 0) = [] := by
  cases buffer with
  | nil => rfl
  | cons a rest => simp [cstr, List.takeWhile]

/-! ## The handler, case by case -/

theorem KeywordMessageHandler_postPostLoad (ppl : Nat) (mgr : KeywordManager)
    (payload : Payload) :
    KeywordMessageHandler ppl mgr (some ⟨ppl, some payload⟩)
      = some ⟨mgr, some payload, [⟨kMessage_Ready, none⟩]⟩ := by
  simp only [KeywordMessageHandler, if_true]

theorem KeywordMessageHandler_null_data (ppl : Nat) (mgr : KeywordManager) (type : Nat) :
    KeywordMessageHandler ppl mgr (some ⟨type, none⟩) = some ⟨mgr, none, []⟩ := by
  simp only [KeywordMessageHandler]

theorem KeywordMessageHandler_add (ppl : Nat) (mgr : KeywordManager) (data : BasicData)
    (kw : StdString) (hkw : data.keyword = some kw) (hppl : ppl ≠ kMessage_AddKeyword) :
    KeywordMessageHandler ppl mgr (some ⟨kMessage_AddKeyword, some (.basic data)⟩)
      = some ⟨(AddKeyword mgr data.formID kw).2,
          some (.basic { data with result := (AddKeyword mgr data.formID kw).1 }), []⟩ := by
  have h0 : ¬ kMessage_AddKeyword = ppl := fun h => hppl h.symm
  simp only [KeywordMessageHandler, h0, hkw, if_false, if_true]

theorem KeywordMessageHandler_remove (ppl : Nat) (mgr : KeywordManager) (data : BasicData)
    (kw : StdString) (hkw : data.keyword = some kw) (hppl : ppl ≠ kMessage_RemoveKeyword) :
    KeywordMessageHandler ppl mgr (some ⟨kMessage_RemoveKeyword, some (.basic data)⟩)
      = some ⟨(RemoveKeyword mgr data.formID kw).2,
          some (.basic { data with result := (RemoveKeyword mgr data.formID kw).1 }), []⟩ := by
  have h0 : ¬ kMessage_RemoveKeyword = ppl := fun h => hppl h.symm
  have h1 : ¬ kMessage_RemoveKeyword = kMessage_AddKeyword := by decide
  simp only [KeywordMessageHandler, h0, h1, hkw, if_false, if_true]

theorem KeywordMessageHandler_has (ppl : Nat) (mgr : KeywordManager) (data : BasicData)
    (kw : StdString) (hkw : data.keyword = some kw) (hppl : ppl ≠ kMessage_HasKeyword) :
    KeywordMessageHandler ppl mgr (some ⟨kMessage_HasKeyword, some (.basic data)⟩)
      = some ⟨mgr,
          some (.basic { data with result := HasKeyword mgr data.formID kw }), []⟩ := by
  have h0 : ¬ kMessage_HasKeyword = ppl := fun h => hppl h.symm
  have h1 : ¬ kMessage_HasKeyword = kMessage_AddKeyword := by decide
  have h2 : ¬ kMessage_HasKeyword = kMessage_RemoveKeyword := by decide
  simp only [KeywordMessageHandler, h0, h1, h2, hkw, if_false, if_true]

theorem KeywordMessageHandler_getCount (ppl : Nat) (mgr : KeywordManager) (data : BasicData)
    (hppl : ppl ≠ kMessage_GetCount) :
    KeywordMessageHandler ppl mgr (some ⟨kMessage_GetCount, some (.basic data)⟩)
      = some ⟨mgr,
          some (.basic { data with count := GetKeywordCount mgr data.formID % 2 ^ 32 }),
          []⟩ := by
  have h0 : ¬ kMessage_GetCount = ppl := fun h => hppl h.symm
  have h1 : ¬ kMessage_GetCount = kMessage_AddKeyword := by decide
  have h2 : ¬ kMessage_GetCount = kMessage_RemoveKeyword := by decide
  have h3 : ¬ kMessage_GetCount = kMessage_HasKeyword := by decide
  simp only [KeywordMessageHandler, h0, h1, h2, h3, if_false, if_true]

theorem KeywordMessageHandler_clear (ppl : Nat) (mgr : KeywordManager) (data : BasicData)
    (hppl : ppl ≠ kMessage_Clear) :
    KeywordMessageHandler ppl mgr (some ⟨kMessage_Clear, some (.basic data)⟩)
      = some ⟨ClearFormKeywords mgr data.formID, some (.basic data), []⟩ := by
  have h0 : ¬ kMessage_Clear = ppl := fun h => hppl h.symm
  have h1 : ¬ kMessage_Clear = kMessage_AddKeyword := by decide
  have h2 : ¬ kMessage_Clear = kMessage_RemoveKeyword := by decide
  have h3 : ¬ kMessage_Clear = kMessage_HasKeyword := by decide
  have h4 : ¬ kMessage_Clear = kMessage_GetCount := by decide
  simp only [KeywordMessageHandler, h0, h1, h2, h3, h4, if_false, if_true]

/-! ## The C string left in the get-nth buffer -/

theorem cstr_append_zero_cons (s rest : List Nat) (h : 0 ∉ s) :
    cstr (s ++ [0] ++ rest) = s := by
  induction s with
  | nil => simp [cstr]
  | cons a t ih =>
    have ha : (a != 0) = true := by
      simp only [bne_iff_ne, ne_eq]
      exact fun e => h (e ▸ List.mem_cons_self _ _)
    have ht : 0 ∉ t := fun e => h (List.mem_cons_of_mem _ e)
    have ih2 := ih ht
    unfold cstr at ih2 ⊢
    rw [List.cons_append, List.cons_append, List.takeWhile_cons, ha]
    simp only [if_true]
    rw [ih2]

theorem zero_not_mem_cstr (buffer : List Nat) : 0 ∉ cstr buffer := by
  intro h
  have := List.mem_takeWhile_imp h
  simp at this

theorem cstr_strncpy_s (dest : List Nat) (size : Nat) (src : StdString) (h : 0 ∉ src) :
    cstr (strncpy_s dest size src) = src.take (size - 1) := by
  unfold strncpy_s
  apply cstr_append_zero_cons
  intro hm
  exact h (List.mem_of_mem_take hm)

/-! ## The record loop needs no more iterations than records -/

theorem loadLoop_fuel (resolve : Nat → Option Nat) (junk : Nat → Nat) (fuel1 fuel2 : Nat)
    (recs : List Record) (mgr : KeywordManager)
    (h1 : recs.length < fuel1) (h2 : recs.length < fuel2) :
    loadLoop resolve junk fuel1 recs mgr = loadLoop resolve junk fuel2 recs mgr := by
  induction fuel1 generalizing fuel2 recs mgr with
  | zero => omega
  | succ fuel1 ih =>
    cases fuel2 with
    | zero => omega
    | succ fuel2 =>
      match recs with
      | [] => simp [loadLoop]
      | r :: rest =>
        have hr1 : rest.length < fuel1 := by
          simp only [List.length_cons] at h1
          omega
        have hr2 : rest.length < fuel2 := by
          simp only [List.length_cons] at h2
          omega
        unfold loadLoop
        split
        · exact ih _ _ _ hr1 hr2
        · split
          · match rest with
            | [] => exact ih _ _ _ hr1 hr2
            | r2 :: rest2 =>
              have hs1 : rest2.length < fuel1 := by
                simp only [List.length_cons] at hr1
                omega
              have hs2 : rest2.length < fuel2 := by
                simp only [List.length_cons] at hr2
                omega
              simp only
              split
              · apply ih
                · exact lt_of_le_of_lt (readKeywords_length_le _ _ _ _ _) hs1
                · exact lt_of_le_of_lt (readKeywords_length_le _ _ _ _ _) hs2
              · exact ih _ _ _ hs1 hs2
          · exact ih _ _ _ hr1 hr2

/-- A leading KWCT record is read and dropped, whatever it holds. -/
theorem Load_cons_KWCT (resolve : Nat → Option Nat) (junk : Nat → Nat) (version : Nat)
    (data : List Nat) (rest : List Record) (mgr : KeywordManager) :
    Load resolve junk (⟨KWCT, version, data⟩ :: rest) mgr = Load resolve junk rest mgr := by
  unfold Load
  rw [List.length_cons, loadLoop]
  simp only [if_true]

/-! ## The client before the ready broadcast -/

theorem IsReady_of_not_ready (c : ClientState) (h : c.s_ready = false) :
    KeywordAPI.IsReady c = false := by
  simp [KeywordAPI.IsReady, h]

/-- Seven of the eight client requests dispatch nothing and return false, 0 or the empty
string while the latch is false. -/
theorem client_refuses_before_ready (ppl : Nat) (c : ClientState) (mgr : KeywordManager)
    (formID index : Nat) (kw kw1 kw2 kw3 kw4 : Option StdString) (h : c.s_ready = false) :
    KeywordAPI.RemoveKeyword ppl c mgr formID kw = some ⟨false, mgr, []⟩ ∧
      KeywordAPI.HasKeyword ppl c mgr formID kw = some ⟨false, mgr, []⟩ ∧
      KeywordAPI.GetKeywordCount ppl c mgr formID = some ⟨0, mgr, []⟩ ∧
      KeywordAPI.ClearKeywords ppl c mgr formID = some ⟨(), mgr, []⟩ ∧
      KeywordAPI.GetNthKeyword ppl c mgr formID index = some ⟨[], mgr, []⟩ ∧
      KeywordAPI.HasAnyKeyword ppl c mgr formID kw1 kw2 kw3 kw4 = some ⟨false, mgr, []⟩ ∧
      KeywordAPI.HasAllKeywords ppl c mgr formID kw1 kw2 kw3 kw4 = some ⟨false, mgr, []⟩ := by
  have hr := IsReady_of_not_ready c h
  simp [KeywordAPI.RemoveKeyword, KeywordAPI.HasKeyword, KeywordAPI.GetKeywordCount,
    KeywordAPI.ClearKeywords, KeywordAPI.GetNthKeyword, KeywordAPI.HasAnyKeyword,
    KeywordAPI.HasAllKeywords, hr]

/-! ## The INI loader only calls AddKeyword -/

theorem strictTotal_u32Lt : StrictTotal u32Lt where
  irrefl := by
    intro a
    simp [u32Lt]
  trans := by
    intro a b c h1 h2
    simp only [u32Lt, decide_eq_true_eq] at *
    omega
  total := by
    intro a b h
    simp only [u32Lt, decide_eq_true_eq]
    omega

theorem strLt_irrefl (a : StdString) : strLt a a = false := by
  induction a with
  | nil => rfl
  | cons x xs ih => simp [strLt, ih]

theorem strLt_cons_cons (x y : Nat) (xs ys : StdString) :
    strLt (x :: xs) (y :: ys) = true ↔ x < y ∨ (x = y ∧ strLt xs ys = true) := by
  have e : strLt (x :: xs) (y :: ys)
      = (if x < y then true else if y < x then false else strLt xs ys) := rfl
  rw [e]
  by_cases h1 : x < y
  · rw [if_pos h1]
    exact ⟨fun _ => Or.inl h1, fun _ => rfl⟩
  · rw [if_neg h1]
    by_cases h2 : y < x
    · rw [if_pos h2]
      constructor
      · intro h
        exact absurd h Bool.false_ne_true
      · rintro (h | ⟨h, _⟩)
        · exact absurd h h1
        · exact absurd h2 (by omega)
    · rw [if_neg h2]
      have hxy : x = y := by omega
      constructor
      · exact fun h => Or.inr ⟨hxy, h⟩
      · rintro (h | ⟨_, h⟩)
        · exact absurd h h1
        · exact h

theorem strLt_trans (a b c : StdString) (h1 : strLt a b = true) (h2 : strLt b c = true) :
    strLt a c = true := by
  induction a generalizing b c with
  | nil =>
    cases c with
    | nil =>
      cases b with
      | nil => simp [strLt] at h1
      | cons y ys => simp [strLt] at h2
    | cons z zs => simp [strLt]
  | cons x xs ih =>
    cases b with
    | nil => simp [strLt] at h1
    | cons y ys =>
      cases c with
      | nil => simp [strLt] at h2
      | cons z zs =>
        rw [strLt_cons_cons] at h1 h2 ⊢
        rcases h1 with h1 | ⟨h1, h1'⟩
        · rcases h2 with h2 | ⟨h2, _⟩
          · exact Or.inl (by omega)
          · exact Or.inl (by omega)
        · rcases h2 with h2 | ⟨h2, h2'⟩
          · exact Or.inl (by omega)
          · exact Or.inr ⟨by omega, ih ys zs h1' h2'⟩

theorem strLt_total (a b : StdString) (h : a ≠ b) : strLt a b = true ∨ strLt b a = true := by
  induction a generalizing b with
  | nil =>
    cases b with
    | nil => exact absurd rfl h
    | cons y ys => exact Or.inl (by simp [strLt])
  | cons x xs ih =>
    cases b with
    | nil => exact Or.inr (by simp [strLt])
    | cons y ys =>
      rw [strLt_cons_cons, strLt_cons_cons]
      by_cases h1 : x < y
      · exact Or.inl (Or.inl h1)
      · by_cases h2 : y < x
        · exact Or.inr (Or.inl h2)
        · have hxy : x = y := by omega
          have hne : xs ≠ ys := by
            intro e
            exact h (by rw [hxy, e])
          rcases ih ys hne with h3 | h3
          · exact Or.inl (Or.inr ⟨hxy, h3⟩)
          · exact Or.inr (Or.inr ⟨hxy.symm, h3⟩)

theorem strictTotal_strLt : StrictTotal strLt where
  irrefl := strLt_irrefl
  trans := strLt_trans
  total := strLt_total

/-! ## Ordered insertion and erasure keep a list ascending -/

theorem sortedBy_nil {α : Type} (lt : α → α → Bool) : SortedBy lt ([] : List α) := List.Pairwise.nil

theorem keys_mapInsertNew {κ ν : Type} (lt : κ → κ → Bool) (k : κ) (v : ν) (m : List (κ × ν)) :
    (mapInsertNew lt k v m).map Prod.fst = orderedIns lt k (m.map Prod.fst) := by
  induction m with
  | nil => rfl
  | cons e rest ih =>
    obtain ⟨a, w⟩ := e
    unfold mapInsertNew
    simp only [List.map_cons]
    unfold orderedIns
    split
    · rfl
    · simp [ih]

section Sorted

variable {α κ ν : Type} [DecidableEq α] [DecidableEq κ]

theorem sortedBy_orderedIns (lt : α → α → Bool) (hlt : StrictTotal lt) (x : α) (l : List α)
    (hl : SortedBy lt l) (hx : x ∉ l) : SortedBy lt (orderedIns lt x l) := by
  induction l with
  | nil => simp [orderedIns, SortedBy]
  | cons y ys ih =>
    have hy : x ≠ y := fun e => hx (e ▸ List.mem_cons_self _ _)
    have hys : x ∉ ys := fun e => hx (List.mem_cons_of_mem _ e)
    unfold SortedBy at hl ih ⊢
    rw [List.pairwise_cons] at hl
    unfold orderedIns
    split
    · rename_i hxy
      rw [List.pairwise_cons]
      refine ⟨?_, List.pairwise_cons.2 hl⟩
      intro z hz
      rcases List.mem_cons.1 hz with h | h
      · rw [h]
        exact hxy
      · exact hlt.trans _ _ _ hxy (hl.1 z h)
    · rename_i hxy
      have hyx : lt y x = true := by
        rcases hlt.total x y hy with h | h
        · exact absurd h hxy
        · exact h
      rw [List.pairwise_cons]
      refine ⟨?_, ih hl.2 hys⟩
      intro z hz
      rcases (mem_orderedIns lt x z ys).1 hz with h | h
      · rw [h]
        exact hyx
      · exact hl.1 z h

theorem sortedBy_setInsert (lt : α → α → Bool) (hlt : StrictTotal lt) (x : α) (l : List α)
    (hl : SortedBy lt l) : SortedBy lt (setInsert lt x l) := by
  unfold setInsert
  split
  · exact hl
  · rename_i hx
    exact sortedBy_orderedIns lt hlt x l hl hx

theorem sortedBy_setErase (lt : α → α → Bool) (x : α) (l : List α) (hl : SortedBy lt l) :
    SortedBy lt (setErase x l) := by
  unfold SortedBy setErase at *
  exact hl.filter _

/-- Two strictly ascending lists with the same elements are the same list. -/
theorem sortedBy_ext (lt : α → α → Bool) (hlt : StrictTotal lt) (l1 l2 : List α)
    (h1 : SortedBy lt l1) (h2 : SortedBy lt l2) (h : ∀ x, x ∈ l1 ↔ x ∈ l2) : l1 = l2 := by
  induction l1 generalizing l2 with
  | nil =>
    cases l2 with
    | nil => rfl
    | cons b bs => exact absurd ((h b).2 (List.mem_cons_self _ _)) (List.not_mem_nil b)
  | cons a as ih =>
    cases l2 with
    | nil => exact absurd ((h a).1 (List.mem_cons_self _ _)) (List.not_mem_nil a)
    | cons b bs =>
      unfold SortedBy at h1 h2 ih
      rw [List.pairwise_cons] at h1 h2
      have hab : a = b := by
        by_contra hne
        have ha : a ∈ bs := by
          rcases List.mem_cons.1 ((h a).1 (List.mem_cons_self _ _)) with e | e
          · exact absurd e hne
          · exact e
        have hb : b ∈ as := by
          rcases List.mem_cons.1 ((h b).2 (List.mem_cons_self _ _)) with e | e
          · exact absurd e.symm hne
          · exact e
        have h3 := hlt.trans _ _ _ (h1.1 b hb) (h2.1 a ha)
        rw [hlt.irrefl] at h3
        exact Bool.false_ne_true h3
      subst hab
      have hna : a ∉ as := by
        intro e
        have := h1.1 a e
        rw [hlt.irrefl] at this
        exact Bool.false_ne_true this
      have hnb : a ∉ bs := by
        intro e
        have := h2.1 a e
        rw [hlt.irrefl] at this
        exact Bool.false_ne_true this
      have htail : ∀ x, x ∈ as ↔ x ∈ bs := by
        intro x
        constructor
        · intro hx
          rcases List.mem_cons.1 ((h x).1 (List.mem_cons_of_mem _ hx)) with e | e
          · exact absurd (e ▸ hx) hna
          · exact e
        · intro hx
          rcases List.mem_cons.1 ((h x).2 (List.mem_cons_of_mem _ hx)) with e | e
          · exact absurd (e ▸ hx) hnb
          · exact e
      rw [ih bs h1.2 h2.2 htail]

theorem sortedKeys_insert [DecidableEq ν] (lt : κ → κ → Bool) (hlt : StrictTotal lt)
    (lt' : ν → ν → Bool) (k : κ) (x : ν) (m : List (κ × List ν))
    (h : SortedBy lt (m.map Prod.fst)) :
    SortedBy lt ((mapModify k (setInsert lt' x) (mapIndex lt k [] m)).map Prod.fst) := by
  rw [keys_mapModify]
  unfold mapIndex
  cases hf : mapFind k m with
  | none =>
    simp only
    rw [keys_mapInsertNew]
    exact sortedBy_orderedIns lt hlt k _ h ((mapFind_eq_none_iff k m).1 hf)
  | some s => exact h

theorem sortedKeys_mapErase (lt : κ → κ → Bool) (k : κ) (m : List (κ × ν))
    (h : SortedBy lt (m.map Prod.fst)) : SortedBy lt ((mapErase k m).map Prod.fst) := by
  unfold SortedBy mapErase at *
  exact h.sublist ((List.filter_sublist m).map Prod.fst)

theorem sortedKeys_eraseAndPrune [DecidableEq ν] (lt : κ → κ → Bool) (k : κ) (x : ν)
    (m : List (κ × List ν)) (h : SortedBy lt (m.map Prod.fst)) :
    SortedBy lt ((eraseAndPrune k x m).map Prod.fst) := by
  unfold eraseAndPrune
  cases hf : mapFind k m with
  | none => exact h
  | some s =>
    simp only
    split
    · exact sortedKeys_mapErase lt k m h
    · rw [keys_mapModify]
      exact h

theorem sortedValues_insert [DecidableEq ν] (lt : κ → κ → Bool) (lt' : ν → ν → Bool)
    (hlt' : StrictTotal lt') (k : κ) (x : ν) (m : List (κ × List ν))
    (h : ∀ e ∈ m, SortedBy lt' e.2) :
    ∀ e ∈ mapModify k (setInsert lt' x) (mapIndex lt k [] m), SortedBy lt' e.2 := by
  intro e he
  rcases mem_mapModify k _ _ e he with h1 | ⟨v, hv, h1⟩
  · unfold mapIndex at h1
    cases hf : mapFind k m with
    | none =>
      rw [hf] at h1
      rcases (mem_mapInsertNew lt k [] m e).1 h1 with h2 | h2
      · rw [h2]
        exact sortedBy_nil lt'
      · exact h e h2
    | some s =>
      rw [hf] at h1
      exact h e h1
  · rw [h1]
    apply sortedBy_setInsert lt' hlt'
    unfold mapIndex at hv
    cases hf : mapFind k m with
    | none =>
      rw [hf] at hv
      rcases (mem_mapInsertNew lt k [] m _).1 hv with h2 | h2
      · have : v = [] := by simpa using h2
        rw [this]
        exact sortedBy_nil lt'
      · exact h _ h2
    | some s =>
      rw [hf] at hv
      exact h _ hv

theorem sortedValues_eraseAndPrune [DecidableEq ν] (lt' : ν → ν → Bool) (k : κ) (x : ν)
    (m : List (κ × List ν)) (h : ∀ e ∈ m, SortedBy lt' e.2) :
    ∀ e ∈ eraseAndPrune k x m, SortedBy lt' e.2 := by
  unfold eraseAndPrune
  cases hf : mapFind k m with
  | none => exact h
  | some s =>
    simp only
    split
    · intro e he
      exact h e (mem_mapErase k m e he)
    · intro e he
      rcases mem_mapModify k _ m e he with h1 | ⟨v, _, h1⟩
      · exact h e h1
      · rw [h1]
        exact sortedBy_setErase lt' x s (h (k, s) (mapFind_some_mem k s m hf))

end Sorted

/-! ## Reachable states are in iteration order -/

theorem sortedKeys_foldl_eraseAndPrune (formID : Nat) (s : List StdString)
    (m : List (StdString × List Nat)) (h : SortedBy strLt (m.map Prod.fst)) :
    SortedBy strLt
      ((s.foldl (fun kf keyword => eraseAndPrune keyword formID kf) m).map Prod.fst) := by
  induction s generalizing m with
  | nil => exact h
  | cons a rest ih =>
    rw [List.foldl_cons]
    exact ih _ (sortedKeys_eraseAndPrune strLt a formID m h)

theorem sortedValues_foldl_eraseAndPrune (formID : Nat) (s : List StdString)
    (m : List (StdString × List Nat)) (h : ∀ e ∈ m, SortedBy u32Lt e.2) :
    ∀ e ∈ s.foldl (fun kf keyword => eraseAndPrune keyword formID kf) m,
      SortedBy u32Lt e.2 := by
  induction s generalizing m with
  | nil => exact h
  | cons a rest ih =>
    rw [List.foldl_cons]
    exact ih _ (sortedValues_eraseAndPrune u32Lt a formID m h)

theorem wellOrdered_empty : WellOrdered KeywordManager.empty := by
  refine ⟨List.Pairwise.nil, ?_, List.Pairwise.nil, ?_⟩ <;> intro e he <;>
    simp [KeywordManager.empty] at he

theorem wellOrdered_add (mgr : KeywordManager) (formID : Nat) (keyword : StdString)
    (h : WellOrdered mgr) : WellOrdered (AddKeyword mgr formID keyword).2 := by
  unfold AddKeyword
  split
  · exact h
  · exact ⟨sortedKeys_insert u32Lt strictTotal_u32Lt strLt _ _ _ h.1,
      sortedValues_insert u32Lt strLt strictTotal_strLt _ _ _ h.2.1,
      sortedKeys_insert strLt strictTotal_strLt u32Lt _ _ _ h.2.2.1,
      sortedValues_insert strLt u32Lt strictTotal_u32Lt _ _ _ h.2.2.2⟩

theorem wellOrdered_remove (mgr : KeywordManager) (formID : Nat) (keyword : StdString)
    (h : WellOrdered mgr) : WellOrdered (RemoveKeyword mgr formID keyword).2 :=
  ⟨sortedKeys_eraseAndPrune u32Lt _ _ _ h.1,
    sortedValues_eraseAndPrune strLt _ _ _ h.2.1,
    sortedKeys_eraseAndPrune strLt _ _ _ h.2.2.1,
    sortedValues_eraseAndPrune u32Lt _ _ _ h.2.2.2⟩

theorem wellOrdered_clear (mgr : KeywordManager) (formID : Nat) (h : WellOrdered mgr) :
    WellOrdered (ClearFormKeywords mgr formID) := by
  unfold ClearFormKeywords
  cases hf : mapFind formID mgr.formKeywords with
  | none => exact h
  | some s =>
    refine ⟨sortedKeys_mapErase u32Lt _ _ h.1, ?_,
      sortedKeys_foldl_eraseAndPrune formID s _ h.2.2.1,
      sortedValues_foldl_eraseAndPrune formID s _ h.2.2.2⟩
    intro e he
    exact h.2.1 e (mem_mapErase _ _ e he)

theorem reachable_wellOrdered {mgr : KeywordManager} (h : Reachable mgr) :
    WellOrdered mgr := by
  induction h with
  | empty => exact wellOrdered_empty
  | add formID keyword _ ih => exact wellOrdered_add _ formID keyword ih
  | remove formID keyword _ ih => exact wellOrdered_remove _ formID keyword ih
  | clear formID _ ih => exact wellOrdered_clear _ formID ih
  | clearAll _ _ => exact wellOrdered_empty
  | load resolve junk records _ hl _ =>
    exact Load_preserves WellOrdered wellOrdered_add wellOrdered_empty _ _ _ _ _ hl

/-! ## A map in iteration order is determined by what it holds -/

section MapExt

variable {κ ν : Type} [DecidableEq κ]

theorem map_ext_of_keys (m1 m2 : List (κ × ν)) (hk : m1.map Prod.fst = m2.map Prod.fst)
    (hf : ∀ k, mapFind k m1 = mapFind k m2) (hn : NodupKeys m1) : m1 = m2 := by
  induction m1 generalizing m2 with
  | nil =>
    cases m2 with
    | nil => rfl
    | cons e r => simp at hk
  | cons e1 r1 ih =>
    cases m2 with
    | nil => simp at hk
    | cons e2 r2 =>
      obtain ⟨a, v⟩ := e1
      obtain ⟨b, w⟩ := e2
      simp only [List.map_cons, List.cons.injEq] at hk
      obtain ⟨hab, hkr⟩ := hk
      subst hab
      have hn' : a ∉ r1.map Prod.fst ∧ (r1.map Prod.fst).Nodup := by
        simpa [NodupKeys] using hn
      have hvw : v = w := by
        have := hf a
        simpa [mapFind] using this
      subst hvw
      have htail : ∀ k, mapFind k r1 = mapFind k r2 := by
        intro k
        by_cases hka : a = k
        · subst hka
          rw [(mapFind_eq_none_iff a r1).2 hn'.1,
            (mapFind_eq_none_iff a r2).2 (hkr ▸ hn'.1)]
        · have := hf k
          simpa [mapFind, hka] using this
      rw [ih r2 hkr htail hn'.2]

theorem mem_keys_iff_lookupSet {μ : Type} (m : List (κ × List μ)) (hne : AllNonEmpty m)
    (k : κ) : k ∈ m.map Prod.fst ↔ ∃ x, x ∈ lookupSet k m := by
  constructor
  · intro hk
    cases hf : mapFind k m with
    | none => exact absurd hk ((mapFind_eq_none_iff k m).1 hf)
    | some s =>
      have hs : s ≠ [] := hne (k, s) (mapFind_some_mem k s m hf)
      obtain ⟨x, hx⟩ := List.exists_mem_of_ne_nil s hs
      exact ⟨x, by simpa [lookupSet, hf] using hx⟩
  · rintro ⟨x, hx⟩
    by_contra hk
    rw [lookupSet, (mapFind_eq_none_iff k m).2 hk] at hx
    exact absurd hx (List.not_mem_nil x)

end MapExt

theorem sortedBy_nodup {α : Type} (lt : α → α → Bool) (hlt : StrictTotal lt) (l : List α)
    (h : SortedBy lt l) : l.Nodup := by
  unfold SortedBy at h
  unfold List.Nodup
  refine h.imp ?_
  intro a b hab e
  rw [e, hlt.irrefl] at hab
  exact Bool.false_ne_true hab

/-- Two maps in iteration order, without empty sets, that hold the same elements under the
same keys are the same list. -/
theorem map_eq_of_same_lookup {κ μ : Type} [DecidableEq κ] [DecidableEq μ]
    (lt : κ → κ → Bool) (hlt : StrictTotal lt) (lt' : μ → μ → Bool) (hlt' : StrictTotal lt')
    (m1 m2 : List (κ × List μ))
    (hk1 : SortedBy lt (m1.map Prod.fst)) (hk2 : SortedBy lt (m2.map Prod.fst))
    (hv1 : ∀ e ∈ m1, SortedBy lt' e.2) (hv2 : ∀ e ∈ m2, SortedBy lt' e.2)
    (hne1 : AllNonEmpty m1) (hne2 : AllNonEmpty m2)
    (h : ∀ k x, x ∈ lookupSet k m1 ↔ x ∈ lookupSet k m2) : m1 = m2 := by
  have hkeys : m1.map Prod.fst = m2.map Prod.fst := by
    apply sortedBy_ext lt hlt _ _ hk1 hk2
    intro k
    rw [mem_keys_iff_lookupSet m1 hne1, mem_keys_iff_lookupSet m2 hne2]
    constructor
    · rintro ⟨x, hx⟩
      exact ⟨x, (h k x).1 hx⟩
    · rintro ⟨x, hx⟩
      exact ⟨x, (h k x).2 hx⟩
  apply map_ext_of_keys m1 m2 hkeys _ (sortedBy_nodup lt hlt _ hk1)
  intro k
  cases hf1 : mapFind k m1 with
  | none =>
    cases hf2 : mapFind k m2 with
    | none => rfl
    | some s2 =>
      have hk := (mapFind_eq_none_iff k m1).1 hf1
      rw [hkeys] at hk
      rw [(mapFind_eq_none_iff k m2).2 hk] at hf2
      exact absurd hf2 (by simp)
  | some s1 =>
    cases hf2 : mapFind k m2 with
    | none =>
      have hk := (mapFind_eq_none_iff k m2).1 hf2
      rw [← hkeys] at hk
      rw [(mapFind_eq_none_iff k m1).2 hk] at hf1
      exact absurd hf1 (by simp)
    | some s2 =>
      have hs1 := hv1 (k, s1) (mapFind_some_mem k s1 m1 hf1)
      have hs2 := hv2 (k, s2) (mapFind_some_mem k s2 m2 hf2)
      have hsame : ∀ x, x ∈ s1 ↔ x ∈ s2 := by
        intro x
        have := h k x
        simpa [lookupSet, hf1, hf2] using this
      rw [sortedBy_ext lt' hlt' s1 s2 hs1 hs2 hsame]

/-- Two reachable states that hold the same (identifier, keyword) pairs are equal. -/
theorem reachable_ext (mgr1 mgr2 : KeywordManager) (h1 : Reachable mgr1)
    (h2 : Reachable mgr2)
    (h : ∀ (i : Nat) (k : StdString), k ∈ GetKeywords mgr1 i ↔ k ∈ GetKeywords mgr2 i) :
    mgr1 = mgr2 := by
  have hw1 := reachable_wellOrdered h1
  have hw2 := reachable_wellOrdered h2
  have hn1 := reachable_noEmpty h1
  have hn2 := reachable_noEmpty h2
  have hfwd : ∀ (i : Nat) (k : StdString),
      k ∈ lookupSet i mgr1.formKeywords ↔ k ∈ lookupSet i mgr2.formKeywords := by
    intro i k
    have := h i k
    rwa [GetKeywords_eq, GetKeywords_eq] at this
  have hrev : ∀ (k : StdString) (i : Nat),
      i ∈ lookupSet k mgr1.keywordForms ↔ i ∈ lookupSet k mgr2.keywordForms := by
    intro k i
    rw [reachable_consistent h1 i k, reachable_consistent h2 i k]
    exact hfwd i k
  have e1 : mgr1.formKeywords = mgr2.formKeywords :=
    map_eq_of_same_lookup u32Lt strictTotal_u32Lt strLt strictTotal_strLt _ _
      hw1.1 hw2.1 hw1.2.1 hw2.2.1 hn1.1 hn2.1 hfwd
  have e2 : mgr1.keywordForms = mgr2.keywordForms :=
    map_eq_of_same_lookup strLt strictTotal_strLt u32Lt strictTotal_u32Lt _ _
      hw1.2.2.1 hw2.2.2.1 hw1.2.2.2 hw2.2.2.2 hn1.2 hn2.2 hrev
  cases mgr1
  cases mgr2
  simp only at e1 e2
  rw [e1, e2]

/-! ## The layout of the saved stream -/

theorem saveKeywords_eq_flatMap (ks : List StdString) (h : ∀ k ∈ ks, k.length < 2 ^ 32) :
    saveKeywords ks
      = ks.flatMap (fun k => [⟨KWKL, 1, u32Bytes k.length⟩, ⟨KWKD, 1, k⟩]) := by
  induction ks with
  | nil => rfl
  | cons k rest ih =>
    have hk := h k (List.mem_cons_self _ _)
    have hmod : k.length % 2 ^ 32 = k.length := Nat.mod_eq_of_lt hk
    simp only [saveKeywords, hmod, List.take_length, List.flatMap_cons, List.cons_append,
      List.nil_append]
    rw [ih (fun k' hk' => h k' (List.mem_cons_of_mem _ hk'))]

theorem saveForms_eq_flatMap (es : List (Nat × List StdString)) (h : Fits32 es) :
    saveForms es
      = es.flatMap (fun e =>
          ⟨KWFM, 1, u32Bytes e.1⟩ :: ⟨KWKC, 1, u32Bytes e.2.length⟩ ::
            e.2.flatMap (fun k => [⟨KWKL, 1, u32Bytes k.length⟩, ⟨KWKD, 1, k⟩])) := by
  induction es with
  | nil => rfl
  | cons e rest ih =>
    obtain ⟨formID, ks⟩ := e
    have he := h (formID, ks) (List.mem_cons_self _ _)
    have hmod : ks.length % 2 ^ 32 = ks.length := Nat.mod_eq_of_lt he.2.1
    simp only [saveForms, hmod, List.flatMap_cons, List.cons_append]
    rw [ih (fun e' he' => h e' (List.mem_cons_of_mem _ he')), saveKeywords_eq_flatMap ks he.2.2]

theorem flatMap_congr_mem {α β : Type} (l : List α) (f g : α → List β)
    (h : ∀ a ∈ l, f a = g a) : l.flatMap f = l.flatMap g := by
  induction l with
  | nil => rfl
  | cons a rest ih =>
    rw [List.flatMap_cons, List.flatMap_cons, h a (List.mem_cons_self _ _),
      ih (fun b hb => h b (List.mem_cons_of_mem _ hb))]

/-! ## The line parser -/

theorem Trim_eq_rdropWhile (s : StdString) :
    Trim s = List.rdropWhile isspace (s.dropWhile isspace) := rfl

/-- What `Trim` returns neither starts nor ends with whitespace. -/
theorem isTrimmed_Trim (s : StdString) : IsTrimmed (Trim s) := by
  rw [Trim_eq_rdropWhile]
  constructor
  · intro c hc
    have hne : List.rdropWhile isspace (s.dropWhile isspace) ≠ [] := by
      intro h
      rw [h] at hc
      exact Option.noConfusion hc
    have hpre := List.rdropWhile_prefix isspace (s.dropWhile isspace)
    have hne' : s.dropWhile isspace ≠ [] := by
      intro h
      apply hne
      apply List.eq_nil_of_subset_nil
      intro x hx
      have hx' := hpre.subset hx
      rw [h] at hx'
      exact hx'
    have hh := hpre.head hne
    rw [List.head?_eq_head hne, hh] at hc
    have := List.head_dropWhile_not isspace s hne'
    rw [← Option.some.inj hc]
    exact this
  · intro c hc
    have hne : List.rdropWhile isspace (s.dropWhile isspace) ≠ [] := by
      intro h
      rw [h] at hc
      exact Option.noConfusion hc
    rw [List.getLast?_eq_getLast _ hne] at hc
    have := List.rdropWhile_last_not isspace (s.dropWhile isspace) hne
    rw [← Option.some.inj hc]
    simpa using this

/-- Every character of `Trim s` is a character of `s`. -/
theorem mem_of_mem_Trim {c : Nat} {s : StdString} (h : c ∈ Trim s) : c ∈ s := by
  rw [Trim_eq_rdropWhile] at h
  exact (List.dropWhile_suffix isspace).subset
    ((List.rdropWhile_prefix isspace (s.dropWhile isspace)).subset h)

/-- No piece extracted by `std::getline` holds the delimiter. -/
theorem not_mem_getlinePieces (delim : Nat) (rest cur : StdString) (hcur : delim ∉ cur) :
    ∀ p ∈ getlinePieces delim rest cur, delim ∉ p := by
  induction rest generalizing cur with
  | nil =>
    intro p hp
    unfold getlinePieces at hp
    split at hp
    · exact absurd hp (List.not_mem_nil p)
    · rw [List.mem_singleton] at hp
      rw [hp]
      simpa using hcur
  | cons c rest ih =>
    intro p hp
    unfold getlinePieces at hp
    split at hp
    · rcases List.mem_cons.1 hp with h | h
      · rw [h]
        simpa using hcur
      · exact ih [] (List.not_mem_nil _) p h
    · rename_i hc
      refine ih (c :: cur) ?_ p hp
      intro hm
      rcases List.mem_cons.1 hm with h | h
      · exact hc h.symm
      · exact hcur h

/-- What a successful `ParseLine` leaves in `outToken` and `outKeywords`. -/
theorem ParseLine_true (rawLine : StdString) (h : (ParseLine rawLine).1 = true) :
    (ParseLine rawLine).2.1
        = Trim ((Trim (StripComment rawLine)).takeWhile (fun c => c != 61)) ∧
      (ParseLine rawLine).2.1 ≠ [] ∧
      (ParseLine rawLine).2.2
        = ((getlinePieces 44
            (((Trim (StripComment rawLine)).dropWhile (fun c => c != 61)).drop 1) []).map
              Trim).filter (fun kw => !kw.isEmpty) ∧
      (ParseLine rawLine).2.2 ≠ [] := by
  simp only [ParseLine] at h ⊢
  split at h
  · exact absurd h (by simp)
  split at h
  · exact absurd h (by simp)
  split at h
  · exact absurd h (by simp)
  split at h
  · exact absurd h (by simp)
  split at h
  · exact absurd h (by simp)
  rename_i h1 h2 h3 h4 h5
  rw [if_neg h1, if_neg h2, if_neg h3, if_neg h4, if_neg h5]
  refine ⟨rfl, ?_, rfl, ?_⟩
  · intro e
    exact h4 (List.isEmpty_iff.2 e)
  · intro e
    exact h5 (List.isEmpty_iff.2 e)

/-! ## Query results are ascending -/

theorem sortedBy_GetKeywords {mgr : KeywordManager} (h : WellOrdered mgr) (formID : Nat) :
    SortedBy strLt (GetKeywords mgr formID) := by
  unfold GetKeywords
  cases hf : mapFind formID mgr.formKeywords with
  | none => exact sortedBy_nil strLt
  | some s => exact h.2.1 _ (mapFind_some_mem formID s _ hf)

theorem sortedBy_GetFormsWithKeyword {mgr : KeywordManager} (h : WellOrdered mgr)
    (keyword : StdString) : SortedBy u32Lt (GetFormsWithKeyword mgr keyword) := by
  simp only [GetFormsWithKeyword]
  cases hf : mapFind (toLowerStr keyword) mgr.keywordForms with
  | none => exact sortedBy_nil u32Lt
  | some s => exact h.2.2.2 _ (mapFind_some_mem (toLowerStr keyword) s _ hf)

/-- The payload a get-nth request ends with depends on the index only through
`GetKeywords`. -/
theorem KeywordMessageHandler_getNth_congr (ppl : Nat) (mgr1 mgr2 : KeywordManager)
    (data : GetNthData) (h : GetKeywords mgr1 data.formID = GetKeywords mgr2 data.formID) :
    (KeywordMessageHandler ppl mgr1 (some ⟨kMessage_GetNth, some (.nth data)⟩)).map
        (fun out => out.data)
      = (KeywordMessageHandler ppl mgr2 (some ⟨kMessage_GetNth, some (.nth data)⟩)).map
        (fun out => out.data) := by
  by_cases hppl : ppl = kMessage_GetNth
  · rw [← hppl, KeywordMessageHandler_postPostLoad, KeywordMessageHandler_postPostLoad]
    rfl
  · rw [KeywordMessageHandler_getNth ppl mgr1 data hppl,
      KeywordMessageHandler_getNth ppl mgr2 data hppl, h]
    rfl

/-! ## Resolution failure -/

/-- On every stream Load with a resolver that fails on `a` is Load with the resolver that
answers `a` for `a`. -/
theorem Load_fallback_congr (resolve : Nat → Option Nat) (junk : Nat → Nat)
    (records : List Record) (mgr : KeywordManager) (a : Nat) (hfail : resolve a = none) :
    Load resolve junk records mgr
      = Load (fun x => if x = a then some a else resolve x) junk records mgr := by
  unfold Load
  apply loadLoop_congr
  intro x
  by_cases hx : x = a
  · subst hx
    simp [hfail]
  · simp [hx]

/-- For a reachable index whose stored keywords hold no NUL byte, Load after Save files
every keyword of an identifier on which the resolver fails under that identifier. -/
theorem Load_Save_fallback (mgr mgr0 : KeywordManager) (hreach : Reachable mgr)
    (hfit : Fits32 mgr.formKeywords)
    (hnul : ∀ (i : Nat) (k : StdString), k ∈ GetKeywords mgr i → 0 ∉ k)
    (resolve : Nat → Option Nat) (junk : Nat → Nat) (a : Nat) (hfail : resolve a = none) :
    ∃ mgr', Load resolve junk (Save mgr) mgr0 = some mgr' ∧
      ∀ k : StdString, k ∈ GetKeywords mgr a → k ∈ GetKeywords mgr' a := by
  obtain ⟨mgr', hl, h⟩ := Load_Save_union mgr mgr0 hreach hfit hnul resolve junk
  refine ⟨mgr', hl, ?_⟩
  intro k hk
  rw [h a k]
  exact ⟨a, by rw [hfail]; rfl, hk⟩

/-! ## Claims -/

/-- C1: in every state reachable from the empty index by add, remove, clear, clear-all and
Load, for every identifier and every lower-case keyword, `HasKeyword` holds iff the keyword
is in `GetKeywords` of the identifier iff the identifier is in `GetFormsWithKeyword` of the
keyword; the identifier is in the reverse entry exactly when the keyword is in the forward
entry. -/
theorem C1_forward_reverse_lockstep (mgr : KeywordManager) (hreach : Reachable mgr)
    (formID : Nat) (keyword : StdString) (hcanon : toLowerStr keyword = keyword) :
    (HasKeyword mgr formID keyword = true ↔ keyword ∈ GetKeywords mgr formID) ∧
    (keyword ∈ GetKeywords mgr formID ↔ formID ∈ GetFormsWithKeyword mgr keyword) ∧
    (formID ∈ lookupSet keyword mgr.keywordForms
      ↔ keyword ∈ lookupSet formID mgr.formKeywords) := by
  have hc := reachable_consistent hreach formID keyword
  refine ⟨?_, ?_, hc⟩
  · rw [HasKeyword_iff, GetKeywords_eq, hcanon]
  · rw [GetKeywords_eq, GetFormsWithKeyword_eq, hcanon]
    exact hc.symm

/-- Witness for C1 on the index holding "blade" and "axe" for 1 and "blade" for 2. -/
theorem C1_forward_reverse_lockstep_witness :
    Reachable
        (AddKeyword (AddKeyword (AddKeyword KeywordManager.empty 1 [66, 108, 97, 100, 101]).2
          1 [97, 120, 101]).2 2 [98, 108, 97, 100, 101]).2 ∧
      toLowerStr [98, 108, 97, 100, 101] = [98, 108, 97, 100, 101] ∧
      (2 ∈ GetFormsWithKeyword
          (AddKeyword (AddKeyword (AddKeyword KeywordManager.empty 1 [66, 108, 97, 100, 101]).2
            1 [97, 120, 101]).2 2 [98, 108, 97, 100, 101]).2 [98, 108, 97, 100, 101]
        ↔ HasKeyword
          (AddKeyword (AddKeyword (AddKeyword KeywordManager.empty 1 [66, 108, 97, 100, 101]).2
            1 [97, 120, 101]).2 2 [98, 108, 97, 100, 101]).2 2 [98, 108, 97, 100, 101]
          = true) :=
  have hr := Reachable.add 2 [98, 108, 97, 100, 101]
    (Reachable.add 1 [97, 120, 101] (Reachable.add 1 [66, 108, 97, 100, 101] Reachable.empty))
  have h := C1_forward_reverse_lockstep _ hr 2 [98, 108, 97, 100, 101] (by decide)
  ⟨hr, by decide, (h.1.trans h.2.1).symm⟩

/-- C2: in every state reachable from the empty index by add, remove, clear, clear-all and
Load, neither map holds an empty set: every entry of the forward map has at least one
keyword and every entry of the reverse map has at least one holder. -/
theorem C2_no_empty_entries (mgr : KeywordManager) (hreach : Reachable mgr) :
    (∀ e ∈ mgr.formKeywords, e.2 ≠ []) ∧ (∀ e ∈ mgr.keywordForms, e.2 ≠ []) :=
  reachable_noEmpty hreach

/-- Witness for C2 on the state left by adding "a" and "b" to 7 and removing "a". -/
theorem C2_no_empty_entries_witness :
    Reachable (RemoveKeyword (AddKeyword (AddKeyword KeywordManager.empty 7 [97]).2
        7 [98]).2 7 [97]).2 ∧
      ((∀ e ∈ (RemoveKeyword (AddKeyword (AddKeyword KeywordManager.empty 7 [97]).2
          7 [98]).2 7 [97]).2.formKeywords, e.2 ≠ []) ∧
       (∀ e ∈ (RemoveKeyword (AddKeyword (AddKeyword KeywordManager.empty 7 [97]).2
          7 [98]).2 7 [97]).2.keywordForms, e.2 ≠ [])) :=
  have hr := Reachable.remove 7 [97]
    (Reachable.add 7 [98] (Reachable.add 7 [97] Reachable.empty))
  ⟨hr, C2_no_empty_entries _ hr⟩

/-- C3, evaluation at the failing input: the reachable index holding the three-byte keyword
`a NUL b` for identifier 1 is saved and loaded with the identity resolver; the loaded index
holds the one-byte keyword `a` for 1 instead. -/
theorem C3_roundtrip_truncates_at_nul :
    Reachable (AddKeyword KeywordManager.empty 1 [97, 0, 98]).2 ∧
      GetKeywords (AddKeyword KeywordManager.empty 1 [97, 0, 98]).2 1 = [[97, 0, 98]] ∧
      (Load some (fun _ => 0) (Save (AddKeyword KeywordManager.empty 1 [97, 0, 98]).2)
          (AddKeyword KeywordManager.empty 1 [97, 0, 98]).2).map (fun m => GetKeywords m 1)
        = some [[97]] :=
  ⟨Reachable.add 1 [97, 0, 98] Reachable.empty, by decide, by decide⟩

/-- C4, evaluation at the failing input: identifier 100 holds the keyword `a NUL b`, the
resolver maps 100 to 200 and no stored identifier resolves to 100; after Load identifier
200 holds `a` and not `a NUL b` (the count of 100 is 0, as claimed).  With the keyword
"axe" in place of `a NUL b` the same load files "axe" under 200. -/
theorem C4_remap_truncates_at_nul :
    [97, 0, 98] ∈ GetKeywords (AddKeyword KeywordManager.empty 100 [97, 0, 98]).2 100 ∧
      (Load (fun x => if x = 100 then some 200 else some x) (fun _ => 0)
          (Save (AddKeyword KeywordManager.empty 100 [97, 0, 98]).2)
          KeywordManager.empty).map (fun m => (GetKeywords m 200, GetKeywordCount m 100))
        = some ([[97]], 0) ∧
      (Load (fun x => if x = 100 then some 200 else some x) (fun _ => 0)
          (Save (AddKeyword KeywordManager.empty 100 [97, 120, 101]).2)
          KeywordManager.empty).map (fun m => (GetKeywords m 200, GetKeywordCount m 100))
        = some ([[97, 120, 101]], 0) := by
  decide

/-- C5, evaluation at the failing input: identifier 100 holds the keyword `a NUL b`,
identifier 300 holds "bow", and the resolver fails on 100; Load completes and files "bow"
under 300, but under the stored value 100 it files `a` and not `a NUL b`.  With "axe" in
place of `a NUL b` the same load files "axe" under 100. -/
theorem C5_fallback_truncates_at_nul :
    Reachable (AddKeyword (AddKeyword KeywordManager.empty 100 [97, 0, 98]).2
        300 [98, 111, 119]).2 ∧
      GetKeywords (AddKeyword (AddKeyword KeywordManager.empty 100 [97, 0, 98]).2
        300 [98, 111, 119]).2 100 = [[97, 0, 98]] ∧
      (fun x : Nat => if x = 100 then none else some x) 100 = none ∧
      (Load (fun x => if x = 100 then none else some x) (fun _ => 0)
          (Save (AddKeyword (AddKeyword KeywordManager.empty 100 [97, 0, 98]).2
            300 [98, 111, 119]).2)
          KeywordManager.empty).map (fun m => (GetKeywords m 100, GetKeywords m 300))
        = some ([[97]], [[98, 111, 119]]) ∧
      (Load (fun x => if x = 100 then none else some x) (fun _ => 0)
          (Save (AddKeyword (AddKeyword KeywordManager.empty 100 [97, 120, 101]).2
            300 [98, 111, 119]).2)
          KeywordManager.empty).map (fun m => (GetKeywords m 100, GetKeywords m 300))
        = some ([[97, 120, 101]], [[98, 111, 119]]) :=
  ⟨Reachable.add 300 [98, 111, 119] (Reachable.add 100 [97, 0, 98] Reachable.empty),
    by decide, by decide, by decide, by decide⟩

/-- C6: Load is a full replace: for every stream and resolver the result is the same from
any two prior states, and equals the result of loading into the empty index, so no pair of
the prior state survives unless the stream adds it again. -/
theorem C6_load_full_replace (resolve : Nat → Option Nat) (junk : Nat → Nat)
    (records : List Record) (mgr1 mgr2 : KeywordManager) :
    Load resolve junk records mgr1 = Load resolve junk records mgr2 ∧
    Load resolve junk records mgr1 = Load resolve junk records KeywordManager.empty := by
  constructor <;> rfl

/-- C7, evaluation at the failing input: from the stream saved for the index holding "a"
for 1 and "b" for 2, the last record of the block of 1 (its KWKD record, at position 4) is
removed; Load of the intact stream gives 2 the keyword "b", Load of the corrupted stream
gives 2 nothing. -/
theorem C7_corruption_spills_into_next_block :
    (Save (AddKeyword (AddKeyword KeywordManager.empty 1 [97]).2 2 [98]).2).eraseIdx 4
        = [⟨KWCT, 1, [2, 0, 0, 0]⟩,
           ⟨KWFM, 1, [1, 0, 0, 0]⟩, ⟨KWKC, 1, [1, 0, 0, 0]⟩, ⟨KWKL, 1, [1, 0, 0, 0]⟩,
           ⟨KWFM, 1, [2, 0, 0, 0]⟩, ⟨KWKC, 1, [1, 0, 0, 0]⟩, ⟨KWKL, 1, [1, 0, 0, 0]⟩,
           ⟨KWKD, 1, [98]⟩] ∧
      (Load some (fun _ => 0)
          (Save (AddKeyword (AddKeyword KeywordManager.empty 1 [97]).2 2 [98]).2)
          KeywordManager.empty).map (fun m => GetKeywords m 2) = some [[98]] ∧
      (Load some (fun _ => 0)
          ((Save (AddKeyword (AddKeyword KeywordManager.empty 1 [97]).2 2 [98]).2).eraseIdx 4)
          KeywordManager.empty).map (fun m => GetKeywords m 2) = some [] := by
  decide

/-- C8: Load never fails: for every finite record stream (any types, order, counts and
lengths), every resolver and every prior state, Load returns an index, and that index
satisfies the forward/reverse consistency invariant and has no empty entry. -/
theorem C8_load_total_and_invariant (resolve : Nat → Option Nat) (junk : Nat → Nat)
    (records : List Record) (mgr : KeywordManager) :
    ∃ mgr', Load resolve junk records mgr = some mgr' ∧ Consistent mgr' ∧
      NoEmptyEntry mgr' := by
  obtain ⟨mgr', hl⟩ := Load_isSome resolve junk records mgr
  exact ⟨mgr', hl,
    Load_preserves Consistent consistent_add consistent_empty _ _ _ _ _ hl,
    Load_preserves NoEmptyEntry noEmpty_add noEmpty_empty _ _ _ _ _ hl⟩

/-- C9, the claim fails: the one-space keyword is empty after trimming, yet `AddKeyword`
returns true for it and stores it. -/
theorem C9_counterexample :
    Trim [32] = [] ∧ (AddKeyword KeywordManager.empty 1 [32]).1 = true ∧
      GetKeywords (AddKeyword KeywordManager.empty 1 [32]).2 1 = [[32]] := by
  decide

/-- C9 amended: `AddKeyword` returns false if and only if the keyword it is given is the
empty string (it does no trimming); when it returns false the index is unchanged, and in
every other case it returns true. -/
theorem C9_add_fails_iff_empty (mgr : KeywordManager) (formID : Nat) (keyword : StdString) :
    ((AddKeyword mgr formID keyword).1 = false ↔ keyword = []) ∧
    ((AddKeyword mgr formID keyword).1 = false → (AddKeyword mgr formID keyword).2 = mgr) ∧
    ((AddKeyword mgr formID keyword).1 ≠ false → (AddKeyword mgr formID keyword).1 = true) := by
  cases keyword with
  | nil => simp [AddKeyword]
  | cons a rest => simp [AddKeyword]

/-- C10, the claim fails: a keyword added with a leading space is stored with it, so the
stored string differs from its trimmed, lower-cased form. -/
theorem C10_counterexample :
    Reachable (AddKeyword KeywordManager.empty 1 [32, 65]).2 ∧
      [32, 97] ∈ GetKeywords (AddKeyword KeywordManager.empty 1 [32, 65]).2 1 ∧
      toLowerStr (Trim [32, 97]) ≠ [32, 97] :=
  ⟨Reachable.add 1 [32, 65] Reachable.empty, by decide, by decide⟩

/-- C10 amended: in every state reachable by add, remove, clear, clear-all and Load with
arbitrary keyword strings, every string returned by `GetKeywords` is non-empty and equals
its own lower-case folding, that is, holds no upper-case letter A to Z (whitespace is
kept as given). -/
theorem C10_stored_keywords_lowercase (mgr : KeywordManager) (hreach : Reachable mgr)
    (formID : Nat) (keyword : StdString) (hmem : keyword ∈ GetKeywords mgr formID) :
    toLowerStr keyword = keyword ∧ keyword ≠ [] ∧ ∀ c ∈ keyword, ¬ (65 ≤ c ∧ c ≤ 90) := by
  rw [GetKeywords_eq] at hmem
  have h := reachable_lowerStored hreach formID keyword hmem
  exact ⟨h.1, h.2, not_upper_of_toLowerStr_eq keyword h.1⟩

/-- Witness for C10 amended on the state left by adding " A" to 1. -/
theorem C10_stored_keywords_lowercase_witness :
    Reachable (AddKeyword KeywordManager.empty 1 [32, 65]).2 ∧
      [32, 97] ∈ GetKeywords (AddKeyword KeywordManager.empty 1 [32, 65]).2 1 ∧
      (toLowerStr [32, 97] = [32, 97] ∧ ([32, 97] : StdString) ≠ [] ∧
        ∀ c ∈ ([32, 97] : StdString), ¬ (65 ≤ c ∧ c ≤ 90)) :=
  have hr := Reachable.add 1 [32, 65] Reachable.empty
  ⟨hr, by decide, C10_stored_keywords_lowercase _ hr 1 [32, 97] (by decide)⟩

/-- C11: case-fold law: for every index state, identifier and non-empty keyword `k`, and
every keyword `k'` that differs from `k` only in letter case, `HasKeyword` of `k'` is true
after `AddKeyword` of `k`; and in every state `GetFormsWithKeyword` returns the same list
for `k` and for `k'`. -/
theorem C11_case_fold_law (mgr : KeywordManager) (formID : Nat) (k k' : StdString)
    (hne : k ≠ []) (hcase : differOnlyInCase k k' = true) :
    HasKeyword (AddKeyword mgr formID k).2 formID k' = true ∧
      ∀ s : KeywordManager, GetFormsWithKeyword s k = GetFormsWithKeyword s k' := by
  have hfold := toLowerStr_eq_of_differOnlyInCase k k' hcase
  constructor
  · rw [HasKeyword_iff, mem_lookupSet_AddKeyword]
    exact Or.inr ⟨rfl, hne, hfold⟩
  · intro s
    rw [GetFormsWithKeyword_eq, GetFormsWithKeyword_eq, hfold]

/-- Witness for C11: after adding "Blade" to 7, both "BLADE" and "blade" are found. -/
theorem C11_case_fold_law_witness :
    (([66, 108, 97, 100, 101] : StdString) ≠ [] ∧
      differOnlyInCase [66, 108, 97, 100, 101] [66, 76, 65, 68, 69] = true ∧
      HasKeyword (AddKeyword KeywordManager.empty 7 [66, 108, 97, 100, 101]).2 7
        [66, 76, 65, 68, 69] = true) ∧
    (differOnlyInCase [66, 108, 97, 100, 101] [98, 108, 97, 100, 101] = true ∧
      HasKeyword (AddKeyword KeywordManager.empty 7 [66, 108, 97, 100, 101]).2 7
        [98, 108, 97, 100, 101] = true) :=
  ⟨⟨by decide, by decide,
      (C11_case_fold_law KeywordManager.empty 7 [66, 108, 97, 100, 101] [66, 76, 65, 68, 69]
        (by decide) (by decide)).1⟩,
    ⟨by decide,
      (C11_case_fold_law KeywordManager.empty 7 [66, 108, 97, 100, 101]
        [98, 108, 97, 100, 101] (by decide) (by decide)).1⟩⟩

/-- C12: idempotence of add: for every index state, identifier and keyword, a second
`AddKeyword` of the same pair leaves exactly the state the first one left (both maps equal)
and returns the same flag, and `GetKeywordCount` of the identifier is the same after the
second call as after the first. -/
theorem C12_add_idempotent (mgr : KeywordManager) (formID : Nat) (keyword : StdString) :
    (AddKeyword (AddKeyword mgr formID keyword).2 formID keyword).2
        = (AddKeyword mgr formID keyword).2 ∧
      (AddKeyword (AddKeyword mgr formID keyword).2 formID keyword).1
        = (AddKeyword mgr formID keyword).1 ∧
      GetKeywordCount (AddKeyword (AddKeyword mgr formID keyword).2 formID keyword).2 formID
        = GetKeywordCount (AddKeyword mgr formID keyword).2 formID := by
  have hstate : (AddKeyword (AddKeyword mgr formID keyword).2 formID keyword).2
      = (AddKeyword mgr formID keyword).2 := by
    cases keyword with
    | nil => simp [AddKeyword]
    | cons a rest =>
      simp only [AddKeyword, List.isEmpty_cons, Bool.false_eq_true, if_false]
      rw [insert_insert, insert_insert]
  refine ⟨hstate, ?_, ?_⟩
  · cases keyword with
    | nil => simp [AddKeyword]
    | cons a rest => simp [AddKeyword]
  · rw [hstate]

/-- C13: removing an absent pair is a no-op success: in every reachable state, when
`HasKeyword` is false for the pair, `RemoveKeyword` returns true and leaves both maps
exactly as they were. -/
theorem C13_remove_absent_is_noop (mgr : KeywordManager) (hreach : Reachable mgr)
    (formID : Nat) (keyword : StdString) (habsent : HasKeyword mgr formID keyword = false) :
    RemoveKeyword mgr formID keyword = (true, mgr) := by
  have hfwd : toLowerStr keyword ∉ lookupSet formID mgr.formKeywords := by
    intro h
    have := (HasKeyword_iff mgr formID keyword).2 h
    rw [habsent] at this
    exact Bool.false_ne_true this
  have hrev : formID ∉ lookupSet (toLowerStr keyword) mgr.keywordForms := fun h =>
    hfwd ((reachable_consistent hreach formID (toLowerStr keyword)).1 h)
  have hne := reachable_noEmpty hreach
  simp only [RemoveKeyword]
  rw [eraseAndPrune_eq_self _ _ _ hne.1 hfwd, eraseAndPrune_eq_self _ _ _ hne.2 hrev]

/-- Witness for C13: in the index holding "a" for 1, the pair (2, "a") is absent. -/
theorem C13_remove_absent_is_noop_witness :
    Reachable (AddKeyword KeywordManager.empty 1 [97]).2 ∧
      HasKeyword (AddKeyword KeywordManager.empty 1 [97]).2 2 [97] = false ∧
      RemoveKeyword (AddKeyword KeywordManager.empty 1 [97]).2 2 [97]
        = (true, (AddKeyword KeywordManager.empty 1 [97]).2) :=
  have hr := Reachable.add 1 [97] Reachable.empty
  ⟨hr, by decide, C13_remove_absent_is_noop _ hr 2 [97] (by decide)⟩

/-- C14: postcondition of remove: for every index state, identifier `i` and keyword `k`,
after `RemoveKeyword` of the pair `HasKeyword` of it is false and `GetFormsWithKeyword` of
`k` does not contain `i`; and for every pair whose identifier differs from `i` or whose
keyword has another canonical form than `k` (another lower-case folding, in particular
another trimmed lower-case folding), the value of `HasKeyword` is unchanged. -/
theorem C14_remove_postcondition (mgr : KeywordManager) (formID : Nat) (keyword : StdString) :
    HasKeyword (RemoveKeyword mgr formID keyword).2 formID keyword = false ∧
      formID ∉ GetFormsWithKeyword (RemoveKeyword mgr formID keyword).2 keyword ∧
      (∀ (j : Nat) (l : StdString), j ≠ formID ∨ toLowerStr l ≠ toLowerStr keyword →
        HasKeyword (RemoveKeyword mgr formID keyword).2 j l = HasKeyword mgr j l) ∧
      (∀ (j : Nat) (l : StdString),
        j ≠ formID ∨ toLowerStr (Trim l) ≠ toLowerStr (Trim keyword) →
        HasKeyword (RemoveKeyword mgr formID keyword).2 j l = HasKeyword mgr j l) := by
  have hframe : ∀ (j : Nat) (l : StdString), j ≠ formID ∨ toLowerStr l ≠ toLowerStr keyword →
      HasKeyword (RemoveKeyword mgr formID keyword).2 j l = HasKeyword mgr j l := by
    intro j l hjl
    rw [Bool.eq_iff_iff, HasKeyword_iff, HasKeyword_iff]
    simp only [RemoveKeyword]
    rw [mem_lookupSet_eraseAndPrune]
    constructor
    · exact fun h => h.1
    · intro h
      refine ⟨h, ?_⟩
      rintro ⟨h1, h2⟩
      rcases hjl with hj | hl
      · exact hj h1
      · exact hl h2
  refine ⟨?_, ?_, hframe, ?_⟩
  · rw [Bool.eq_false_iff]
    intro h
    rw [HasKeyword_iff] at h
    simp only [RemoveKeyword] at h
    rw [mem_lookupSet_eraseAndPrune] at h
    exact h.2 ⟨rfl, rfl⟩
  · rw [GetFormsWithKeyword_eq]
    simp only [RemoveKeyword]
    rw [mem_lookupSet_eraseAndPrune]
    exact fun h => h.2 ⟨rfl, rfl⟩
  · intro j l hjl
    apply hframe
    rcases hjl with hj | hl
    · exact Or.inl hj
    · refine Or.inr ?_
      intro h
      apply hl
      rw [← Trim_toLowerStr, ← Trim_toLowerStr, h]

/-- C15, the claim fails: in the reachable index where 1 holds "a", adding "b" to 1 and
removing it again leaves the count of 1 at 1, not 0. -/
theorem C15_counterexample :
    Reachable (AddKeyword KeywordManager.empty 1 [97]).2 ∧
      GetKeywordCount
        (RemoveKeyword (AddKeyword (AddKeyword KeywordManager.empty 1 [97]).2 1 [98]).2
          1 [98]).2 1 = 1 :=
  ⟨Reachable.add 1 [97] Reachable.empty, by decide⟩

/-- C15 amended: for every index state, identifier `i` and keyword `k`, after `AddKeyword`
followed by `RemoveKeyword` of the pair, `GetFormsWithKeyword` of `k` does not contain `i`
and `GetKeywordCount` of `i` is the number of keywords `i` held before other than the
lower-case folding of `k`; it is 0 when `i` held no other keyword. -/
theorem C15_add_then_remove (mgr : KeywordManager) (formID : Nat) (keyword : StdString) :
    formID ∉ GetFormsWithKeyword
        (RemoveKeyword (AddKeyword mgr formID keyword).2 formID keyword).2 keyword ∧
      GetKeywordCount (RemoveKeyword (AddKeyword mgr formID keyword).2 formID keyword).2 formID
        = ((GetKeywords mgr formID).filter
            (fun k' => decide (k' ≠ toLowerStr keyword))).length ∧
      ((∀ k' ∈ GetKeywords mgr formID, k' = toLowerStr keyword) →
        GetKeywordCount (RemoveKeyword (AddKeyword mgr formID keyword).2 formID keyword).2
          formID = 0) := by
  have hcount :
      GetKeywordCount (RemoveKeyword (AddKeyword mgr formID keyword).2 formID keyword).2 formID
        = ((GetKeywords mgr formID).filter
            (fun k' => decide (k' ≠ toLowerStr keyword))).length := by
    rw [GetKeywordCount_eq, GetKeywords_eq]
    simp only [RemoveKeyword]
    rw [lookupSet_eraseAndPrune, if_pos rfl]
    cases keyword with
    | nil => simp [AddKeyword, setErase]
    | cons a rest =>
      simp only [AddKeyword, List.isEmpty_cons, Bool.false_eq_true, if_false]
      rw [lookupSet_insert_self, setErase_setInsert]
      rfl
  refine ⟨?_, hcount, ?_⟩
  · rw [GetFormsWithKeyword_eq]
    simp only [RemoveKeyword]
    rw [mem_lookupSet_eraseAndPrune]
    exact fun h => h.2 ⟨rfl, rfl⟩
  · intro hall
    rw [hcount, List.length_eq_zero, List.filter_eq_nil_iff]
    intro k' hk'
    simp [hall k' hk']

/-- C16: postcondition of clear: in every reachable state, after `ClearFormKeywords` of an
identifier its count is 0, its keyword list is empty, `HasKeyword` is false for it with
every keyword, and the identifier is in no list `GetFormsWithKeyword` returns nor in any
entry of the reverse map (no dangling reverse reference). -/
theorem C16_clear_postcondition (mgr : KeywordManager) (hreach : Reachable mgr)
    (formID : Nat) :
    GetKeywordCount (ClearFormKeywords mgr formID) formID = 0 ∧
      GetKeywords (ClearFormKeywords mgr formID) formID = [] ∧
      (∀ k : StdString, HasKeyword (ClearFormKeywords mgr formID) formID k = false) ∧
      (∀ k : StdString, formID ∉ GetFormsWithKeyword (ClearFormKeywords mgr formID) k) ∧
      (∀ e ∈ (ClearFormKeywords mgr formID).keywordForms, formID ∉ e.2) := by
  have hself := lookupSet_ClearFormKeywords_self mgr formID
  have hreach' : Reachable (ClearFormKeywords mgr formID) := Reachable.clear formID hreach
  have hc := reachable_consistent hreach'
  have hrev : ∀ k : StdString,
      formID ∉ lookupSet k (ClearFormKeywords mgr formID).keywordForms := by
    intro k h
    have := (hc formID k).1 h
    rw [hself] at this
    exact absurd this (List.not_mem_nil k)
  refine ⟨?_, ?_, ?_, ?_, ?_⟩
  · rw [GetKeywordCount_eq, hself]
    rfl
  · rw [GetKeywords_eq, hself]
  · intro k
    rw [Bool.eq_false_iff]
    intro h
    rw [HasKeyword_iff, hself] at h
    exact absurd h (List.not_mem_nil _)
  · intro k
    rw [GetFormsWithKeyword_eq]
    exact hrev _
  · intro e he h
    have hfind := (mem_iff_mapFind _ (reachable_keysDistinct hreach').2 e.1 e.2).1 he
    apply hrev e.1
    simpa [lookupSet, hfind] using h

/-- Witness for C16: 1 holds "weapon" and "blade", 2 holds "weapon"; after clearing 1 the
holders of "weapon" are [2] and 1 has no keyword. -/
theorem C16_clear_postcondition_witness :
    Reachable (AddKeyword (AddKeyword (AddKeyword KeywordManager.empty
        1 [87, 101, 97, 112, 111, 110]).2 1 [66, 108, 97, 100, 101]).2
        2 [87, 101, 97, 112, 111, 110]).2 ∧
      GetKeywordCount (ClearFormKeywords (AddKeyword (AddKeyword (AddKeyword
        KeywordManager.empty 1 [87, 101, 97, 112, 111, 110]).2 1 [66, 108, 97, 100, 101]).2
        2 [87, 101, 97, 112, 111, 110]).2 1) 1 = 0 :=
  have hr := Reachable.add 2 [87, 101, 97, 112, 111, 110]
    (Reachable.add 1 [66, 108, 97, 100, 101]
      (Reachable.add 1 [87, 101, 97, 112, 111, 110] Reachable.empty))
  ⟨hr, (C16_clear_postcondition _ hr 1).1⟩

/-- C17: clear touches only its identifier: in every reachable state, for every other
identifier `GetKeywords` returns the same list before and after `ClearFormKeywords`, and
for every keyword `GetFormsWithKeyword` returns afterwards the list it returned before with
the cleared identifier removed. -/
theorem C17_clear_frame (mgr : KeywordManager) (hreach : Reachable mgr) (formID : Nat) :
    (∀ j : Nat, j ≠ formID →
        GetKeywords (ClearFormKeywords mgr formID) j = GetKeywords mgr j) ∧
      (∀ k : StdString,
        GetFormsWithKeyword (ClearFormKeywords mgr formID) k
          = (GetFormsWithKeyword mgr k).filter (fun j => decide (j ≠ formID))) := by
  constructor
  · intro j hj
    rw [GetKeywords_eq, GetKeywords_eq, lookupSet_ClearFormKeywords_ne mgr formID j hj]
  · intro k
    rw [GetFormsWithKeyword_eq, GetFormsWithKeyword_eq,
      lookupSet_ClearFormKeywords_reverse mgr (reachable_consistent hreach)]
    rfl

/-- Witness for C17: after add(1,"Weapon"), add(1,"Blade"), add(2,"Weapon"), the holders
of "weapon" are [1, 2]; clear(1) leaves [2] and the keywords of 2 as they were. -/
theorem C17_clear_frame_witness :
    Reachable (AddKeyword (AddKeyword (AddKeyword KeywordManager.empty
        1 [87, 101, 97, 112, 111, 110]).2 1 [66, 108, 97, 100, 101]).2
        2 [87, 101, 97, 112, 111, 110]).2 ∧
      GetFormsWithKeyword (AddKeyword (AddKeyword (AddKeyword KeywordManager.empty
        1 [87, 101, 97, 112, 111, 110]).2 1 [66, 108, 97, 100, 101]).2
        2 [87, 101, 97, 112, 111, 110]).2 [119, 101, 97, 112, 111, 110] = [1, 2] ∧
      GetFormsWithKeyword (ClearFormKeywords (AddKeyword (AddKeyword (AddKeyword
        KeywordManager.empty 1 [87, 101, 97, 112, 111, 110]).2 1 [66, 108, 97, 100, 101]).2
        2 [87, 101, 97, 112, 111, 110]).2 1) [119, 101, 97, 112, 111, 110] = [2] :=
  have hr := Reachable.add 2 [87, 101, 97, 112, 111, 110]
    (Reachable.add 1 [66, 108, 97, 100, 101]
      (Reachable.add 1 [87, 101, 97, 112, 111, 110] Reachable.empty))
  ⟨hr, by decide,
    ((C17_clear_frame _ hr 1).2 [119, 101, 97, 112, 111, 110]).trans (by decide)⟩

/-- C18: has-any semantics: for every index state and every has-any payload, the handler
leaves the index unchanged, dispatches nothing and writes a result that is true if and
only if `HasKeyword` is true for at least one keyword among the slots that precede the
first null slot; with no such slot (a null first slot included) the result is false. -/
theorem C18_has_any_semantics (kMessage_PostPostLoad : Nat) (mgr : KeywordManager)
    (data : MultiKeywordData) (hhost : kMessage_PostPostLoad ≠ kMessage_HasAny) :
    ∃ r : Bool,
      KeywordMessageHandler kMessage_PostPostLoad mgr
          (some ⟨kMessage_HasAny, some (.multi data)⟩)
        = some ⟨mgr, some (.multi { data with result := r }), []⟩ ∧
      (r = true
        ↔ ∃ kw ∈ leadingKeywords data.keywords, HasKeyword mgr data.formID kw = true) ∧
      (leadingKeywords data.keywords = [] → r = false) := by
  have hiff : hasAnyLoop mgr data 4 0 = true
      ↔ ∃ kw ∈ leadingKeywords data.keywords, HasKeyword mgr data.formID kw = true := by
    rw [hasAnyLoop_iff, List.drop_zero]
    rfl
  refine ⟨hasAnyLoop mgr data 4 0,
    KeywordMessageHandler_hasAny kMessage_PostPostLoad mgr data hhost, hiff, ?_⟩
  intro hnil
  rw [Bool.eq_false_iff]
  intro h
  obtain ⟨kw, hkw, _⟩ := hiff.1 h
  rw [hnil] at hkw
  exact absurd hkw (List.not_mem_nil kw)

/-- Witness for C18: with "a" and "b" held by 1, has-any of ["c", "b"] answers true. -/
theorem C18_has_any_semantics_witness :
    (9 : Nat) ≠ kMessage_HasAny ∧
      (∃ r : Bool,
        KeywordMessageHandler 9 (AddKeyword (AddKeyword KeywordManager.empty 1 [97]).2 1 [98]).2
            (some ⟨kMessage_HasAny, some (.multi ⟨1, [some [99], some [98], none, none], false⟩)⟩)
          = some ⟨(AddKeyword (AddKeyword KeywordManager.empty 1 [97]).2 1 [98]).2,
              some (.multi { (⟨1, [some [99], some [98], none, none], false⟩ :
                MultiKeywordData) with result := r }), []⟩ ∧
        (r = true
          ↔ ∃ kw ∈ leadingKeywords [some [99], some [98], none, none],
              HasKeyword (AddKeyword (AddKeyword KeywordManager.empty 1 [97]).2 1 [98]).2
                1 kw = true) ∧
        (leadingKeywords [some [99], some [98], none, none] = [] → r = false)) ∧
      KeywordMessageHandler 9 (AddKeyword (AddKeyword KeywordManager.empty 1 [97]).2 1 [98]).2
          (some ⟨kMessage_HasAny, some (.multi ⟨1, [some [99], some [98], none, none], false⟩)⟩)
        = some ⟨(AddKeyword (AddKeyword KeywordManager.empty 1 [97]).2 1 [98]).2,
            some (.multi ⟨1, [some [99], some [98], none, none], true⟩), []⟩ :=
  ⟨by decide,
    C18_has_any_semantics 9 (AddKeyword (AddKeyword KeywordManager.empty 1 [97]).2 1 [98]).2
      ⟨1, [some [99], some [98], none, none], false⟩ (by decide),
    by decide⟩

/-- C19: has-all semantics: for every index state and every has-all payload, the handler
leaves the index unchanged, dispatches nothing and writes a result that is true if and
only if `HasKeyword` is true for every keyword among the slots that precede the first null
slot. -/
theorem C19_has_all_semantics (kMessage_PostPostLoad : Nat) (mgr : KeywordManager)
    (data : MultiKeywordData) (hhost : kMessage_PostPostLoad ≠ kMessage_HasAll) :
    ∃ r : Bool,
      KeywordMessageHandler kMessage_PostPostLoad mgr
          (some ⟨kMessage_HasAll, some (.multi data)⟩)
        = some ⟨mgr, some (.multi { data with result := r }), []⟩ ∧
      (r = true
        ↔ ∀ kw ∈ leadingKeywords data.keywords, HasKeyword mgr data.formID kw = true) := by
  refine ⟨hasAllLoop mgr data 4 0,
    KeywordMessageHandler_hasAll kMessage_PostPostLoad mgr data hhost, ?_⟩
  rw [hasAllLoop_iff, List.drop_zero]
  rfl

/-- Witness for C19: with "a" and "b" held by 1, has-all of ["a", "b"] answers true and
has-all of ["a", "c"] answers false. -/
theorem C19_has_all_semantics_witness :
    (9 : Nat) ≠ kMessage_HasAll ∧
      (∃ r : Bool,
        KeywordMessageHandler 9 (AddKeyword (AddKeyword KeywordManager.empty 1 [97]).2 1 [98]).2
            (some ⟨kMessage_HasAll, some (.multi ⟨1, [some [97], some [98], none, none], false⟩)⟩)
          = some ⟨(AddKeyword (AddKeyword KeywordManager.empty 1 [97]).2 1 [98]).2,
              some (.multi { (⟨1, [some [97], some [98], none, none], false⟩ :
                MultiKeywordData) with result := r }), []⟩ ∧
        (r = true
          ↔ ∀ kw ∈ leadingKeywords [some [97], some [98], none, none],
              HasKeyword (AddKeyword (AddKeyword KeywordManager.empty 1 [97]).2 1 [98]).2
                1 kw = true)) ∧
      KeywordMessageHandler 9 (AddKeyword (AddKeyword KeywordManager.empty 1 [97]).2 1 [98]).2
          (some ⟨kMessage_HasAll, some (.multi ⟨1, [some [97], some [98], none, none], false⟩)⟩)
        = some ⟨(AddKeyword (AddKeyword KeywordManager.empty 1 [97]).2 1 [98]).2,
            some (.multi ⟨1, [some [97], some [98], none, none], true⟩), []⟩ ∧
      KeywordMessageHandler 9 (AddKeyword (AddKeyword KeywordManager.empty 1 [97]).2 1 [98]).2
          (some ⟨kMessage_HasAll, some (.multi ⟨1, [some [97], some [99], none, none], true⟩)⟩)
        = some ⟨(AddKeyword (AddKeyword KeywordManager.empty 1 [97]).2 1 [98]).2,
            some (.multi ⟨1, [some [97], some [99], none, none], false⟩), []⟩ :=
  ⟨by decide,
    C19_has_all_semantics 9 (AddKeyword (AddKeyword KeywordManager.empty 1 [97]).2 1 [98]).2
      ⟨1, [some [97], some [98], none, none], false⟩ (by decide),
    by decide, by decide⟩

/-- C20: get-nth boundary: for every index state, identifier and index that is at least
the count of the identifier (every index when the identifier is unknown), and whatever the
keyword buffer of the request holds, the handler leaves the index unchanged, dispatches
nothing and leaves in the buffer the empty C string. -/
theorem C20_get_nth_boundary (kMessage_PostPostLoad : Nat) (mgr : KeywordManager)
    (data : GetNthData) (hhost : kMessage_PostPostLoad ≠ kMessage_GetNth)
    (hrange : GetKeywordCount mgr data.formID ≤ data.index) :
    ∃ buffer : List Nat,
      KeywordMessageHandler kMessage_PostPostLoad mgr
          (some ⟨kMessage_GetNth, some (.nth data)⟩)
        = some ⟨mgr, some (.nth { data with keyword := buffer }), []⟩ ∧
      cstr buffer = [] := by
  have hlen : ¬ data.index < (GetKeywords mgr data.formID).length := by
    rw [GetKeywordCount_eq] at hrange
    rw [GetKeywords_eq]
    omega
  refine ⟨data.keyword.set 0 0, ?_, cstr_set_zero data.keyword⟩
  rw [KeywordMessageHandler_getNth kMessage_PostPostLoad mgr data hhost, if_neg hlen]

/-- Witness for C20: 1 holds two keywords; index 2 on a buffer holding "xyz" leaves the
buffer starting with NUL; so does index 0 for the unknown identifier 5. -/
theorem C20_get_nth_boundary_witness :
    ((9 : Nat) ≠ kMessage_GetNth ∧
      GetKeywordCount (AddKeyword (AddKeyword KeywordManager.empty 1 [97]).2 1 [98]).2 1 ≤ 2 ∧
      ∃ buffer : List Nat,
        KeywordMessageHandler 9 (AddKeyword (AddKeyword KeywordManager.empty 1 [97]).2 1 [98]).2
            (some ⟨kMessage_GetNth, some (.nth ⟨1, 2, [120, 121, 122, 0, 7]⟩)⟩)
          = some ⟨(AddKeyword (AddKeyword KeywordManager.empty 1 [97]).2 1 [98]).2,
              some (.nth { (⟨1, 2, [120, 121, 122, 0, 7]⟩ : GetNthData) with
                keyword := buffer }), []⟩ ∧
        cstr buffer = []) ∧
    KeywordMessageHandler 9 (AddKeyword (AddKeyword KeywordManager.empty 1 [97]).2 1 [98]).2
        (some ⟨kMessage_GetNth, some (.nth ⟨5, 0, [120, 121, 122, 0, 7]⟩)⟩)
      = some ⟨(AddKeyword (AddKeyword KeywordManager.empty 1 [97]).2 1 [98]).2,
          some (.nth ⟨5, 0, [0, 121, 122, 0, 7]⟩), []⟩ :=
  ⟨⟨by decide, by decide,
      C20_get_nth_boundary 9 (AddKeyword (AddKeyword KeywordManager.empty 1 [97]).2 1 [98]).2
        ⟨1, 2, [120, 121, 122, 0, 7]⟩ (by decide) (by decide)⟩,
    by decide⟩

set_option maxRecDepth 20000 in
/-- C21, the claim fails: identifier 1 holds one keyword of 256 letters `a`; the get-nth
request for index 0 (in range) returns 255 letters `a`, not the keyword. -/
theorem C21_counterexample :
    GetKeywords (AddKeyword KeywordManager.empty 1 (List.replicate 256 97)).2 1
        = [List.replicate 256 97] ∧
      (KeywordMessageHandler 9 (AddKeyword KeywordManager.empty 1 (List.replicate 256 97)).2
          (some ⟨kMessage_GetNth, some (.nth ⟨1, 0, List.replicate 256 0⟩)⟩)).map
            (fun out => out.data.map (fun p =>
              match p with
              | .nth d => cstr d.keyword
              | _ => []))
        = some (some (List.replicate 255 97)) := by
  decide

/-- C21 amended: get-nth in range: for every index state, identifier and index below the
count of the identifier, when the keyword at that index of `GetKeywords` holds no NUL byte
the handler leaves in the buffer the C string made of the first 255 bytes of that keyword,
which is the keyword itself when it is at most 255 bytes long; the index is unchanged and
nothing is dispatched. -/
theorem C21_get_nth_in_range (kMessage_PostPostLoad : Nat) (mgr : KeywordManager)
    (data : GetNthData) (hhost : kMessage_PostPostLoad ≠ kMessage_GetNth)
    (hrange : data.index < GetKeywordCount mgr data.formID)
    (hnul : 0 ∉ (GetKeywords mgr data.formID).getD data.index []) :
    ∃ buffer : List Nat,
      KeywordMessageHandler kMessage_PostPostLoad mgr
          (some ⟨kMessage_GetNth, some (.nth data)⟩)
        = some ⟨mgr, some (.nth { data with keyword := buffer }), []⟩ ∧
      cstr buffer = ((GetKeywords mgr data.formID).getD data.index []).take 255 ∧
      (((GetKeywords mgr data.formID).getD data.index []).length ≤ 255 →
        cstr buffer = (GetKeywords mgr data.formID).getD data.index []) := by
  have hlen : data.index < (GetKeywords mgr data.formID).length := by
    rw [GetKeywordCount_eq] at hrange
    rw [GetKeywords_eq]
    exact hrange
  have hc : cstr (strncpy_s (data.keyword.set 0 0) 256
      (cstr ((GetKeywords mgr data.formID).getD data.index [] ++ [0])))
      = ((GetKeywords mgr data.formID).getD data.index []).take 255 := by
    rw [cstr_append_nul _ hnul, cstr_strncpy_s _ _ _ hnul]
  refine ⟨_, ?_, hc, ?_⟩
  · rw [KeywordMessageHandler_getNth kMessage_PostPostLoad mgr data hhost, if_pos hlen]
  · intro hshort
    rw [hc, List.take_of_length_le hshort]

/-- Witness for C21 amended: 1 holds "a" and "b"; index 1 returns "b". -/
theorem C21_get_nth_in_range_witness :
    (9 : Nat) ≠ kMessage_GetNth ∧
      1 < GetKeywordCount (AddKeyword (AddKeyword KeywordManager.empty 1 [97]).2 1 [98]).2 1 ∧
      (0 : Nat) ∉ (GetKeywords (AddKeyword (AddKeyword KeywordManager.empty 1 [97]).2
        1 [98]).2 1).getD 1 [] ∧
      ∃ buffer : List Nat,
        KeywordMessageHandler 9 (AddKeyword (AddKeyword KeywordManager.empty 1 [97]).2 1 [98]).2
            (some ⟨kMessage_GetNth, some (.nth ⟨1, 1, [120, 121, 122, 0]⟩)⟩)
          = some ⟨(AddKeyword (AddKeyword KeywordManager.empty 1 [97]).2 1 [98]).2,
              some (.nth { (⟨1, 1, [120, 121, 122, 0]⟩ : GetNthData) with
                keyword := buffer }), []⟩ ∧
        cstr buffer = ((GetKeywords (AddKeyword (AddKeyword KeywordManager.empty 1 [97]).2
          1 [98]).2 1).getD 1 []).take 255 ∧
        (((GetKeywords (AddKeyword (AddKeyword KeywordManager.empty 1 [97]).2
          1 [98]).2 1).getD 1 []).length ≤ 255 →
          cstr buffer = (GetKeywords (AddKeyword (AddKeyword KeywordManager.empty 1 [97]).2
            1 [98]).2 1).getD 1 []) :=
  ⟨by decide, by decide, by decide,
    C21_get_nth_in_range 9 (AddKeyword (AddKeyword KeywordManager.empty 1 [97]).2 1 [98]).2
      ⟨1, 1, [120, 121, 122, 0]⟩ (by decide) (by decide) (by decide)⟩

/-- C22: every recognized request is exactly one index call: for every index state, the
handler on an add-keyword, remove-keyword or has-keyword message with a non-null keyword,
or on a get-count or clear message, leaves the index that `AddKeyword`, `RemoveKeyword`,
`HasKeyword`, `GetKeywordCount` or `ClearFormKeywords` leaves, writes what that call
returns to `result` (to `count` for get-count, as a 32-bit value) and changes no other
field of the payload, and dispatches nothing; get-nth, has-any and has-all, like
has-keyword and get-count, leave the index unchanged. -/
theorem C22_request_is_one_index_call (kMessage_PostPostLoad : Nat) (mgr : KeywordManager)
    (hhost : kMessage_PostPostLoad ∉ [kMessage_AddKeyword, kMessage_RemoveKeyword,
      kMessage_HasKeyword, kMessage_GetCount, kMessage_Clear, kMessage_GetNth,
      kMessage_HasAny, kMessage_HasAll]) :
    (∀ (data : BasicData) (kw : StdString), data.keyword = some kw →
      KeywordMessageHandler kMessage_PostPostLoad mgr
          (some ⟨kMessage_AddKeyword, some (.basic data)⟩)
        = some ⟨(AddKeyword mgr data.formID kw).2,
            some (.basic { data with result := (AddKeyword mgr data.formID kw).1 }), []⟩) ∧
    (∀ (data : BasicData) (kw : StdString), data.keyword = some kw →
      KeywordMessageHandler kMessage_PostPostLoad mgr
          (some ⟨kMessage_RemoveKeyword, some (.basic data)⟩)
        = some ⟨(RemoveKeyword mgr data.formID kw).2,
            some (.basic { data with result := (RemoveKeyword mgr data.formID kw).1 }),
            []⟩) ∧
    (∀ (data : BasicData) (kw : StdString), data.keyword = some kw →
      KeywordMessageHandler kMessage_PostPostLoad mgr
          (some ⟨kMessage_HasKeyword, some (.basic data)⟩)
        = some ⟨mgr,
            some (.basic { data with result := HasKeyword mgr data.formID kw }), []⟩) ∧
    (∀ data : BasicData,
      KeywordMessageHandler kMessage_PostPostLoad mgr
          (some ⟨kMessage_GetCount, some (.basic data)⟩)
        = some ⟨mgr,
            some (.basic { data with count := GetKeywordCount mgr data.formID % 2 ^ 32 }),
            []⟩ ∧
      (GetKeywordCount mgr data.formID < 2 ^ 32 →
        GetKeywordCount mgr data.formID % 2 ^ 32 = GetKeywordCount mgr data.formID)) ∧
    (∀ data : BasicData,
      KeywordMessageHandler kMessage_PostPostLoad mgr
          (some ⟨kMessage_Clear, some (.basic data)⟩)
        = some ⟨ClearFormKeywords mgr data.formID, some (.basic data), []⟩) ∧
    (∀ data : GetNthData, ∃ out : HandlerOutcome,
      KeywordMessageHandler kMessage_PostPostLoad mgr
          (some ⟨kMessage_GetNth, some (.nth data)⟩) = some out ∧ out.mgr = mgr) ∧
    (∀ data : MultiKeywordData, ∃ out : HandlerOutcome,
      KeywordMessageHandler kMessage_PostPostLoad mgr
          (some ⟨kMessage_HasAny, some (.multi data)⟩) = some out ∧ out.mgr = mgr) ∧
    (∀ data : MultiKeywordData, ∃ out : HandlerOutcome,
      KeywordMessageHandler kMessage_PostPostLoad mgr
          (some ⟨kMessage_HasAll, some (.multi data)⟩) = some out ∧ out.mgr = mgr) := by
  simp only [List.mem_cons, List.mem_singleton, List.not_mem_nil, or_false, not_or] at hhost
  obtain ⟨h1, h2, h3, h4, h5, h6, h7, h8⟩ := hhost
  refine ⟨?_, ?_, ?_, ?_, ?_, ?_, ?_, ?_⟩
  · intro data kw hkw
    exact KeywordMessageHandler_add _ mgr data kw hkw h1
  · intro data kw hkw
    exact KeywordMessageHandler_remove _ mgr data kw hkw h2
  · intro data kw hkw
    exact KeywordMessageHandler_has _ mgr data kw hkw h3
  · intro data
    exact ⟨KeywordMessageHandler_getCount _ mgr data h4, fun h => Nat.mod_eq_of_lt h⟩
  · intro data
    exact KeywordMessageHandler_clear _ mgr data h5
  · intro data
    exact ⟨_, KeywordMessageHandler_getNth _ mgr data h6, rfl⟩
  · intro data
    exact ⟨_, KeywordMessageHandler_hasAny _ mgr data h7, rfl⟩
  · intro data
    exact ⟨_, KeywordMessageHandler_hasAll _ mgr data h8, rfl⟩

/-- Witness for C22: with host constant 9, the add-keyword message for (3, "Bow") on the
empty index does what `AddKeyword` does and sets `result`. -/
theorem C22_request_is_one_index_call_witness :
    (9 : Nat) ∉ [kMessage_AddKeyword, kMessage_RemoveKeyword, kMessage_HasKeyword,
        kMessage_GetCount, kMessage_Clear, kMessage_GetNth, kMessage_HasAny,
        kMessage_HasAll] ∧
      KeywordMessageHandler 9 KeywordManager.empty
          (some ⟨kMessage_AddKeyword, some (.basic ⟨3, some [66, 111, 119], false, 7⟩)⟩)
        = some ⟨⟨[(3, [[98, 111, 119]])], [([98, 111, 119], [3])]⟩,
            some (.basic ⟨3, some [66, 111, 119], true, 7⟩), []⟩ :=
  ⟨by decide,
    ((C22_request_is_one_index_call 9 KeywordManager.empty (by decide)).1
      ⟨3, some [66, 111, 119], false, 7⟩ [66, 111, 119] rfl).trans (by decide)⟩

/-- C23, evaluation at the failing input: the client has not observed the ready broadcast
(`s_ready` is false, `s_msgIntfc` is set); `KeywordAPI::AddKeyword(1, "w")` dispatches an
add-keyword message all the same, the keyword is added and the call returns true, while
`KeywordAPI::RemoveKeyword` in the same state dispatches nothing and returns false. -/
theorem C23_add_is_dispatched_before_ready :
    KeywordAPI.IsReady ⟨false, true⟩ = false ∧
      KeywordAPI.AddKeyword 9 ⟨false, true⟩ KeywordManager.empty 1 (some [119])
        = some ⟨true, ⟨[(1, [[119]])], [([119], [1])]⟩,
            [⟨kMessage_AddKeyword, some (.basic ⟨1, some [119], false, 0⟩)⟩]⟩ ∧
      KeywordAPI.RemoveKeyword 9 ⟨false, true⟩ KeywordManager.empty 1 (some [119])
        = some ⟨false, KeywordManager.empty, []⟩ := by
  decide

/-- C24: client readiness never regresses: the latch starts false; the handler sets it on
a message of type `kMessage_Ready`, whatever the state and the payload; and once it is true
it is true after every further sequence of calls of the handler, null messages and
messages of any type included. -/
theorem C24_ready_latch_monotone :
    ClientState.initial.s_ready = false ∧
      (∀ (c : ClientState) (data : Option Payload),
        (KeywordAPI.MessageHandler c (some ⟨kMessage_Ready, data⟩)).s_ready = true) ∧
      (∀ (c : ClientState) (msgs : List (Option Message)), c.s_ready = true →
        (msgs.foldl KeywordAPI.MessageHandler c).s_ready = true) := by
  refine ⟨rfl, ?_, ?_⟩
  · intro c data
    simp [KeywordAPI.MessageHandler]
  · intro c msgs
    induction msgs generalizing c with
    | nil => exact fun h => h
    | cons m rest ih =>
      intro h
      rw [List.foldl_cons]
      apply ih
      cases m with
      | none => exact h
      | some msg =>
        unfold KeywordAPI.MessageHandler
        simp only
        split
        · rfl
        · exact h

/-- C25, evaluation at the failing input: on a PostPostLoad message whose data pointer is
null the handler returns at its first line: nothing is dispatched (and the index is
unchanged); the ready broadcast is dispatched only when the message carries data. -/
theorem C25_no_broadcast_without_payload (kMessage_PostPostLoad : Nat)
    (mgr : KeywordManager) :
    KeywordMessageHandler kMessage_PostPostLoad mgr (some ⟨kMessage_PostPostLoad, none⟩)
        = some ⟨mgr, none, []⟩ ∧
      ∀ payload : Payload,
        KeywordMessageHandler kMessage_PostPostLoad mgr
            (some ⟨kMessage_PostPostLoad, some payload⟩)
          = some ⟨mgr, some payload, [⟨kMessage_Ready, none⟩]⟩ :=
  ⟨KeywordMessageHandler_null_data _ mgr _, KeywordMessageHandler_postPostLoad _ mgr⟩

/-- C27, evaluation at the failing input: the path "e" names a file that opens and holds no
line; `LoadKeywordsFromINI` returns -1, the same value as for the path "f" that cannot be
opened; for a file with the line `7 = Blade, b ; c` it returns 2. -/
theorem C27_opened_file_returns_minus_one :
    (Cmd_LoadKeywordsFromINI_Execute (fun t => if t = [55] then 7 else 0)
        (fun p => if p = [101] then some [] else none) (some [101])
        KeywordManager.empty).1 = -1 ∧
    (Cmd_LoadKeywordsFromINI_Execute (fun t => if t = [55] then 7 else 0)
        (fun p => if p = [101] then some [] else none) (some [102])
        KeywordManager.empty).1 = -1 ∧
    (Cmd_LoadKeywordsFromINI_Execute (fun t => if t = [55] then 7 else 0)
        (fun p => if p = [101] then
          some [[55, 32, 61, 32, 66, 108, 97, 100, 101, 44, 32, 98, 32, 59, 32, 99]]
          else none) (some [101]) KeywordManager.empty).1 = 2 := by
  decide

/-- C28: Save record layout: for every reachable state (identifiers, set sizes, keyword
lengths and the number of entries being 32-bit values), with `ids` the identifiers that
hold at least one keyword, each once, `Save` emits exactly: one KWCT record with the number
of those identifiers, then for each of them one KWFM record with the identifier, one KWKC
record with its `GetKeywordCount`, and for each keyword of its `GetKeywords` one KWKL record
with the byte length followed by one KWKD record with the bytes. -/
theorem C28_save_record_layout (mgr : KeywordManager) (hreach : Reachable mgr)
    (hfit : Fits32 mgr.formKeywords) (hforms : mgr.formKeywords.length < 2 ^ 32) :
    ∃ ids : List Nat, ids.Nodup ∧ (∀ i, i ∈ ids ↔ 0 < GetKeywordCount mgr i) ∧
      Save mgr
        = ⟨KWCT, 1, u32Bytes ids.length⟩ ::
          ids.flatMap (fun id =>
            ⟨KWFM, 1, u32Bytes id⟩ :: ⟨KWKC, 1, u32Bytes (GetKeywordCount mgr id)⟩ ::
              (GetKeywords mgr id).flatMap
                (fun k => [⟨KWKL, 1, u32Bytes k.length⟩, ⟨KWKD, 1, k⟩])) := by
  have hnd := (reachable_keysDistinct hreach).1
  have hne := (reachable_noEmpty hreach).1
  refine ⟨mgr.formKeywords.map Prod.fst, hnd, ?_, ?_⟩
  · intro i
    rw [mem_keys_iff_lookupSet _ hne, GetKeywordCount_eq, List.length_pos]
    constructor
    · rintro ⟨x, hx⟩ hnil
      rw [hnil] at hx
      exact absurd hx (List.not_mem_nil x)
    · intro h
      exact List.exists_mem_of_ne_nil _ h
  · have hmod : mgr.formKeywords.length % 2 ^ 32 = mgr.formKeywords.length :=
      Nat.mod_eq_of_lt hforms
    simp only [Save, hmod, List.length_map]
    rw [saveForms_eq_flatMap _ hfit, List.flatMap_map]
    congr 1
    apply flatMap_congr_mem
    intro e he
    have hfind := (mem_iff_mapFind _ hnd e.1 e.2).1 he
    have hk : GetKeywords mgr e.1 = e.2 := by
      rw [GetKeywords_eq, lookupSet, hfind]
      rfl
    have hc : GetKeywordCount mgr e.1 = e.2.length := by
      rw [GetKeywordCount_eq, lookupSet, hfind]
      rfl
    rw [hk, hc]

/-- Witness for C28 on the index where 1 holds "a" and "bc" and 2 holds "a". -/
theorem C28_save_record_layout_witness :
    Reachable (AddKeyword (AddKeyword (AddKeyword KeywordManager.empty 1 [98, 99]).2
        2 [97]).2 1 [97]).2 ∧
      Fits32 (AddKeyword (AddKeyword (AddKeyword KeywordManager.empty 1 [98, 99]).2
        2 [97]).2 1 [97]).2.formKeywords ∧
      (AddKeyword (AddKeyword (AddKeyword KeywordManager.empty 1 [98, 99]).2
        2 [97]).2 1 [97]).2.formKeywords.length < 2 ^ 32 ∧
      (∃ ids : List Nat, ids.Nodup ∧
        (∀ i, i ∈ ids ↔ 0 < GetKeywordCount (AddKeyword (AddKeyword (AddKeyword
          KeywordManager.empty 1 [98, 99]).2 2 [97]).2 1 [97]).2 i) ∧
        Save (AddKeyword (AddKeyword (AddKeyword KeywordManager.empty 1 [98, 99]).2
            2 [97]).2 1 [97]).2
          = ⟨KWCT, 1, u32Bytes ids.length⟩ ::
            ids.flatMap (fun id =>
              ⟨KWFM, 1, u32Bytes id⟩ ::
                ⟨KWKC, 1, u32Bytes (GetKeywordCount (AddKeyword (AddKeyword (AddKeyword
                  KeywordManager.empty 1 [98, 99]).2 2 [97]).2 1 [97]).2 id)⟩ ::
                (GetKeywords (AddKeyword (AddKeyword (AddKeyword
                  KeywordManager.empty 1 [98, 99]).2 2 [97]).2 1 [97]).2 id).flatMap
                  (fun k => [⟨KWKL, 1, u32Bytes k.length⟩, ⟨KWKD, 1, k⟩]))) ∧
      Save (AddKeyword (AddKeyword (AddKeyword KeywordManager.empty 1 [98, 99]).2
          2 [97]).2 1 [97]).2
        = [⟨KWCT, 1, [2, 0, 0, 0]⟩,
           ⟨KWFM, 1, [1, 0, 0, 0]⟩, ⟨KWKC, 1, [2, 0, 0, 0]⟩,
           ⟨KWKL, 1, [1, 0, 0, 0]⟩, ⟨KWKD, 1, [97]⟩,
           ⟨KWKL, 1, [2, 0, 0, 0]⟩, ⟨KWKD, 1, [98, 99]⟩,
           ⟨KWFM, 1, [2, 0, 0, 0]⟩, ⟨KWKC, 1, [1, 0, 0, 0]⟩,
           ⟨KWKL, 1, [1, 0, 0, 0]⟩, ⟨KWKD, 1, [97]⟩] :=
  have hr := Reachable.add 1 [97]
    (Reachable.add 2 [97] (Reachable.add 1 [98, 99] Reachable.empty))
  have hf : Fits32 (AddKeyword (AddKeyword (AddKeyword KeywordManager.empty 1 [98, 99]).2
      2 [97]).2 1 [97]).2.formKeywords := by
    unfold Fits32
    decide
  ⟨hr, hf, by decide, C28_save_record_layout _ hr hf (by decide), by decide⟩

/-- C29: Save is independent of mutation history: two reachable states (in particular two
states reached from the empty index by add, remove and clear calls) that hold the same
(identifier, keyword) pairs give the same record stream, record for record. -/
theorem C29_save_history_independent (mgr1 mgr2 : KeywordManager)
    (hreach1 : Reachable mgr1) (hreach2 : Reachable mgr2)
    (hsame : ∀ (i : Nat) (k : StdString),
      k ∈ GetKeywords mgr1 i ↔ k ∈ GetKeywords mgr2 i) :
    Save mgr1 = Save mgr2 := by
  rw [reachable_ext mgr1 mgr2 hreach1 hreach2 hsame]

/-- Witness for C29: add(1,"b"), add(1,"a"), add(2,"c") and add(2,"c"), add(3,"x"),
add(1,"a"), clear(3), add(1,"b"), add(1,"z"), remove(1,"z") end with the same pairs. -/
theorem C29_save_history_independent_witness :
    Reachable (AddKeyword (AddKeyword (AddKeyword KeywordManager.empty 1 [98]).2
        1 [97]).2 2 [99]).2 ∧
      Reachable (RemoveKeyword (AddKeyword (AddKeyword (ClearFormKeywords (AddKeyword
        (AddKeyword (AddKeyword KeywordManager.empty 2 [99]).2 3 [120]).2 1 [97]).2 3)
        1 [98]).2 1 [122]).2 1 [122]).2 ∧
      Save (AddKeyword (AddKeyword (AddKeyword KeywordManager.empty 1 [98]).2
          1 [97]).2 2 [99]).2
        = Save (RemoveKeyword (AddKeyword (AddKeyword (ClearFormKeywords (AddKeyword
          (AddKeyword (AddKeyword KeywordManager.empty 2 [99]).2 3 [120]).2 1 [97]).2 3)
          1 [98]).2 1 [122]).2 1 [122]).2 :=
  have hr1 := Reachable.add 2 [99]
    (Reachable.add 1 [97] (Reachable.add 1 [98] Reachable.empty))
  have hr2 := Reachable.remove 1 [122] (Reachable.add 1 [122] (Reachable.add 1 [98]
    (Reachable.clear 3 (Reachable.add 1 [97] (Reachable.add 3 [120]
      (Reachable.add 2 [99] Reachable.empty))))))
  have hpairs : ∀ (i : Nat) (k : StdString),
      k ∈ GetKeywords (AddKeyword (AddKeyword (AddKeyword KeywordManager.empty 1 [98]).2
          1 [97]).2 2 [99]).2 i
        ↔ k ∈ GetKeywords (RemoveKeyword (AddKeyword (AddKeyword (ClearFormKeywords
          (AddKeyword (AddKeyword (AddKeyword KeywordManager.empty 2 [99]).2 3 [120]).2
            1 [97]).2 3) 1 [98]).2 1 [122]).2 1 [122]).2 i := by
    intro i k
    have e : (AddKeyword (AddKeyword (AddKeyword KeywordManager.empty 1 [98]).2
          1 [97]).2 2 [99]).2
        = (RemoveKeyword (AddKeyword (AddKeyword (ClearFormKeywords
          (AddKeyword (AddKeyword (AddKeyword KeywordManager.empty 2 [99]).2 3 [120]).2
            1 [97]).2 3) 1 [98]).2 1 [122]).2 1 [122]).2 := by decide
    rw [e]
  ⟨hr1, hr2, C29_save_history_independent _ _ hr1 hr2 hpairs⟩

/-- C30: the count record is advisory only: the stream written by `Save` starts with the
KWCT record; for every state, resolver and 32-bit value, Load of the stream with the value
of that record replaced, and Load of the stream with that record deleted, give the index
that Load of the stream as written gives. -/
theorem C30_count_record_is_advisory (resolve : Nat → Option Nat) (junk : Nat → Nat)
    (mgr mgr0 : KeywordManager) (v : Nat) :
    Save mgr = ⟨KWCT, 1, u32Bytes (mgr.formKeywords.length % 2 ^ 32)⟩ :: (Save mgr).tail ∧
      Load resolve junk (⟨KWCT, 1, u32Bytes v⟩ :: (Save mgr).tail) mgr0
        = Load resolve junk (Save mgr) mgr0 ∧
      Load resolve junk (Save mgr).tail mgr0 = Load resolve junk (Save mgr) mgr0 := by
  refine ⟨rfl, ?_, ?_⟩
  · rw [Load_cons_KWCT]
    exact (Load_cons_KWCT resolve junk 1 _ _ mgr0).symm
  · exact (Load_cons_KWCT resolve junk 1 _ _ mgr0).symm

/-- C31: parsed keywords are trimmed and non-empty: on every line for which `ParseLine`
returns true, the form token is non-empty and neither starts nor ends with whitespace, the
keyword list is non-empty, and every keyword of it is non-empty, neither starts nor ends
with whitespace, holds no comma, and is accepted by `AddKeyword` on every index and
identifier. -/
theorem C31_parsed_keywords_trimmed (rawLine : StdString)
    (hparse : (ParseLine rawLine).1 = true) :
    (ParseLine rawLine).2.1 ≠ [] ∧ IsTrimmed (ParseLine rawLine).2.1 ∧
      (ParseLine rawLine).2.2 ≠ [] ∧
      ∀ kw ∈ (ParseLine rawLine).2.2,
        kw ≠ [] ∧ IsTrimmed kw ∧ 44 ∉ kw ∧
          ∀ (mgr : KeywordManager) (formID : Nat), (AddKeyword mgr formID kw).1 = true := by
  obtain ⟨htok, htokne, hkws, hkwsne⟩ := ParseLine_true rawLine hparse
  refine ⟨htokne, ?_, hkwsne, ?_⟩
  · rw [htok]
    exact isTrimmed_Trim _
  · intro kw hkw
    rw [hkws, List.mem_filter, List.mem_map] at hkw
    obtain ⟨⟨piece, hpiece, hkwe⟩, hne⟩ := hkw
    have hne' : kw ≠ [] := by
      intro e
      rw [e] at hne
      exact absurd hne (by decide)
    refine ⟨hne', ?_, ?_, ?_⟩
    · rw [← hkwe]
      exact isTrimmed_Trim _
    · intro hm
      rw [← hkwe] at hm
      exact not_mem_getlinePieces 44 _ [] (List.not_mem_nil _) piece hpiece
        (mem_of_mem_Trim hm)
    · intro mgr formID
      unfold AddKeyword
      rw [if_neg (fun h => hne' (List.isEmpty_iff.1 h))]

/-- Witness for C31: the line ` A = b ,<TAB>cd ,, ;x` parses to the token "A" and the
keywords "b" and "cd". -/
theorem C31_parsed_keywords_trimmed_witness :
    ParseLine [32, 65, 32, 61, 32, 98, 32, 44, 9, 99, 100, 32, 44, 44, 32, 59, 120]
        = (true, [65], [[98], [99, 100]]) ∧
      ((ParseLine
          [32, 65, 32, 61, 32, 98, 32, 44, 9, 99, 100, 32, 44, 44, 32, 59, 120]).2.1 ≠ [] ∧
        IsTrimmed (ParseLine
          [32, 65, 32, 61, 32, 98, 32, 44, 9, 99, 100, 32, 44, 44, 32, 59, 120]).2.1 ∧
        (ParseLine
          [32, 65, 32, 61, 32, 98, 32, 44, 9, 99, 100, 32, 44, 44, 32, 59, 120]).2.2 ≠ [] ∧
        ∀ kw ∈ (ParseLine
          [32, 65, 32, 61, 32, 98, 32, 44, 9, 99, 100, 32, 44, 44, 32, 59, 120]).2.2,
          kw ≠ [] ∧ IsTrimmed kw ∧ 44 ∉ kw ∧
            ∀ (mgr : KeywordManager) (formID : Nat), (AddKeyword mgr formID kw).1 = true) :=
  ⟨by decide,
    C31_parsed_keywords_trimmed
      [32, 65, 32, 61, 32, 98, 32, 44, 9, 99, 100, 32, 44, 44, 32, 59, 120]
      (by decide)⟩

/-- C32: the two listing queries return sorted, duplicate-free sequences: in every
reachable index state `GetKeywords` lists the keywords of an identifier in strictly
ascending byte-wise lexicographic order (the `operator<` of `std::string`) and
`GetFormsWithKeyword` lists identifiers in strictly ascending numeric order, neither with a
repetition; so two reachable states in which the identifier holds the same set of keywords
list them identically, and a get-nth request for any index and buffer ends with the same
payload in both. -/
theorem C32_listings_sorted (mgr : KeywordManager) (hreach : Reachable mgr) (formID : Nat)
    (keyword : StdString) :
    (GetKeywords mgr formID).Pairwise (fun a b => strLt a b = true) ∧
      (GetKeywords mgr formID).Nodup ∧
      (GetFormsWithKeyword mgr keyword).Pairwise (fun a b => a < b) ∧
      (GetFormsWithKeyword mgr keyword).Nodup ∧
      ∀ mgr2 : KeywordManager, Reachable mgr2 →
        (∀ k : StdString, k ∈ GetKeywords mgr formID ↔ k ∈ GetKeywords mgr2 formID) →
        GetKeywords mgr formID = GetKeywords mgr2 formID ∧
          ∀ (kMessage_PostPostLoad index : Nat) (buffer : List Nat),
            (KeywordMessageHandler kMessage_PostPostLoad mgr
                (some ⟨kMessage_GetNth, some (.nth ⟨formID, index, buffer⟩)⟩)).map
                (fun out => out.data)
              = (KeywordMessageHandler kMessage_PostPostLoad mgr2
                (some ⟨kMessage_GetNth, some (.nth ⟨formID, index, buffer⟩)⟩)).map
                (fun out => out.data) := by
  have hw := reachable_wellOrdered hreach
  have hk := sortedBy_GetKeywords hw formID
  have hf := sortedBy_GetFormsWithKeyword hw keyword
  refine ⟨hk, sortedBy_nodup strLt strictTotal_strLt _ hk, ?_,
    sortedBy_nodup u32Lt strictTotal_u32Lt _ hf, ?_⟩
  · unfold SortedBy at hf
    refine hf.imp ?_
    intro a b hab
    simpa [u32Lt] using hab
  · intro mgr2 hreach2 hsame
    have he : GetKeywords mgr formID = GetKeywords mgr2 formID :=
      sortedBy_ext strLt strictTotal_strLt _ _ hk
        (sortedBy_GetKeywords (reachable_wellOrdered hreach2) formID) hsame
    refine ⟨he, ?_⟩
    intro ppl index buffer
    exact KeywordMessageHandler_getNth_congr ppl mgr mgr2 ⟨formID, index, buffer⟩ he

/-- Witness for C32: add(1,"b"), add(1,"a"), add(2,"a") lists "a", "b" for 1 and 1, 2 for
"a"; the state reached by add(1,"a"), add(3,"z"), add(1,"b") holds the same keywords for 1
and answers the get-nth request for index 1 with the same payload, the keyword "b". -/
theorem C32_listings_sorted_witness :
    Reachable (AddKeyword (AddKeyword (AddKeyword KeywordManager.empty 1 [98]).2
        1 [97]).2 2 [97]).2 ∧
      GetKeywords (AddKeyword (AddKeyword (AddKeyword KeywordManager.empty 1 [98]).2
        1 [97]).2 2 [97]).2 1 = [[97], [98]] ∧
      GetFormsWithKeyword (AddKeyword (AddKeyword (AddKeyword KeywordManager.empty 1 [98]).2
        1 [97]).2 2 [97]).2 [97] = [1, 2] ∧
      (KeywordMessageHandler 9 (AddKeyword (AddKeyword (AddKeyword KeywordManager.empty
            1 [98]).2 1 [97]).2 2 [97]).2
          (some ⟨kMessage_GetNth, some (.nth ⟨1, 1, [0, 0, 0]⟩)⟩)).map (fun out => out.data)
        = (KeywordMessageHandler 9 (AddKeyword (AddKeyword (AddKeyword KeywordManager.empty
            1 [97]).2 3 [122]).2 1 [98]).2
          (some ⟨kMessage_GetNth, some (.nth ⟨1, 1, [0, 0, 0]⟩)⟩)).map (fun out => out.data) ∧
      (KeywordMessageHandler 9 (AddKeyword (AddKeyword (AddKeyword KeywordManager.empty
            1 [97]).2 3 [122]).2 1 [98]).2
          (some ⟨kMessage_GetNth, some (.nth ⟨1, 1, [0, 0, 0]⟩)⟩)).map (fun out => out.data)
        = some (some (.nth ⟨1, 1, [98, 0, 0]⟩)) :=
  have hr1 := Reachable.add 2 [97]
    (Reachable.add 1 [97] (Reachable.add 1 [98] Reachable.empty))
  have hr2 := Reachable.add 1 [98]
    (Reachable.add 3 [122] (Reachable.add 1 [97] Reachable.empty))
  have hsame : ∀ k : StdString,
      k ∈ GetKeywords (AddKeyword (AddKeyword (AddKeyword KeywordManager.empty 1 [98]).2
          1 [97]).2 2 [97]).2 1
        ↔ k ∈ GetKeywords (AddKeyword (AddKeyword (AddKeyword KeywordManager.empty
          1 [97]).2 3 [122]).2 1 [98]).2 1 := by
    intro k
    have e : GetKeywords (AddKeyword (AddKeyword (AddKeyword KeywordManager.empty 1 [98]).2
          1 [97]).2 2 [97]).2 1
        = GetKeywords (AddKeyword (AddKeyword (AddKeyword KeywordManager.empty
          1 [97]).2 3 [122]).2 1 [98]).2 1 := by decide
    rw [e]
  ⟨hr1, by decide, by decide,
    ((C32_listings_sorted _ hr1 1 [97]).2.2.2.2 _ hr2 hsame).2 9 1 [0, 0, 0], by decide⟩

/-- C33: remove undoes add: for every reachable index state, identifier and non-empty
keyword that the identifier does not hold, `AddKeyword` followed by `RemoveKeyword` of the
same pair gives back exactly the state before (both maps), both calls returning true. -/
theorem C33_remove_undoes_add (mgr : KeywordManager) (hreach : Reachable mgr) (formID : Nat)
    (keyword : StdString) (hne : keyword ≠ [])
    (hhas : HasKeyword mgr formID keyword = false) :
    (AddKeyword mgr formID keyword).1 = true ∧
      (RemoveKeyword (AddKeyword mgr formID keyword).2 formID keyword).1 = true ∧
      (RemoveKeyword (AddKeyword mgr formID keyword).2 formID keyword).2 = mgr := by
  have hnot : ¬ toLowerStr keyword ∈ lookupSet formID mgr.formKeywords := by
    intro hm
    rw [(HasKeyword_iff mgr formID keyword).2 hm] at hhas
    exact Bool.noConfusion hhas
  refine ⟨?_, rfl, ?_⟩
  · unfold AddKeyword
    rw [if_neg (fun h => hne (List.isEmpty_iff.1 h))]
  · apply reachable_ext _ _
      (Reachable.remove formID keyword (Reachable.add formID keyword hreach)) hreach
    intro i k
    rw [GetKeywords_eq, GetKeywords_eq]
    have hrm : (RemoveKeyword (AddKeyword mgr formID keyword).2 formID keyword).2.formKeywords
        = eraseAndPrune formID (toLowerStr keyword)
            (AddKeyword mgr formID keyword).2.formKeywords := rfl
    rw [hrm, mem_lookupSet_eraseAndPrune, mem_lookupSet_AddKeyword]
    constructor
    · rintro ⟨h | ⟨hi, _, hk⟩, hn⟩
      · exact h
      · exact absurd ⟨hi, hk.symm⟩ hn
    · intro h
      refine ⟨Or.inl h, ?_⟩
      rintro ⟨hi, hk⟩
      rw [hi, hk] at h
      exact hnot h

/-- Witness for C33: in the state reached by add(1,"a"), add(2,"b"), the identifier 3 is
unknown and 1 does not hold "B"; add then remove of (3,"C") and of (1,"B") give the state
back. -/
theorem C33_remove_undoes_add_witness :
    (Reachable (AddKeyword (AddKeyword KeywordManager.empty 1 [97]).2 2 [98]).2 ∧
      ([67] : StdString) ≠ [] ∧
      HasKeyword (AddKeyword (AddKeyword KeywordManager.empty 1 [97]).2 2 [98]).2 3 [67]
        = false ∧
      (AddKeyword (AddKeyword (AddKeyword KeywordManager.empty 1 [97]).2 2 [98]).2
          3 [67]).1 = true ∧
      (RemoveKeyword (AddKeyword (AddKeyword (AddKeyword KeywordManager.empty 1 [97]).2
          2 [98]).2 3 [67]).2 3 [67]).1 = true ∧
      (RemoveKeyword (AddKeyword (AddKeyword (AddKeyword KeywordManager.empty 1 [97]).2
          2 [98]).2 3 [67]).2 3 [67]).2
        = (AddKeyword (AddKeyword KeywordManager.empty 1 [97]).2 2 [98]).2) ∧
    (RemoveKeyword (AddKeyword (AddKeyword (AddKeyword KeywordManager.empty 1 [97]).2
        2 [98]).2 1 [66]).2 1 [66]).2
      = (AddKeyword (AddKeyword KeywordManager.empty 1 [97]).2 2 [98]).2 :=
  have hr := Reachable.add 2 [98] (Reachable.add 1 [97] Reachable.empty)
  ⟨⟨hr, by decide, by decide,
      C33_remove_undoes_add _ hr 3 [67] (by decide) (by decide)⟩,
    by decide⟩

/-- C34, evaluation at the failing input: identifier 1 holds the keyword `a NUL b`,
identifier 2 holds "c", the resolver maps 1 to 2 and fails on every other identifier; after
Load identifier 2 holds "a" and "c", so `a NUL b` is dropped from the union.  With "ab" in
place of `a NUL b` the same load files "ab" and "c" under 2. -/
theorem C34_merge_truncates_at_nul :
    Reachable (AddKeyword (AddKeyword KeywordManager.empty 1 [97, 0, 98]).2 2 [99]).2 ∧
      GetKeywords (AddKeyword (AddKeyword KeywordManager.empty 1 [97, 0, 98]).2 2 [99]).2 1
        = [[97, 0, 98]] ∧
      GetKeywords (AddKeyword (AddKeyword KeywordManager.empty 1 [97, 0, 98]).2 2 [99]).2 2
        = [[99]] ∧
      (Load (fun x => if x = 1 then some 2 else none) (fun _ => 0)
          (Save (AddKeyword (AddKeyword KeywordManager.empty 1 [97, 0, 98]).2 2 [99]).2)
          KeywordManager.empty).map (fun m => (GetKeywords m 2, GetKeywords m 1))
        = some ([[97], [99]], []) ∧
      (Load (fun x => if x = 1 then some 2 else none) (fun _ => 0)
          (Save (AddKeyword (AddKeyword KeywordManager.empty 1 [97, 98]).2 2 [99]).2)
          KeywordManager.empty).map (fun m => (GetKeywords m 2, GetKeywords m 1))
        = some ([[97, 98], [99]], []) :=
  ⟨Reachable.add 2 [99] (Reachable.add 1 [97, 0, 98] Reachable.empty),
    by decide, by decide, by decide, by decide⟩

end OBSEKeywords
